import Mathlib

/-!
# SecretBlaze software cipher kernels: AES-128 and DES

A shallow embedding of `sw/apps/aes/aes.c` and `sw/apps/des/des.c`, and of the two
loops of the test bench `sw/apps/des/main.c` that fix the byte order of a block.

* C unsigned integers are natural numbers; a conversion to a narrower unsigned
  type is written `u8`, `u32` where it can change the value (after a left
  shift).  XOR, AND, OR, right shifts and table look-ups of bytes are bytes
  again, so no conversion is written there.
* C arrays are lists read with `List.getD _ _ 0` and written with `List.set`.
  The two-dimensional arrays `state[4][Nb]` and `w[4][Nb*(Nr+1)]` are kept in
  their row-major memory layout: `state[j][i]` is entry `j * Nb + i`.
* `for`/`while` loops are `forLoop body n`, which runs `body 0`, ..., `body (n-1)`.
* Output parameters (`dat_o`, `w`, `*key`, `*data`) are passed in and returned.
* The headers `aes.h` and `des.h` are not part of the sources at hand; their
  tables are collected in `AesTables` and `DesTables`, which the functions take
  as a parameter, and instantiated by `aes_h` and `des_h`.
-/

namespace SecretBlaze

/-! ## Common definitions -/

/-- Conversion to `sb_uint8_t` (`unsigned char`). -/
def u8 (x : Nat) : Nat := x % 256

/-- Conversion to `sb_uint32_t` (`unsigned int`). -/
def u32 (x : Nat) : Nat := x % 4294967296

/-- A counted loop: `forLoop body n s` runs `body 0`, `body 1`, ..., `body (n-1)` on `s`. -/
def forLoop {σ : Type} (body : Nat → σ → σ) : Nat → σ → σ
  | 0, s => s
  | n + 1, s => body n (forLoop body n s)

/-! ## AES (`sw/apps/aes/aes.c`) -/

/-- Modelled from the spec: `Nk` of `aes.h`, the key length in 32-bit words (128-bit key). -/
def Nk : Nat := 4

/-- Modelled from the spec: `Nb` of `aes.h`, the number of state columns. -/
def Nb : Nat := 4

/-- Modelled from the spec: `Nr` of `aes.h`, the number of rounds (11 round keys). -/
def Nr : Nat := 10

/-- The constant tables declared in `aes.h`. -/
structure AesTables where
  Sbox : List Nat
  InvSbox : List Nat
  Rcon : List Nat

/-- Read `a[j][i]` of a two-dimensional byte array with `cols` columns. -/
def get2 (cols : Nat) (a : List Nat) (j i : Nat) : Nat := a.getD (j * cols + i) 0

/-- Write `a[j][i] = v` in a two-dimensional byte array with `cols` columns. -/
def set2 (cols : Nat) (a : List Nat) (j i v : Nat) : List Nat := a.set (j * cols + i) v

/-- The function `RotWord` of aes.c. -/
def RotWord (w : List Nat) : List Nat :=
  let buf := w.getD 0 0
  let w := w.set 0 (w.getD 1 0)
  let w := w.set 1 (w.getD 2 0)
  let w := w.set 2 (w.getD 3 0)
  w.set 3 buf

/-- The function `SubWord` of aes.c. -/
def SubWord (T : AesTables) (w : List Nat) : List Nat :=
  let w := w.set 0 (T.Sbox.getD (w.getD 0 0) 0)
  let w := w.set 1 (T.Sbox.getD (w.getD 1 0) 0)
  let w := w.set 2 (T.Sbox.getD (w.getD 2 0) 0)
  w.set 3 (T.Sbox.getD (w.getD 3 0) 0)

/-- First loop of `KeyExpansion` (one iteration): copy key word `i`. -/
def KeyExpansion_copy (key : List Nat) (i : Nat) (w : List Nat) : List Nat :=
  let w := set2 (Nb * (Nr + 1)) w 0 i (key.getD (4 * i) 0)
  let w := set2 (Nb * (Nr + 1)) w 1 i (key.getD (4 * i + 1) 0)
  let w := set2 (Nb * (Nr + 1)) w 2 i (key.getD (4 * i + 2) 0)
  set2 (Nb * (Nr + 1)) w 3 i (key.getD (4 * i + 3) 0)

/-- Second loop of `KeyExpansion` (one iteration): compute schedule word `i`. -/
def KeyExpansion_word (T : AesTables) (i : Nat) (w : List Nat) : List Nat :=
  let temp := [get2 (Nb * (Nr + 1)) w 0 (i - 1), get2 (Nb * (Nr + 1)) w 1 (i - 1),
               get2 (Nb * (Nr + 1)) w 2 (i - 1), get2 (Nb * (Nr + 1)) w 3 (i - 1)]
  let temp :=
    if i % Nk = 0 then
      let temp := RotWord temp
      let temp := SubWord T temp
      temp.set 0 (temp.getD 0 0 ^^^ T.Rcon.getD (i / Nk) 0)
    else if Nk > 6 ∧ i % Nk = 4 then
      SubWord T temp
    else temp
  let w := set2 (Nb * (Nr + 1)) w 0 i (get2 (Nb * (Nr + 1)) w 0 (i - Nk) ^^^ temp.getD 0 0)
  let w := set2 (Nb * (Nr + 1)) w 1 i (get2 (Nb * (Nr + 1)) w 1 (i - Nk) ^^^ temp.getD 1 0)
  let w := set2 (Nb * (Nr + 1)) w 2 i (get2 (Nb * (Nr + 1)) w 2 (i - Nk) ^^^ temp.getD 2 0)
  set2 (Nb * (Nr + 1)) w 3 i (get2 (Nb * (Nr + 1)) w 3 (i - Nk) ^^^ temp.getD 3 0)

/-- The function `KeyExpansion` of aes.c; `w` is the schedule buffer of the caller, the result
its content on return.  The second loop runs `i = Nk, ..., Nb*(Nr+1) - 1`. -/
def KeyExpansion (T : AesTables) (key w : List Nat) : List Nat :=
  let w := forLoop (fun i w => KeyExpansion_copy key i w) Nk w
  forLoop (fun k w => KeyExpansion_word T (Nk + k) w) (Nb * (Nr + 1) - Nk) w

/-- The function `SubBytes` of aes.c. -/
def SubBytes (T : AesTables) (state : List Nat) : List Nat :=
  forLoop (fun i state =>
    forLoop (fun j state => set2 Nb state j i (T.Sbox.getD (get2 Nb state j i) 0)) 4 state)
    Nb state

/-- The function `AddRoundKey` of aes.c. -/
def AddRoundKey (state w : List Nat) (round : Nat) : List Nat :=
  forLoop (fun i state =>
    forLoop (fun j state =>
      set2 Nb state j i (get2 Nb state j i ^^^ get2 (Nb * (Nr + 1)) w j (round * Nb + i))) 4 state)
    Nb state

/-- The function `ShiftRows` of aes.c. -/
def ShiftRows (state : List Nat) : List Nat :=
  -- << 1
  let buf := get2 Nb state 1 0
  let state := set2 Nb state 1 0 (get2 Nb state 1 1)
  let state := set2 Nb state 1 1 (get2 Nb state 1 2)
  let state := set2 Nb state 1 2 (get2 Nb state 1 3)
  let state := set2 Nb state 1 3 buf
  -- << 2
  let buf := get2 Nb state 2 0
  let state := set2 Nb state 2 0 (get2 Nb state 2 2)
  let state := set2 Nb state 2 2 buf
  let buf := get2 Nb state 2 1
  let state := set2 Nb state 2 1 (get2 Nb state 2 3)
  let state := set2 Nb state 2 3 buf
  -- << 3
  let buf := get2 Nb state 3 0
  let state := set2 Nb state 3 0 (get2 Nb state 3 3)
  let state := set2 Nb state 3 3 (get2 Nb state 3 2)
  let state := set2 Nb state 3 2 (get2 Nb state 3 1)
  set2 Nb state 3 1 buf

/-- The function `Mult2GF` of aes.c. -/
def Mult2GF (val : Nat) : Nat :=
  u8 ((val <<< 1) ^^^ (((val >>> 7) &&& 1) * 0x1b))

/-- The function `Mult3GF` of aes.c. -/
def Mult3GF (val : Nat) : Nat :=
  Mult2GF val ^^^ val

/-- The local variables of `MultGF` that live across loop iterations. -/
structure MultGFVars where
  res : Nat
  a_buf : Nat
  b_buf : Nat
deriving DecidableEq, Repr

/-- One iteration of the loop of `MultGF`. -/
def MultGF_body (s : MultGFVars) : MultGFVars :=
  let res := if s.b_buf &&& 1 = 1 then s.res ^^^ s.a_buf else s.res
  let sign_a := s.a_buf &&& 0x80
  let a_buf := u8 (s.a_buf <<< 1)
  let a_buf := if sign_a = 0x80 then a_buf ^^^ 0x1b else a_buf
  let b_buf := s.b_buf >>> 1
  { res := res, a_buf := a_buf, b_buf := b_buf }

/-- The function `MultGF` of aes.c. -/
def MultGF (a b : Nat) : Nat :=
  (forLoop (fun _ s => MultGF_body s) 8 { res := 0, a_buf := a, b_buf := b }).res

/-- One iteration of the loop of `MixColumns`: column `i`. -/
def MixColumns_col (i : Nat) (state : List Nat) : List Nat :=
  let buf0 := get2 Nb state 0 i
  let buf1 := get2 Nb state 1 i
  let buf2 := get2 Nb state 2 i
  let buf3 := get2 Nb state 3 i
  let state := set2 Nb state 0 i (Mult2GF buf0 ^^^ Mult3GF buf1 ^^^ buf2 ^^^ buf3)
  let state := set2 Nb state 1 i (buf0 ^^^ Mult2GF buf1 ^^^ Mult3GF buf2 ^^^ buf3)
  let state := set2 Nb state 2 i (buf0 ^^^ buf1 ^^^ Mult2GF buf2 ^^^ Mult3GF buf3)
  set2 Nb state 3 i (Mult3GF buf0 ^^^ buf1 ^^^ buf2 ^^^ Mult2GF buf3)

/-- The function `MixColumns` of aes.c. -/
def MixColumns (state : List Nat) : List Nat :=
  forLoop MixColumns_col 4 state

/-- The function `InvSubBytes` of aes.c. -/
def InvSubBytes (T : AesTables) (state : List Nat) : List Nat :=
  forLoop (fun i state =>
    forLoop (fun j state => set2 Nb state j i (T.InvSbox.getD (get2 Nb state j i) 0)) 4 state)
    Nb state

/-- The function `InvShiftRows` of aes.c. -/
def InvShiftRows (state : List Nat) : List Nat :=
  -- >> 1
  let buf := get2 Nb state 1 3
  let state := set2 Nb state 1 3 (get2 Nb state 1 2)
  let state := set2 Nb state 1 2 (get2 Nb state 1 1)
  let state := set2 Nb state 1 1 (get2 Nb state 1 0)
  let state := set2 Nb state 1 0 buf
  -- >> 2
  let buf := get2 Nb state 2 2
  let state := set2 Nb state 2 2 (get2 Nb state 2 0)
  let state := set2 Nb state 2 0 buf
  let buf := get2 Nb state 2 1
  let state := set2 Nb state 2 1 (get2 Nb state 2 3)
  let state := set2 Nb state 2 3 buf
  -- >> 3
  let buf := get2 Nb state 3 1
  let state := set2 Nb state 3 1 (get2 Nb state 3 2)
  let state := set2 Nb state 3 2 (get2 Nb state 3 3)
  let state := set2 Nb state 3 3 (get2 Nb state 3 0)
  set2 Nb state 3 0 buf

/-- One iteration of the loop of `InvMixColumns`: column `i`. -/
def InvMixColumns_col (i : Nat) (state : List Nat) : List Nat :=
  let buf0 := get2 Nb state 0 i
  let buf1 := get2 Nb state 1 i
  let buf2 := get2 Nb state 2 i
  let buf3 := get2 Nb state 3 i
  let state := set2 Nb state 0 i
    (MultGF buf0 0xE ^^^ MultGF buf1 0xB ^^^ MultGF buf2 0xD ^^^ MultGF buf3 0x9)
  let state := set2 Nb state 1 i
    (MultGF buf0 0x9 ^^^ MultGF buf1 0xE ^^^ MultGF buf2 0xB ^^^ MultGF buf3 0xD)
  let state := set2 Nb state 2 i
    (MultGF buf0 0xD ^^^ MultGF buf1 0x9 ^^^ MultGF buf2 0xE ^^^ MultGF buf3 0xB)
  set2 Nb state 3 i
    (MultGF buf0 0xB ^^^ MultGF buf1 0xD ^^^ MultGF buf2 0x9 ^^^ MultGF buf3 0xE)

/-- The function `InvMixColumns` of aes.c. -/
def InvMixColumns (state : List Nat) : List Nat :=
  forLoop InvMixColumns_col 4 state

/-- Prologue of `Cipher` and `InvCipher`: load the block into the local `state`
(every entry of which is written). -/
def loadState (dat_i : List Nat) : List Nat :=
  forLoop (fun i state =>
    forLoop (fun j state => set2 Nb state j i (dat_i.getD (i * Nb + j) 0)) 4 state)
    Nb (List.replicate (4 * Nb) 0)

/-- Epilogue of `Cipher` and `InvCipher`: store the local `state` into `dat_o`. -/
def storeState (state dat_o : List Nat) : List Nat :=
  forLoop (fun i dat_o =>
    forLoop (fun j dat_o => dat_o.set (i * Nb + j) (get2 Nb state j i)) 4 dat_o)
    Nb dat_o

/-- One iteration of the round loop of `Cipher`, for loop counter `i`. -/
def Cipher_round (T : AesTables) (w : List Nat) (i : Nat) (state : List Nat) : List Nat :=
  let state := SubBytes T state
  let state := ShiftRows state
  let state := MixColumns state
  AddRoundKey state w i

/-- The function `Cipher` of aes.c; `dat_o` is the output buffer of the caller, the result its
content on return.  The round loop runs `i = 1, ..., Nr - 1`. -/
def Cipher (T : AesTables) (dat_i dat_o w : List Nat) : List Nat :=
  -- PROLOGUE
  let state := loadState dat_i
  -- KERNEL
  let state := AddRoundKey state w 0
  let state := forLoop (fun k state => Cipher_round T w (k + 1) state) (Nr - 1) state
  let state := SubBytes T state
  let state := ShiftRows state
  let state := AddRoundKey state w Nr
  -- EPILOGUE
  storeState state dat_o

/-- One iteration of the round loop of `InvCipher`, for loop counter `i`. -/
def InvCipher_round (T : AesTables) (w : List Nat) (i : Nat) (state : List Nat) : List Nat :=
  let state := InvShiftRows state
  let state := InvSubBytes T state
  let state := AddRoundKey state w i
  InvMixColumns state

/-- The function `InvCipher` of aes.c.  The round loop runs `i = Nr - 1, ..., 1`. -/
def InvCipher (T : AesTables) (dat_i dat_o w : List Nat) : List Nat :=
  -- PROLOGUE
  let state := loadState dat_i
  -- KERNEL
  let state := AddRoundKey state w Nr
  let state := forLoop (fun k state => InvCipher_round T w (Nr - 1 - k) state) (Nr - 1) state
  let state := InvShiftRows state
  let state := InvSubBytes T state
  let state := AddRoundKey state w 0
  -- EPILOGUE
  storeState state dat_o

/-! ## DES (`sw/apps/des/des.c`) -/

/-- The constant tables declared in `des.h`: permutation tables holding bit positions
counted from 1 at the most significant bit, the eight S-boxes of 64 entries each, and the
per-round rotation amounts of the key schedule for both modes. -/
structure DesTables where
  ip_table_c : List Nat
  fp_table_c : List Nat
  pc1_table_c : List Nat
  pc2_table_c : List Nat
  exp_table_c : List Nat
  sbox_p_table_c : List Nat
  sbox1 : List Nat
  sbox2 : List Nat
  sbox3 : List Nat
  sbox4 : List Nat
  sbox5 : List Nat
  sbox6 : List Nat
  sbox7 : List Nat
  sbox8 : List Nat
  encrypt_rotate_tab : List Nat
  decrypt_rotate_tab : List Nat

/-- Modelled from the spec: `MODE_CIPHER` of `des.h` (mode is one of encrypt, decrypt;
only the two values being different matters). -/
def MODE_CIPHER : Nat := 0

/-- Modelled from the spec: `MODE_DECIPHER` of `des.h`. -/
def MODE_DECIPHER : Nat := 1

/-- Modelled from the spec: `NB_ROUND` of `des.h`, 16 rounds. -/
def NB_ROUND : Nat := 16

/-- Modelled from the spec: `DATA_BIT_WIDTH` of `des.h`, the 64-bit block. -/
def DATA_BIT_WIDTH : Nat := 64

/-- Modelled from the spec: `DATA_BIT_WIDTH_2` of `des.h`, a 32-bit half block. -/
def DATA_BIT_WIDTH_2 : Nat := 32

/-- Modelled from the spec: `DATA_BIT_WIDTH_2_MASK` of `des.h`, the low 32 bits. -/
def DATA_BIT_WIDTH_2_MASK : Nat := 0xFFFFFFFF

/-- Modelled from the spec: `KEY_BIT_WIDTH` of `des.h`, the 56-bit key state. -/
def KEY_BIT_WIDTH : Nat := 56

/-- Modelled from the spec: `KEY_BIT_WIDTH_2` of `des.h`, a 28-bit key half. -/
def KEY_BIT_WIDTH_2 : Nat := 28

/-- Modelled from the spec: `KEY_BIT_WIDTH_2_MASK` of `des.h`, the low 28 bits. -/
def KEY_BIT_WIDTH_2_MASK : Nat := 0x0FFFFFFF

/-- Modelled from the spec: `SUBKEY_BIT_WIDTH` of `des.h`, 48-bit round keys. -/
def SUBKEY_BIT_WIDTH : Nat := 48

/-- Modelled from the spec: `PC1_BIT_WIDTH` of `des.h`, output width of PC1. -/
def PC1_BIT_WIDTH : Nat := 56

/-- Modelled from the spec: `IP_BIT_WIDTH` of `des.h`, output width of IP. -/
def IP_BIT_WIDTH : Nat := 64

/-- Modelled from the spec: `FP_BIT_WIDTH` of `des.h`, output width of FP. -/
def FP_BIT_WIDTH : Nat := 64

/-- Modelled from the spec: `EXP_BIT_WIDTH` of `des.h`, output width of the expansion. -/
def EXP_BIT_WIDTH : Nat := 48

/-- Modelled from the spec: `SBOX_IN_BIT_WIDTH` of `des.h`, 6-bit S-box input groups. -/
def SBOX_IN_BIT_WIDTH : Nat := 6

/-- Modelled from the spec: `SBOX_IN_BIT_WIDTH_MASK` of `des.h`, the low 6 bits. -/
def SBOX_IN_BIT_WIDTH_MASK : Nat := 0x3F

/-- Modelled from the spec: `SBOX_OUT_BIT_WIDTH` of `des.h`, 4-bit S-box outputs. -/
def SBOX_OUT_BIT_WIDTH : Nat := 4

/-- Modelled from the spec: the macro `SEL_BIT(data, data_tmp, pos)` of `des.h`, which
extracts bit `pos` of `data` (bit 0 = least significant); the value it assigns. -/
def SEL_BIT (data pos : Nat) : Nat := (data >>> pos) &&& 1

/-- The function `do_perm` of des.c.  `size_data_in - table[i]` is a `sb_uint32_t`
subtraction and wraps modulo 2^32 when the table entry exceeds `size_data_in`.  For
`size_data_out <= 64` no shifted bit leaves the 64-bit word `data_res`. -/
def do_perm (data : Nat) (table : List Nat) (size_data_in size_data_out : Nat) : Nat :=
  forLoop (fun i data_res =>
    let data_tmp := SEL_BIT data (u32 (size_data_in + 4294967296 - table.getD i 0))
    data_res ||| (data_tmp <<< (size_data_out - 1 - i))) size_data_out 0

/-- The function `do_key` of des.c: the new value of `*key` and the returned subkey. -/
def do_key (T : DesTables) (key round mode : Nat) : Nat × Nat :=
  -- RIGHT
  let key_r := u32 (key &&& KEY_BIT_WIDTH_2_MASK)
  -- LEFT
  let key_l := u32 (key >>> KEY_BIT_WIDTH_2)
  let rot : Nat × Nat :=
    if mode = MODE_CIPHER then
      (((u32 (key_r <<< T.encrypt_rotate_tab.getD round 0)) |||
          (key_r >>> (KEY_BIT_WIDTH_2 - T.encrypt_rotate_tab.getD round 0))) &&&
          KEY_BIT_WIDTH_2_MASK,
       ((u32 (key_l <<< T.encrypt_rotate_tab.getD round 0)) |||
          (key_l >>> (KEY_BIT_WIDTH_2 - T.encrypt_rotate_tab.getD round 0))) &&&
          KEY_BIT_WIDTH_2_MASK)
    else if mode = MODE_DECIPHER then
      (((key_r >>> T.decrypt_rotate_tab.getD round 0) |||
          u32 (key_r <<< (KEY_BIT_WIDTH_2 - T.decrypt_rotate_tab.getD round 0))) &&&
          KEY_BIT_WIDTH_2_MASK,
       ((key_l >>> T.decrypt_rotate_tab.getD round 0) |||
          u32 (key_l <<< (KEY_BIT_WIDTH_2 - T.decrypt_rotate_tab.getD round 0))) &&&
          KEY_BIT_WIDTH_2_MASK)
    else (key_r, key_l)
  let key_r := rot.1
  let key_l := rot.2
  -- UPDATE KEY
  let key := (key_l <<< KEY_BIT_WIDTH_2) ||| key_r
  -- SUB KEY
  let subkey := do_perm key T.pc2_table_c KEY_BIT_WIDTH SUBKEY_BIT_WIDTH
  (key, subkey)

/-- The S-box index of `do_feistel`: `ind` after the two assignments made for the 6-bit
group `n` (counted from the least significant end) of `data_xor_key`. -/
def sbox_ind (data_xor_key n : Nat) : Nat :=
  let ind := u8 ((data_xor_key >>> (n * SBOX_IN_BIT_WIDTH)) &&& SBOX_IN_BIT_WIDTH_MASK)
  u8 ((ind &&& 0x20) ||| ((ind &&& 0x1) <<< 4) ||| ((ind &&& 0x1E) >>> 1))

/-- The function `do_feistel` of des.c: the new value of `*data`.  The S-box entries are
4-bit values and the shifts are shifts of natural numbers, which gives bits 0..31 of
`sbox_out`; what C leaves above bit 31 for an entry of at least 8 shifted by 28 depends on
the element type of the S-box arrays declared in `des.h`, and is not read by the final
`do_perm`, whose `size_data_in` is 32. -/
def do_feistel (T : DesTables) (data key : Nat) : Nat :=
  -- EXP
  let exp_data := do_perm data T.exp_table_c DATA_BIT_WIDTH_2 EXP_BIT_WIDTH
  -- XOR
  let data_xor_key := exp_data ^^^ key
  -- SBOX
  let sbox_out := 0
  let sbox_out := sbox_out ||| T.sbox8.getD (sbox_ind data_xor_key 0) 0
  let sbox_out := sbox_out |||
    (T.sbox7.getD (sbox_ind data_xor_key 1) 0 <<< SBOX_OUT_BIT_WIDTH)
  let sbox_out := sbox_out |||
    (T.sbox6.getD (sbox_ind data_xor_key 2) 0 <<< (2 * SBOX_OUT_BIT_WIDTH))
  let sbox_out := sbox_out |||
    (T.sbox5.getD (sbox_ind data_xor_key 3) 0 <<< (3 * SBOX_OUT_BIT_WIDTH))
  let sbox_out := sbox_out |||
    (T.sbox4.getD (sbox_ind data_xor_key 4) 0 <<< (4 * SBOX_OUT_BIT_WIDTH))
  let sbox_out := sbox_out |||
    (T.sbox3.getD (sbox_ind data_xor_key 5) 0 <<< (5 * SBOX_OUT_BIT_WIDTH))
  let sbox_out := sbox_out |||
    (T.sbox2.getD (sbox_ind data_xor_key 6) 0 <<< (6 * SBOX_OUT_BIT_WIDTH))
  let sbox_out := sbox_out |||
    (T.sbox1.getD (sbox_ind data_xor_key 7) 0 <<< (7 * SBOX_OUT_BIT_WIDTH))
  -- PERM
  u32 (do_perm sbox_out T.sbox_p_table_c DATA_BIT_WIDTH_2 DATA_BIT_WIDTH_2)

/-- The function `do_round` of des.c: the new value of `*data`. -/
def do_round (T : DesTables) (data key : Nat) : Nat :=
  let left := u32 (data >>> DATA_BIT_WIDTH_2)
  let right := u32 (data &&& DATA_BIT_WIDTH_2_MASK)
  -- UPDATE LEFT
  let new_left := right
  -- UPDATE RIGHT
  let right := do_feistel T right key
  let new_right := right ^^^ left
  -- RES
  (new_left <<< DATA_BIT_WIDTH_2) ||| new_right

/-- The key process of `do_des` (PERM CHOICE 1 and KEY SCHED): the final value of
`key_56` and the array `subkey`. -/
def do_des_keys (T : DesTables) (key mode : Nat) : Nat × List Nat :=
  -- PERM CHOICE 1
  let key_56 := do_perm key T.pc1_table_c DATA_BIT_WIDTH PC1_BIT_WIDTH
  -- KEY SCHED
  forLoop (fun i (st : Nat × List Nat) =>
    let r := do_key T st.1 i mode
    (r.1, st.2.set i r.2)) NB_ROUND (key_56, List.replicate NB_ROUND 0)

/-- The SWAP step of `do_des`: `swap_r`, `swap_l` and the word put together from them. -/
def swap_halves (data_tmp : Nat) : Nat :=
  let swap_r := u32 (data_tmp >>> DATA_BIT_WIDTH_2)
  let swap_l := u32 (data_tmp &&& DATA_BIT_WIDTH_2_MASK)
  (swap_l <<< DATA_BIT_WIDTH_2) ||| swap_r

/-- The data process of `do_des` (initial permutation, 16 rounds, swap, final
permutation) for a given array `subkey`. -/
def do_des_data (T : DesTables) (data : Nat) (subkey : List Nat) : Nat :=
  -- INITIAL PERMUTATION
  let data_tmp := do_perm data T.ip_table_c DATA_BIT_WIDTH IP_BIT_WIDTH
  -- 16 ROUND
  let data_tmp := forLoop (fun i data_tmp => do_round T data_tmp (subkey.getD i 0))
    NB_ROUND data_tmp
  -- SWAP
  let data_tmp := swap_halves data_tmp
  -- FINAL PERMUTATION
  do_perm data_tmp T.fp_table_c DATA_BIT_WIDTH FP_BIT_WIDTH

/-- The function `do_des` of des.c. -/
def do_des (T : DesTables) (data key mode : Nat) : Nat :=
  do_des_data T data (do_des_keys T key mode).2

/-! ## The tables of the two headers -/

/-- Modelled from the spec: the tables of `aes.h`, the S-box and inverse S-box of
FIPS-197 and the round constants `Rcon[i] = x^(i-1)` in GF(2^8) for `i = 1..10`
(entry 0 is never read by `KeyExpansion`). -/
def aes_h : AesTables where
  Sbox :=
   [0x63, 0x7c, 0x77, 0x7b, 0xf2, 0x6b, 0x6f, 0xc5, 0x30, 0x01, 0x67, 0x2b, 0xfe, 0xd7, 0xab, 0x76,
    0xca, 0x82, 0xc9, 0x7d, 0xfa, 0x59, 0x47, 0xf0, 0xad, 0xd4, 0xa2, 0xaf, 0x9c, 0xa4, 0x72, 0xc0,
    0xb7, 0xfd, 0x93, 0x26, 0x36, 0x3f, 0xf7, 0xcc, 0x34, 0xa5, 0xe5, 0xf1, 0x71, 0xd8, 0x31, 0x15,
    0x04, 0xc7, 0x23, 0xc3, 0x18, 0x96, 0x05, 0x9a, 0x07, 0x12, 0x80, 0xe2, 0xeb, 0x27, 0xb2, 0x75,
    0x09, 0x83, 0x2c, 0x1a, 0x1b, 0x6e, 0x5a, 0xa0, 0x52, 0x3b, 0xd6, 0xb3, 0x29, 0xe3, 0x2f, 0x84,
    0x53, 0xd1, 0x00, 0xed, 0x20, 0xfc, 0xb1, 0x5b, 0x6a, 0xcb, 0xbe, 0x39, 0x4a, 0x4c, 0x58, 0xcf,
    0xd0, 0xef, 0xaa, 0xfb, 0x43, 0x4d, 0x33, 0x85, 0x45, 0xf9, 0x02, 0x7f, 0x50, 0x3c, 0x9f, 0xa8,
    0x51, 0xa3, 0x40, 0x8f, 0x92, 0x9d, 0x38, 0xf5, 0xbc, 0xb6, 0xda, 0x21, 0x10, 0xff, 0xf3, 0xd2,
    0xcd, 0x0c, 0x13, 0xec, 0x5f, 0x97, 0x44, 0x17, 0xc4, 0xa7, 0x7e, 0x3d, 0x64, 0x5d, 0x19, 0x73,
    0x60, 0x81, 0x4f, 0xdc, 0x22, 0x2a, 0x90, 0x88, 0x46, 0xee, 0xb8, 0x14, 0xde, 0x5e, 0x0b, 0xdb,
    0xe0, 0x32, 0x3a, 0x0a, 0x49, 0x06, 0x24, 0x5c, 0xc2, 0xd3, 0xac, 0x62, 0x91, 0x95, 0xe4, 0x79,
    0xe7, 0xc8, 0x37, 0x6d, 0x8d, 0xd5, 0x4e, 0xa9, 0x6c, 0x56, 0xf4, 0xea, 0x65, 0x7a, 0xae, 0x08,
    0xba, 0x78, 0x25, 0x2e, 0x1c, 0xa6, 0xb4, 0xc6, 0xe8, 0xdd, 0x74, 0x1f, 0x4b, 0xbd, 0x8b, 0x8a,
    0x70, 0x3e, 0xb5, 0x66, 0x48, 0x03, 0xf6, 0x0e, 0x61, 0x35, 0x57, 0xb9, 0x86, 0xc1, 0x1d, 0x9e,
    0xe1, 0xf8, 0x98, 0x11, 0x69, 0xd9, 0x8e, 0x94, 0x9b, 0x1e, 0x87, 0xe9, 0xce, 0x55, 0x28, 0xdf,
    0x8c, 0xa1, 0x89, 0x0d, 0xbf, 0xe6, 0x42, 0x68, 0x41, 0x99, 0x2d, 0x0f, 0xb0, 0x54, 0xbb, 0x16]
  InvSbox :=
   [0x52, 0x09, 0x6a, 0xd5, 0x30, 0x36, 0xa5, 0x38, 0xbf, 0x40, 0xa3, 0x9e, 0x81, 0xf3, 0xd7, 0xfb,
    0x7c, 0xe3, 0x39, 0x82, 0x9b, 0x2f, 0xff, 0x87, 0x34, 0x8e, 0x43, 0x44, 0xc4, 0xde, 0xe9, 0xcb,
    0x54, 0x7b, 0x94, 0x32, 0xa6, 0xc2, 0x23, 0x3d, 0xee, 0x4c, 0x95, 0x0b, 0x42, 0xfa, 0xc3, 0x4e,
    0x08, 0x2e, 0xa1, 0x66, 0x28, 0xd9, 0x24, 0xb2, 0x76, 0x5b, 0xa2, 0x49, 0x6d, 0x8b, 0xd1, 0x25,
    0x72, 0xf8, 0xf6, 0x64, 0x86, 0x68, 0x98, 0x16, 0xd4, 0xa4, 0x5c, 0xcc, 0x5d, 0x65, 0xb6, 0x92,
    0x6c, 0x70, 0x48, 0x50, 0xfd, 0xed, 0xb9, 0xda, 0x5e, 0x15, 0x46, 0x57, 0xa7, 0x8d, 0x9d, 0x84,
    0x90, 0xd8, 0xab, 0x00, 0x8c, 0xbc, 0xd3, 0x0a, 0xf7, 0xe4, 0x58, 0x05, 0xb8, 0xb3, 0x45, 0x06,
    0xd0, 0x2c, 0x1e, 0x8f, 0xca, 0x3f, 0x0f, 0x02, 0xc1, 0xaf, 0xbd, 0x03, 0x01, 0x13, 0x8a, 0x6b,
    0x3a, 0x91, 0x11, 0x41, 0x4f, 0x67, 0xdc, 0xea, 0x97, 0xf2, 0xcf, 0xce, 0xf0, 0xb4, 0xe6, 0x73,
    0x96, 0xac, 0x74, 0x22, 0xe7, 0xad, 0x35, 0x85, 0xe2, 0xf9, 0x37, 0xe8, 0x1c, 0x75, 0xdf, 0x6e,
    0x47, 0xf1, 0x1a, 0x71, 0x1d, 0x29, 0xc5, 0x89, 0x6f, 0xb7, 0x62, 0x0e, 0xaa, 0x18, 0xbe, 0x1b,
    0xfc, 0x56, 0x3e, 0x4b, 0xc6, 0xd2, 0x79, 0x20, 0x9a, 0xdb, 0xc0, 0xfe, 0x78, 0xcd, 0x5a, 0xf4,
    0x1f, 0xdd, 0xa8, 0x33, 0x88, 0x07, 0xc7, 0x31, 0xb1, 0x12, 0x10, 0x59, 0x27, 0x80, 0xec, 0x5f,
    0x60, 0x51, 0x7f, 0xa9, 0x19, 0xb5, 0x4a, 0x0d, 0x2d, 0xe5, 0x7a, 0x9f, 0x93, 0xc9, 0x9c, 0xef,
    0xa0, 0xe0, 0x3b, 0x4d, 0xae, 0x2a, 0xf5, 0xb0, 0xc8, 0xeb, 0xbb, 0x3c, 0x83, 0x53, 0x99, 0x61,
    0x17, 0x2b, 0x04, 0x7e, 0xba, 0x77, 0xd6, 0x26, 0xe1, 0x69, 0x14, 0x63, 0x55, 0x21, 0x0c, 0x7d]
  Rcon := [0x8d, 0x01, 0x02, 0x04, 0x08, 0x10, 0x20, 0x40, 0x80, 0x1b, 0x36]

/-- Modelled from the spec: the tables of `des.h`, the standard DES tables IP, FP, PC1,
PC2, E, P and S1..S8 (each S-box stored row by row, 4 rows of 16 entries).  The encrypt
rotation amounts are those the spec lists.  The decrypt amounts are the ones for which
decryption applies the encrypt subkeys in reverse order, as the spec requires: the first
decrypt round does not rotate, the later ones rotate right by the encrypt amounts. -/
def des_h : DesTables where
  ip_table_c :=
   [58, 50, 42, 34, 26, 18, 10, 2,
    60, 52, 44, 36, 28, 20, 12, 4,
    62, 54, 46, 38, 30, 22, 14, 6,
    64, 56, 48, 40, 32, 24, 16, 8,
    57, 49, 41, 33, 25, 17, 9, 1,
    59, 51, 43, 35, 27, 19, 11, 3,
    61, 53, 45, 37, 29, 21, 13, 5,
    63, 55, 47, 39, 31, 23, 15, 7]
  fp_table_c :=
   [40, 8, 48, 16, 56, 24, 64, 32,
    39, 7, 47, 15, 55, 23, 63, 31,
    38, 6, 46, 14, 54, 22, 62, 30,
    37, 5, 45, 13, 53, 21, 61, 29,
    36, 4, 44, 12, 52, 20, 60, 28,
    35, 3, 43, 11, 51, 19, 59, 27,
    34, 2, 42, 10, 50, 18, 58, 26,
    33, 1, 41, 9, 49, 17, 57, 25]
  pc1_table_c :=
   [57, 49, 41, 33, 25, 17, 9,
    1, 58, 50, 42, 34, 26, 18,
    10, 2, 59, 51, 43, 35, 27,
    19, 11, 3, 60, 52, 44, 36,
    63, 55, 47, 39, 31, 23, 15,
    7, 62, 54, 46, 38, 30, 22,
    14, 6, 61, 53, 45, 37, 29,
    21, 13, 5, 28, 20, 12, 4]
  pc2_table_c :=
   [14, 17, 11, 24, 1, 5,
    3, 28, 15, 6, 21, 10,
    23, 19, 12, 4, 26, 8,
    16, 7, 27, 20, 13, 2,
    41, 52, 31, 37, 47, 55,
    30, 40, 51, 45, 33, 48,
    44, 49, 39, 56, 34, 53,
    46, 42, 50, 36, 29, 32]
  exp_table_c :=
   [32, 1, 2, 3, 4, 5,
    4, 5, 6, 7, 8, 9,
    8, 9, 10, 11, 12, 13,
    12, 13, 14, 15, 16, 17,
    16, 17, 18, 19, 20, 21,
    20, 21, 22, 23, 24, 25,
    24, 25, 26, 27, 28, 29,
    28, 29, 30, 31, 32, 1]
  sbox_p_table_c :=
   [16, 7, 20, 21, 29, 12, 28, 17,
    1, 15, 23, 26, 5, 18, 31, 10,
    2, 8, 24, 14, 32, 27, 3, 9,
    19, 13, 30, 6, 22, 11, 4, 25]
  sbox1 :=
   [14, 4, 13, 1, 2, 15, 11, 8, 3, 10, 6, 12, 5, 9, 0, 7,
    0, 15, 7, 4, 14, 2, 13, 1, 10, 6, 12, 11, 9, 5, 3, 8,
    4, 1, 14, 8, 13, 6, 2, 11, 15, 12, 9, 7, 3, 10, 5, 0,
    15, 12, 8, 2, 4, 9, 1, 7, 5, 11, 3, 14, 10, 0, 6, 13]
  sbox2 :=
   [15, 1, 8, 14, 6, 11, 3, 4, 9, 7, 2, 13, 12, 0, 5, 10,
    3, 13, 4, 7, 15, 2, 8, 14, 12, 0, 1, 10, 6, 9, 11, 5,
    0, 14, 7, 11, 10, 4, 13, 1, 5, 8, 12, 6, 9, 3, 2, 15,
    13, 8, 10, 1, 3, 15, 4, 2, 11, 6, 7, 12, 0, 5, 14, 9]
  sbox3 :=
   [10, 0, 9, 14, 6, 3, 15, 5, 1, 13, 12, 7, 11, 4, 2, 8,
    13, 7, 0, 9, 3, 4, 6, 10, 2, 8, 5, 14, 12, 11, 15, 1,
    13, 6, 4, 9, 8, 15, 3, 0, 11, 1, 2, 12, 5, 10, 14, 7,
    1, 10, 13, 0, 6, 9, 8, 7, 4, 15, 14, 3, 11, 5, 2, 12]
  sbox4 :=
   [7, 13, 14, 3, 0, 6, 9, 10, 1, 2, 8, 5, 11, 12, 4, 15,
    13, 8, 11, 5, 6, 15, 0, 3, 4, 7, 2, 12, 1, 10, 14, 9,
    10, 6, 9, 0, 12, 11, 7, 13, 15, 1, 3, 14, 5, 2, 8, 4,
    3, 15, 0, 6, 10, 1, 13, 8, 9, 4, 5, 11, 12, 7, 2, 14]
  sbox5 :=
   [2, 12, 4, 1, 7, 10, 11, 6, 8, 5, 3, 15, 13, 0, 14, 9,
    14, 11, 2, 12, 4, 7, 13, 1, 5, 0, 15, 10, 3, 9, 8, 6,
    4, 2, 1, 11, 10, 13, 7, 8, 15, 9, 12, 5, 6, 3, 0, 14,
    11, 8, 12, 7, 1, 14, 2, 13, 6, 15, 0, 9, 10, 4, 5, 3]
  sbox6 :=
   [12, 1, 10, 15, 9, 2, 6, 8, 0, 13, 3, 4, 14, 7, 5, 11,
    10, 15, 4, 2, 7, 12, 9, 5, 6, 1, 13, 14, 0, 11, 3, 8,
    9, 14, 15, 5, 2, 8, 12, 3, 7, 0, 4, 10, 1, 13, 11, 6,
    4, 3, 2, 12, 9, 5, 15, 10, 11, 14, 1, 7, 6, 0, 8, 13]
  sbox7 :=
   [4, 11, 2, 14, 15, 0, 8, 13, 3, 12, 9, 7, 5, 10, 6, 1,
    13, 0, 11, 7, 4, 9, 1, 10, 14, 3, 5, 12, 2, 15, 8, 6,
    1, 4, 11, 13, 12, 3, 7, 14, 10, 15, 6, 8, 0, 5, 9, 2,
    6, 11, 13, 8, 1, 4, 10, 7, 9, 5, 0, 15, 14, 2, 3, 12]
  sbox8 :=
   [13, 2, 8, 4, 6, 15, 11, 1, 10, 9, 3, 14, 5, 0, 12, 7,
    1, 15, 13, 8, 10, 3, 7, 4, 12, 5, 6, 11, 0, 14, 9, 2,
    7, 11, 4, 1, 9, 12, 14, 2, 0, 6, 10, 13, 15, 3, 5, 8,
    2, 1, 14, 7, 4, 10, 8, 13, 15, 12, 9, 0, 3, 5, 6, 11]
  encrypt_rotate_tab := [1, 1, 2, 2, 2, 2, 2, 2, 1, 2, 2, 2, 2, 2, 2, 1]
  decrypt_rotate_tab := [0, 1, 2, 2, 2, 2, 2, 2, 1, 2, 2, 2, 2, 2, 2, 1]

/-! ## Definitions used in the statements and proofs -/

/-- Two schedule buffers agree on their first `c` columns. -/
def SchedAgree (c : Nat) (w1 w2 : List Nat) : Prop :=
  w1.length = 176 ∧ w2.length = 176 ∧
    ∀ j i, j < 4 → i < c → get2 44 w1 j i = get2 44 w2 j i

/-- The value written to row `j` of column `i` by `KeyExpansion_word`, as a function of
the columns `i - 1` and `i - Nk` read. -/
def KeyExpansion_val (T : AesTables) (i : Nat) (w : List Nat) (j : Nat) : Nat :=
  let temp := [get2 44 w 0 (i - 1), get2 44 w 1 (i - 1), get2 44 w 2 (i - 1), get2 44 w 3 (i - 1)]
  let temp :=
    if i % Nk = 0 then
      let temp := RotWord temp
      let temp := SubWord T temp
      temp.set 0 (temp.getD 0 0 ^^^ T.Rcon.getD (i / Nk) 0)
    else if Nk > 6 ∧ i % Nk = 4 then
      SubWord T temp
    else temp
  get2 44 w j (i - Nk) ^^^ temp.getD j 0

/-- A list of `n` bytes. -/
def ByteList (n : Nat) (l : List Nat) : Prop := l.length = n ∧ ∀ x ∈ l, x < 256

/-- The first `c` columns of a schedule buffer hold bytes. -/
def SchedBytes (c : Nat) (w : List Nat) : Prop :=
  w.length = 176 ∧ ∀ j i, j < 4 → i < c → get2 44 w j i < 256

/-- The bit of a 28-bit half that a rotation by `a` index positions brings to place `j`,
for both halves of the 56-bit key state. -/
def rotIdx (a j : Nat) : Nat :=
  if j < 28 then (j + a) % 28 else 28 + (j - 28 + a) % 28

/-- The index shift that `do_key` applies in round `round`: a left rotation by `r` moves
bit `j + 28 - r`, a right rotation by `r` moves bit `j + r`, to place `j`; any other mode
leaves the key state as it is. -/
def keyShift (T : DesTables) (mode round : Nat) : Nat :=
  if mode = MODE_CIPHER then 28 - T.encrypt_rotate_tab.getD round 0
  else if mode = MODE_DECIPHER then T.decrypt_rotate_tab.getD round 0
  else 0

/-- The value of `key_56` in `do_des` after `n` iterations of the key schedule loop. -/
def keyState (T : DesTables) (mode key_56 : Nat) : Nat → Nat
  | 0 => key_56
  | n + 1 => (do_key T (keyState T mode key_56 n) n mode).1

/-- The bit of the initial `key_56` found at place `j` after `n` key schedule rounds. -/
def keyIdx (T : DesTables) (mode : Nat) : Nat → Nat → Nat
  | 0, j => j
  | n + 1, j => keyIdx T mode n (rotIdx (keyShift T mode n) j)

/-- The carry-less product of `a` and `b`: the product of the polynomials over GF(2) whose
coefficients are the bits of `a` and of `b` (for `b` of at most 16 bits). -/
def polyMul (a b : Nat) : Nat :=
  forLoop (fun i acc => if b.testBit i then acc ^^^ (a <<< i) else acc) 16 0

/-- The remainder of the polynomial `p` of degree below 16 modulo
`x^8 + x^4 + x^3 + x + 1` (0x11B), by long division: the terms of degree 15 down to 8 are
cancelled in turn by adding a shifted copy of the modulus. -/
def polyMod11B (p : Nat) : Nat :=
  forLoop (fun k p => if p.testBit (15 - k) then p ^^^ (0x11B <<< (7 - k)) else p) 8 p

/-- The first `c` columns of a schedule buffer are the words `KeyExpansion` computes for
`key`: columns 0..3 hold the key, column `i >= 4` holds `KeyExpansion_val` of the buffer. -/
def SchedSpec (T : AesTables) (key : List Nat) (c : Nat) (w : List Nat) : Prop :=
  w.length = 176 ∧
    ∀ j i, j < 4 → i < c →
      get2 44 w j i = if i < 4 then key.getD (4 * i + j) 0 else KeyExpansion_val T i w j

/-- Specification side: the entry `M[r][k]` of the circulant matrix with first row
(2,3,1,1), that is entry `(k - r) mod 4` of that row. -/
def mixCoef (r k : Nat) : Nat := [2, 3, 1, 1].getD ((k + 4 - r) % 4) 0

/-- Specification side: rotation of a 28-bit value `x` to the left by `s` places within
28 bits: the bits shifted out at the top come back in at the bottom. -/
def rotate_left_28 (x s : Nat) : Nat := (x * 2 ^ s) % 2 ^ 28 + x / 2 ^ (28 - s)

/-- Specification side: S-box number `n` (1..8) of the tables. -/
def des_sbox (T : DesTables) (n : Nat) : List Nat :=
  match n with
  | 1 => T.sbox1
  | 2 => T.sbox2
  | 3 => T.sbox3
  | 4 => T.sbox4
  | 5 => T.sbox5
  | 6 => T.sbox6
  | 7 => T.sbox7
  | 8 => T.sbox8
  | _ => []

/-- Specification side: bit `b_m` (0 or 1) of the `n`-th 6-bit group of the 48-bit word `x`,
the groups being counted from 1 at the most significant end and the bits of a group from
`b0` at its least significant end. -/
def group_bit (x n m : Nat) : Nat := x / 2 ^ (48 - 6 * n + m) % 2

/-- Specification side: the S-box address of the `n`-th group: row given by the two outer
bits `b5 b0`, column by the four inner bits `b4 b3 b2 b1`. -/
def sbox_address (x n : Nat) : Nat :=
  32 * group_bit x n 5 + 16 * group_bit x n 0 + 8 * group_bit x n 4 + 4 * group_bit x n 3 +
    2 * group_bit x n 2 + group_bit x n 1

/-- Specification side: the 32-bit word whose `n`-th nibble from the most significant end is
the entry of S-box `n` at the address of the `n`-th group of `x`. -/
def sbox_word (T : DesTables) (x : Nat) : Nat :=
  (des_sbox T 1).getD (sbox_address x 1) 0 * 2 ^ 28 +
  (des_sbox T 2).getD (sbox_address x 2) 0 * 2 ^ 24 +
  (des_sbox T 3).getD (sbox_address x 3) 0 * 2 ^ 20 +
  (des_sbox T 4).getD (sbox_address x 4) 0 * 2 ^ 16 +
  (des_sbox T 5).getD (sbox_address x 5) 0 * 2 ^ 12 +
  (des_sbox T 6).getD (sbox_address x 6) 0 * 2 ^ 8 +
  (des_sbox T 7).getD (sbox_address x 7) 0 * 2 ^ 4 +
  (des_sbox T 8).getD (sbox_address x 8) 0

/-- Specification side: `KeyExpansion_word` with the `Nk > 6` branch removed. -/
def KeyExpansion_word_without_Nk6 (T : AesTables) (i : Nat) (w : List Nat) : List Nat :=
  let temp := [get2 (Nb * (Nr + 1)) w 0 (i - 1), get2 (Nb * (Nr + 1)) w 1 (i - 1),
               get2 (Nb * (Nr + 1)) w 2 (i - 1), get2 (Nb * (Nr + 1)) w 3 (i - 1)]
  let temp :=
    if i % Nk = 0 then
      let temp := RotWord temp
      let temp := SubWord T temp
      temp.set 0 (temp.getD 0 0 ^^^ T.Rcon.getD (i / Nk) 0)
    else temp
  let w := set2 (Nb * (Nr + 1)) w 0 i (get2 (Nb * (Nr + 1)) w 0 (i - Nk) ^^^ temp.getD 0 0)
  let w := set2 (Nb * (Nr + 1)) w 1 i (get2 (Nb * (Nr + 1)) w 1 (i - Nk) ^^^ temp.getD 1 0)
  let w := set2 (Nb * (Nr + 1)) w 2 i (get2 (Nb * (Nr + 1)) w 2 (i - Nk) ^^^ temp.getD 2 0)
  set2 (Nb * (Nr + 1)) w 3 i (get2 (Nb * (Nr + 1)) w 3 (i - Nk) ^^^ temp.getD 3 0)

/-- Specification side: `KeyExpansion` with the `Nk > 6` branch removed. -/
def KeyExpansion_without_Nk6 (T : AesTables) (key w : List Nat) : List Nat :=
  let w := forLoop (fun i w => KeyExpansion_copy key i w) Nk w
  forLoop (fun k w => KeyExpansion_word_without_Nk6 T (Nk + k) w) (Nb * (Nr + 1) - Nk) w

/-- Specification side: rotation of a 28-bit value `x` to the right by `s` places within
28 bits: the bits shifted out at the bottom come back in at the top. -/
def rotate_right_28 (x s : Nat) : Nat := x / 2 ^ s + (x % 2 ^ s) * 2 ^ (28 - s)

/-- The loop `DATA & KEY EXTRACTION` of `main` in sw/apps/des/main.c: the values of `data`
and `key` after it (both are reset to 0 before it).  A byte shifted left by at most 56
places stays within the 64-bit word, so no conversion is written after the shift. -/
def main_extract (rx_uart_buffer : List Nat) : Nat × Nat :=
  forLoop (fun i (st : Nat × Nat) =>
    (st.1 ||| (u8 (rx_uart_buffer.getD i 0) <<< (i * 8)),
     st.2 ||| (u8 (rx_uart_buffer.getD (i + 8) 0) <<< (i * 8)))) 8 (0, 0)

/-- The loop `SEND DATA` of `main` in sw/apps/des/main.c: the bytes passed to `uart_put`,
in the order of the calls. -/
def main_send (cipher : Nat) : List Nat :=
  forLoop (fun i sent => sent ++ [u8 (cipher >>> (i * 8))]) 8 []

/-- Specification side: the tables `des_h` with the decrypt rotation amounts replaced by
the encrypt amounts (1,1,2,2,2,2,2,2,1,2,2,2,2,2,2,1), the reading under which both modes
share one sequence of amounts. -/
def des_h_same_amounts : DesTables :=
  { des_h with decrypt_rotate_tab := des_h.encrypt_rotate_tab }

/-- Specification side: the tables `des_h` with the first decrypt rotation amount
replaced by `d`. -/
def des_h_first_decrypt (d : Nat) : DesTables :=
  { des_h with decrypt_rotate_tab := des_h.decrypt_rotate_tab.set 0 d }

/-- Specification side: the XOR of two states, entry by entry. -/
def xorState (s t : List Nat) : List Nat := List.zipWith (fun a b => a ^^^ b) s t

/-! # Theorems -/

/-! ## Loops -/

theorem forLoop_zero {σ : Type} (body : Nat → σ → σ) (s : σ) :
    forLoop body 0 s = s := rfl

theorem forLoop_succ {σ : Type} (body : Nat → σ → σ) (n : Nat) (s : σ) :
    forLoop body (n + 1) s = body n (forLoop body n s) := rfl

/-! ## Bitwise arithmetic helpers -/

theorem xor_left_comm (a b c : Nat) : a ^^^ (b ^^^ c) = b ^^^ (a ^^^ c) := by
  rw [← Nat.xor_assoc, Nat.xor_comm a b, Nat.xor_assoc]

theorem xor_mod_256 (x y : Nat) : (x ^^^ y) % 256 = x % 256 ^^^ y % 256 := by
  apply Nat.eq_of_testBit_eq
  intro i
  have h : (256 : Nat) = 2 ^ 8 := by norm_num
  simp only [h, Nat.testBit_mod_two_pow, Nat.testBit_xor]
  cases decide (i < 8) <;> simp

theorem shiftLeft_xor (x y k : Nat) : (x ^^^ y) <<< k = x <<< k ^^^ y <<< k := by
  apply Nat.eq_of_testBit_eq
  intro i
  simp only [Nat.testBit_shiftLeft, Nat.testBit_xor]
  cases decide (i ≥ k) <;> simp

theorem bit7_sel (v : Nat) : (v >>> 7) &&& 1 = (v.testBit 7).toNat := by
  rw [Nat.and_one_is_mod, Nat.shiftRight_eq_div_pow, Nat.toNat_testBit]

theorem and_128 (v : Nat) : v &&& 0x80 = (v.testBit 7).toNat * 128 := by
  have h := Nat.and_two_pow v 7
  simpa using h

theorem and_one_eq_one (v : Nat) : (v &&& 1 = 1) ↔ v.testBit 0 = true := by
  rw [Nat.and_one_is_mod, Nat.testBit_zero]
  simp

/-! ## GF(2^8) arithmetic -/

theorem Mult2GF_lt (a : Nat) : Mult2GF a < 256 := Nat.mod_lt _ (by norm_num)

theorem Mult2GF_xor (a b : Nat) : Mult2GF (a ^^^ b) = Mult2GF a ^^^ Mult2GF b := by
  unfold Mult2GF u8
  simp only [bit7_sel, Nat.testBit_xor, xor_mod_256, shiftLeft_xor]
  cases a.testBit 7 <;> cases b.testBit 7 <;>
    simp [Nat.xor_assoc, Nat.xor_comm, xor_left_comm, Nat.xor_cancel_left]

theorem Mult2GF_zero : Mult2GF 0 = 0 := by decide

/-- The update of `a_buf` in the loop of `MultGF` is `Mult2GF`. -/
theorem MultGF_a_buf (a : Nat) :
    (if a &&& 0x80 = 0x80 then u8 (a <<< 1) ^^^ 0x1b else u8 (a <<< 1)) = Mult2GF a := by
  unfold Mult2GF u8
  rw [and_128, bit7_sel, xor_mod_256]
  cases a.testBit 7 <;> simp

/-- The state of the loop of `MultGF` after `n` iterations. -/
theorem MultGF_loop (a b : Nat) (n : Nat) :
    forLoop (fun _ s => MultGF_body s) n { res := 0, a_buf := a, b_buf := b } =
      { res := forLoop (fun i r => if b.testBit i then r ^^^ Mult2GF^[i] a else r) n 0,
        a_buf := Mult2GF^[n] a, b_buf := b >>> n } := by
  induction n with
  | zero => rfl
  | succ n ih =>
    rw [forLoop, ih, forLoop]
    simp only [MultGF_body, MultGF_a_buf, and_one_eq_one, Nat.testBit_shiftRight,
      Nat.add_zero, Function.iterate_succ_apply', Nat.shiftRight_succ, MultGFVars.mk.injEq, and_true, true_and]
    simp [Nat.shiftRight_eq_div_pow, Nat.div_div_eq_div_mul, Nat.pow_succ]

theorem MultGF_eq (a b : Nat) :
    MultGF a b = forLoop (fun i r => if b.testBit i then r ^^^ Mult2GF^[i] a else r) 8 0 := by
  unfold MultGF
  rw [MultGF_loop]

/-- One more term of the sum of `MultGF` when bit `n` of `b` is set. -/
theorem MultGF_fold_true (a b n : Nat) (h : b.testBit n = true) :
    forLoop (fun i r => if b.testBit i then r ^^^ Mult2GF^[i] a else r) (n + 1) 0 =
      forLoop (fun i r => if b.testBit i then r ^^^ Mult2GF^[i] a else r) n 0 ^^^
        Mult2GF^[n] a := by
  rw [forLoop_succ]
  exact if_pos h

/-- No further term of the sum of `MultGF` when bit `n` of `b` is clear. -/
theorem MultGF_fold_false (a b n : Nat) (h : b.testBit n = false) :
    forLoop (fun i r => if b.testBit i then r ^^^ Mult2GF^[i] a else r) (n + 1) 0 =
      forLoop (fun i r => if b.testBit i then r ^^^ Mult2GF^[i] a else r) n 0 := by
  rw [forLoop_succ]
  exact if_neg (by rw [h]; decide)

/-! ## The permutation engine -/

theorem SEL_BIT_shift_testBit (d p s j : Nat) :
    (SEL_BIT d p <<< s).testBit j = (decide (j = s) && d.testBit p) := by
  unfold SEL_BIT
  rw [Nat.testBit_shiftLeft, Nat.testBit_and, Nat.testBit_shiftRight]
  by_cases h : j = s
  · subst h; simp
  · by_cases h2 : j ≥ s
    · have h3 : j - s ≠ 0 := by omega
      have : Nat.testBit 1 (j - s) = false := by
        cases hb : Nat.testBit 1 (j - s)
        · rfl
        · exact absurd (Nat.testBit_one_eq_true_iff_self_eq_zero.mp hb) h3
      simp [h, this]
    · simp [h, h2]

/-- Bits of the accumulator of `do_perm` after `k` loop iterations. -/
theorem do_perm_loop_testBit (data : Nat) (table : List Nat) (n m k j : Nat) (hk : k ≤ m) :
    (forLoop (fun i data_res =>
        data_res ||| (SEL_BIT data (u32 (n + 4294967296 - table.getD i 0)) <<< (m - 1 - i)))
      k 0).testBit j =
    (decide (j < m ∧ m - 1 - j < k) &&
      data.testBit (u32 (n + 4294967296 - table.getD (m - 1 - j) 0))) := by
  induction k with
  | zero => simp [forLoop]
  | succ k ih =>
    rw [forLoop, Nat.testBit_or, ih (by omega), SEL_BIT_shift_testBit]
    by_cases h1 : j = m - 1 - k
    · subst h1
      have e : m - 1 - (m - 1 - k) = k := by omega
      have h2 : m - 1 - k < m := by omega
      simp [e, h2]
    · by_cases h2 : j < m ∧ m - 1 - j < k
      · have h3 : j < m ∧ m - 1 - j < k + 1 := ⟨h2.1, by omega⟩
        simp [h1, h2, h3]
      · have h3 : ¬ (j < m ∧ m - 1 - j < k + 1) := by
          intro h; apply h2; exact ⟨h.1, by omega⟩
        simp [h1, h2, h3]

/-- Every bit of the result of `do_perm`. -/
theorem do_perm_testBit (data : Nat) (table : List Nat) (n m j : Nat) :
    (do_perm data table n m).testBit j =
      (decide (j < m) && data.testBit (u32 (n + 4294967296 - table.getD (m - 1 - j) 0))) := by
  unfold do_perm
  rw [do_perm_loop_testBit data table n m m j (Nat.le_refl m)]
  by_cases h : j < m
  · have : m - 1 - j < m := by omega
    simp [h, this]
  · simp [h]

theorem do_perm_lt (data : Nat) (table : List Nat) (n m : Nat) :
    do_perm data table n m < 2 ^ m := by
  apply Nat.lt_pow_two_of_testBit
  intro i hi
  rw [do_perm_testBit]
  have : ¬ i < m := by omega
  simp [this]

theorem u32_wrap_sub (n t : Nat) (ht : t ≤ n) (hn : n < 4294967296) :
    u32 (n + 4294967296 - t) = n - t := by
  unfold u32
  omega

/-! ## The AES key schedule: independence of the initial buffer -/

theorem getD_set (l : List Nat) (i j v : Nat) :
    (l.set i v).getD j 0 = if i = j ∧ i < l.length then v else l.getD j 0 := by
  simp only [List.getD_eq_getElem?_getD, List.getElem?_set]
  by_cases h : i = j
  · subst h
    by_cases h2 : i < l.length
    · simp [h2]
    · have : l[i]? = none := List.getElem?_eq_none (by omega)
      simp [h2, this]
  · simp [h]

theorem sched_cols : Nb * (Nr + 1) = 44 := rfl

theorem get2_set2 (c : Nat) (w : List Nat) (j i v j2 i2 : Nat) :
    get2 c (set2 c w j i v) j2 i2 =
      if j * c + i = j2 * c + i2 ∧ j * c + i < w.length then v else get2 c w j2 i2 := by
  unfold get2 set2
  rw [getD_set]

theorem length_set2 (c : Nat) (w : List Nat) (j i v : Nat) :
    (set2 c w j i v).length = w.length := by
  unfold set2
  rw [List.length_set]

theorem KeyExpansion_word_eq (T : AesTables) (i : Nat) (w : List Nat) (hi : 4 ≤ i) (hi2 : i < 44) :
    KeyExpansion_word T i w =
      set2 44 (set2 44 (set2 44 (set2 44 w 0 i (KeyExpansion_val T i w 0))
        1 i (KeyExpansion_val T i w 1)) 2 i (KeyExpansion_val T i w 2))
        3 i (KeyExpansion_val T i w 3) := by
  unfold KeyExpansion_word KeyExpansion_val
  simp only [sched_cols, get2_set2, Nk]
  have e1 : ¬ (0 * 44 + i = 1 * 44 + (i - 4) ∧ 0 * 44 + i < w.length) := by omega
  have e2 : ¬ (0 * 44 + i = 2 * 44 + (i - 4) ∧ 0 * 44 + i < w.length) := by omega
  have e3 : ¬ (0 * 44 + i = 3 * 44 + (i - 4) ∧ 0 * 44 + i < w.length) := by omega
  simp only [length_set2]
  have f1 : ∀ (P : Prop), ¬ (1 * 44 + i = 2 * 44 + (i - 4) ∧ P) := by intro P; omega
  have f2 : ∀ (P : Prop), ¬ (1 * 44 + i = 3 * 44 + (i - 4) ∧ P) := by intro P; omega
  have f3 : ∀ (P : Prop), ¬ (2 * 44 + i = 3 * 44 + (i - 4) ∧ P) := by intro P; omega
  simp only [e1, e2, e3, f1, f2, f3, if_false]

theorem KeyExpansion_copy_eq (key : List Nat) (i : Nat) (w : List Nat) :
    KeyExpansion_copy key i w =
      set2 44 (set2 44 (set2 44 (set2 44 w 0 i (key.getD (4 * i) 0))
        1 i (key.getD (4 * i + 1) 0)) 2 i (key.getD (4 * i + 2) 0))
        3 i (key.getD (4 * i + 3) 0) := rfl

/-- Writing the same column `i` into two buffers that agree before column `i`. -/
theorem setcol_agree (w1 w2 : List Nat) (i v0 v1 v2 v3 : Nat) (hi : i < 44)
    (hA : SchedAgree i w1 w2) :
    SchedAgree (i + 1)
      (set2 44 (set2 44 (set2 44 (set2 44 w1 0 i v0) 1 i v1) 2 i v2) 3 i v3)
      (set2 44 (set2 44 (set2 44 (set2 44 w2 0 i v0) 1 i v1) 2 i v2) 3 i v3) := by
  obtain ⟨h1, h2, h⟩ := hA
  refine ⟨by simp [length_set2, h1], by simp [length_set2, h2], ?_⟩
  intro j c hj hc
  simp only [get2_set2, length_set2, h1, h2]
  by_cases e : c = i
  · subst e
    have : j = 0 ∨ j = 1 ∨ j = 2 ∨ j = 3 := by omega
    rcases this with rfl | rfl | rfl | rfl <;> split_ifs <;> first | rfl | omega
  · have hc2 : c < i := by omega
    have f : ∀ (r : Nat) (P : Prop), ¬ (r * 44 + i = j * 44 + c ∧ P) := by
      intro r P hh
      have := hh.1
      omega
    simp only [f, if_false]
    exact h j c hj hc2

theorem KeyExpansion_val_agree (T : AesTables) (i : Nat) (w1 w2 : List Nat) (hi : 4 ≤ i)
    (hA : SchedAgree i w1 w2) (j : Nat) (hj : j < 4) :
    KeyExpansion_val T i w1 j = KeyExpansion_val T i w2 j := by
  obtain ⟨_, _, h⟩ := hA
  unfold KeyExpansion_val
  rw [h 0 (i - 1) (by omega) (by omega), h 1 (i - 1) (by omega) (by omega),
    h 2 (i - 1) (by omega) (by omega), h 3 (i - 1) (by omega) (by omega),
    h j (i - Nk) hj (by unfold Nk; omega)]

theorem KeyExpansion_word_agree (T : AesTables) (i : Nat) (w1 w2 : List Nat) (hi : 4 ≤ i)
    (hi2 : i < 44) (hA : SchedAgree i w1 w2) :
    SchedAgree (i + 1) (KeyExpansion_word T i w1) (KeyExpansion_word T i w2) := by
  rw [KeyExpansion_word_eq T i w1 hi hi2, KeyExpansion_word_eq T i w2 hi hi2,
    KeyExpansion_val_agree T i w1 w2 hi hA 0 (by omega),
    KeyExpansion_val_agree T i w1 w2 hi hA 1 (by omega),
    KeyExpansion_val_agree T i w1 w2 hi hA 2 (by omega),
    KeyExpansion_val_agree T i w1 w2 hi hA 3 (by omega)]
  exact setcol_agree _ _ _ _ _ _ _ hi2 hA

theorem copy_loop_agree (key w1 w2 : List Nat) (h1 : w1.length = 176) (h2 : w2.length = 176)
    (n : Nat) (hn : n ≤ 44) :
    SchedAgree n (forLoop (fun i w => KeyExpansion_copy key i w) n w1)
      (forLoop (fun i w => KeyExpansion_copy key i w) n w2) := by
  induction n with
  | zero => exact ⟨h1, h2, fun j i _ hi => absurd hi (Nat.not_lt_zero i)⟩
  | succ n ih =>
    simp only [forLoop, KeyExpansion_copy_eq]
    exact setcol_agree _ _ _ _ _ _ _ (by omega) (ih (by omega))

theorem word_loop_agree (T : AesTables) (w1 w2 : List Nat) (hA : SchedAgree 4 w1 w2)
    (n : Nat) (hn : 4 + n ≤ 44) :
    SchedAgree (4 + n) (forLoop (fun k w => KeyExpansion_word T (Nk + k) w) n w1)
      (forLoop (fun k w => KeyExpansion_word T (Nk + k) w) n w2) := by
  induction n with
  | zero => exact hA
  | succ n ih =>
    simp only [forLoop]
    exact KeyExpansion_word_agree T (4 + n) _ _ (by omega) (by omega) (ih (by omega))

theorem SchedAgree_eq (w1 w2 : List Nat) (hA : SchedAgree 44 w1 w2) : w1 = w2 := by
  obtain ⟨h1, h2, h⟩ := hA
  apply List.ext_getElem (by rw [h1, h2])
  intro n hn1 hn2
  have hn : n < 176 := by omega
  have := h (n / 44) (n % 44) (by omega) (by omega)
  unfold get2 at this
  have e : n / 44 * 44 + n % 44 = n := by omega
  rw [e, List.getD_eq_getElem _ _ hn1, List.getD_eq_getElem _ _ hn2] at this
  exact this

theorem KeyExpansion_agree (T : AesTables) (key w1 w2 : List Nat) (h1 : w1.length = 176)
    (h2 : w2.length = 176) : SchedAgree 44 (KeyExpansion T key w1) (KeyExpansion T key w2) :=
  word_loop_agree T _ _ (copy_loop_agree key w1 w2 h1 h2 4 (by omega)) 40 (by omega)

theorem KeyExpansion_length (T : AesTables) (key w : List Nat) (h : w.length = 176) :
    (KeyExpansion T key w).length = 176 :=
  (KeyExpansion_agree T key w w h h).1

theorem KeyExpansion_buffer (T : AesTables) (key w1 w2 : List Nat) (h1 : w1.length = 176)
    (h2 : w2.length = 176) : KeyExpansion T key w1 = KeyExpansion T key w2 :=
  SchedAgree_eq _ _ (KeyExpansion_agree T key w1 w2 h1 h2)

/-! ## The AES state transformations on an explicit 4x4 state -/

theorem list_length_16 (s : List Nat) (h : s.length = 16) :
    ∃ a0 a1 a2 a3 a4 a5 a6 a7 a8 a9 a10 a11 a12 a13 a14 a15,
      s = [a0, a1, a2, a3, a4, a5, a6, a7, a8, a9, a10, a11, a12, a13, a14, a15] := by
  match s, h with
  | [a0, a1, a2, a3, a4, a5, a6, a7, a8, a9, a10, a11, a12, a13, a14, a15], _ =>
    exact ⟨a0, a1, a2, a3, a4, a5, a6, a7, a8, a9, a10, a11, a12, a13, a14, a15, rfl⟩

theorem ShiftRows_explicit (a0 a1 a2 a3 a4 a5 a6 a7 a8 a9 a10 a11 a12 a13 a14 a15 : Nat) :
    ShiftRows [a0, a1, a2, a3, a4, a5, a6, a7, a8, a9, a10, a11, a12, a13, a14, a15] =
      [a0, a1, a2, a3, a5, a6, a7, a4, a10, a11, a8, a9, a15, a12, a13, a14] := by
  simp only [ShiftRows, get2, set2, Nb,
    List.getD_cons_succ, List.getD_cons_zero, List.set_cons_succ, List.set_cons_zero,
    Nat.reduceMul, Nat.reduceAdd, Nat.zero_add, Nat.add_zero]

theorem InvShiftRows_explicit (a0 a1 a2 a3 a4 a5 a6 a7 a8 a9 a10 a11 a12 a13 a14 a15 : Nat) :
    InvShiftRows [a0, a1, a2, a3, a4, a5, a6, a7, a8, a9, a10, a11, a12, a13, a14, a15] =
      [a0, a1, a2, a3, a7, a4, a5, a6, a10, a11, a8, a9, a13, a14, a15, a12] := by
  simp only [InvShiftRows, get2, set2, Nb,
    List.getD_cons_succ, List.getD_cons_zero, List.set_cons_succ, List.set_cons_zero,
    Nat.reduceMul, Nat.reduceAdd, Nat.zero_add, Nat.add_zero]

theorem SubBytes_explicit (T : AesTables)
    (a0 a1 a2 a3 a4 a5 a6 a7 a8 a9 a10 a11 a12 a13 a14 a15 : Nat) :
    SubBytes T [a0, a1, a2, a3, a4, a5, a6, a7, a8, a9, a10, a11, a12, a13, a14, a15] =
      [T.Sbox.getD a0 0, T.Sbox.getD a1 0, T.Sbox.getD a2 0, T.Sbox.getD a3 0,
       T.Sbox.getD a4 0, T.Sbox.getD a5 0, T.Sbox.getD a6 0, T.Sbox.getD a7 0,
       T.Sbox.getD a8 0, T.Sbox.getD a9 0, T.Sbox.getD a10 0, T.Sbox.getD a11 0,
       T.Sbox.getD a12 0, T.Sbox.getD a13 0, T.Sbox.getD a14 0, T.Sbox.getD a15 0] := by
  simp only [SubBytes, forLoop_succ, forLoop_zero, get2, set2, Nb,
    List.getD_cons_succ, List.getD_cons_zero, List.set_cons_succ, List.set_cons_zero,
    Nat.reduceMul, Nat.reduceAdd, Nat.zero_add, Nat.add_zero]

theorem InvSubBytes_explicit (T : AesTables)
    (a0 a1 a2 a3 a4 a5 a6 a7 a8 a9 a10 a11 a12 a13 a14 a15 : Nat) :
    InvSubBytes T [a0, a1, a2, a3, a4, a5, a6, a7, a8, a9, a10, a11, a12, a13, a14, a15] =
      [T.InvSbox.getD a0 0, T.InvSbox.getD a1 0, T.InvSbox.getD a2 0, T.InvSbox.getD a3 0,
       T.InvSbox.getD a4 0, T.InvSbox.getD a5 0, T.InvSbox.getD a6 0, T.InvSbox.getD a7 0,
       T.InvSbox.getD a8 0, T.InvSbox.getD a9 0, T.InvSbox.getD a10 0, T.InvSbox.getD a11 0,
       T.InvSbox.getD a12 0, T.InvSbox.getD a13 0, T.InvSbox.getD a14 0, T.InvSbox.getD a15 0] := by
  simp only [InvSubBytes, forLoop_succ, forLoop_zero, get2, set2, Nb,
    List.getD_cons_succ, List.getD_cons_zero, List.set_cons_succ, List.set_cons_zero,
    Nat.reduceMul, Nat.reduceAdd, Nat.zero_add, Nat.add_zero]

theorem AddRoundKey_explicit (w : List Nat) (r : Nat)
    (a0 a1 a2 a3 a4 a5 a6 a7 a8 a9 a10 a11 a12 a13 a14 a15 : Nat) :
    AddRoundKey [a0, a1, a2, a3, a4, a5, a6, a7, a8, a9, a10, a11, a12, a13, a14, a15] w r =
      [a0 ^^^ get2 44 w 0 (r * 4 + 0), a1 ^^^ get2 44 w 0 (r * 4 + 1),
       a2 ^^^ get2 44 w 0 (r * 4 + 2), a3 ^^^ get2 44 w 0 (r * 4 + 3),
       a4 ^^^ get2 44 w 1 (r * 4 + 0), a5 ^^^ get2 44 w 1 (r * 4 + 1),
       a6 ^^^ get2 44 w 1 (r * 4 + 2), a7 ^^^ get2 44 w 1 (r * 4 + 3),
       a8 ^^^ get2 44 w 2 (r * 4 + 0), a9 ^^^ get2 44 w 2 (r * 4 + 1),
       a10 ^^^ get2 44 w 2 (r * 4 + 2), a11 ^^^ get2 44 w 2 (r * 4 + 3),
       a12 ^^^ get2 44 w 3 (r * 4 + 0), a13 ^^^ get2 44 w 3 (r * 4 + 1),
       a14 ^^^ get2 44 w 3 (r * 4 + 2), a15 ^^^ get2 44 w 3 (r * 4 + 3)] := by
  simp only [AddRoundKey, forLoop_succ, forLoop_zero, get2, set2, Nb, Nr,
    List.getD_cons_succ, List.getD_cons_zero, List.set_cons_succ, List.set_cons_zero,
    Nat.reduceMul, Nat.reduceAdd, Nat.zero_add, Nat.add_zero]

theorem MixColumns_explicit (a0 a1 a2 a3 a4 a5 a6 a7 a8 a9 a10 a11 a12 a13 a14 a15 : Nat) :
    MixColumns [a0, a1, a2, a3, a4, a5, a6, a7, a8, a9, a10, a11, a12, a13, a14, a15] =
      [Mult2GF a0 ^^^ Mult3GF a4 ^^^ a8 ^^^ a12, Mult2GF a1 ^^^ Mult3GF a5 ^^^ a9 ^^^ a13,
       Mult2GF a2 ^^^ Mult3GF a6 ^^^ a10 ^^^ a14, Mult2GF a3 ^^^ Mult3GF a7 ^^^ a11 ^^^ a15,
       a0 ^^^ Mult2GF a4 ^^^ Mult3GF a8 ^^^ a12, a1 ^^^ Mult2GF a5 ^^^ Mult3GF a9 ^^^ a13,
       a2 ^^^ Mult2GF a6 ^^^ Mult3GF a10 ^^^ a14, a3 ^^^ Mult2GF a7 ^^^ Mult3GF a11 ^^^ a15,
       a0 ^^^ a4 ^^^ Mult2GF a8 ^^^ Mult3GF a12, a1 ^^^ a5 ^^^ Mult2GF a9 ^^^ Mult3GF a13,
       a2 ^^^ a6 ^^^ Mult2GF a10 ^^^ Mult3GF a14, a3 ^^^ a7 ^^^ Mult2GF a11 ^^^ Mult3GF a15,
       Mult3GF a0 ^^^ a4 ^^^ a8 ^^^ Mult2GF a12, Mult3GF a1 ^^^ a5 ^^^ a9 ^^^ Mult2GF a13,
       Mult3GF a2 ^^^ a6 ^^^ a10 ^^^ Mult2GF a14, Mult3GF a3 ^^^ a7 ^^^ a11 ^^^ Mult2GF a15] := by
  simp only [MixColumns, MixColumns_col, forLoop_succ, forLoop_zero, get2, set2, Nb,
    List.getD_cons_succ, List.getD_cons_zero, List.set_cons_succ, List.set_cons_zero,
    Nat.reduceMul, Nat.reduceAdd, Nat.zero_add, Nat.add_zero]

theorem MultGF_0E (x : Nat) :
    MultGF x 0xE = Mult2GF x ^^^ Mult2GF (Mult2GF x) ^^^ Mult2GF (Mult2GF (Mult2GF x)) := by
  rw [MultGF_eq, MultGF_fold_false x 14 7 (by decide),
    MultGF_fold_false x 14 6 (by decide),
    MultGF_fold_false x 14 5 (by decide),
    MultGF_fold_false x 14 4 (by decide),
    MultGF_fold_true x 14 3 (by decide),
    MultGF_fold_true x 14 2 (by decide),
    MultGF_fold_true x 14 1 (by decide),
    MultGF_fold_false x 14 0 (by decide),
    forLoop_zero]
  simp only [Function.iterate_succ, Function.iterate_zero, Function.comp_apply, id_eq,
    Nat.zero_xor]

/-! ## The inverse transformations -/

theorem InvMixColumns_explicit (a0 a1 a2 a3 a4 a5 a6 a7 a8 a9 a10 a11 a12 a13 a14 a15 : Nat) :
    InvMixColumns [a0, a1, a2, a3, a4, a5, a6, a7, a8, a9, a10, a11, a12, a13, a14, a15] =
      [MultGF a0 0xE ^^^ MultGF a4 0xB ^^^ MultGF a8 0xD ^^^ MultGF a12 0x9,
       MultGF a1 0xE ^^^ MultGF a5 0xB ^^^ MultGF a9 0xD ^^^ MultGF a13 0x9,
       MultGF a2 0xE ^^^ MultGF a6 0xB ^^^ MultGF a10 0xD ^^^ MultGF a14 0x9,
       MultGF a3 0xE ^^^ MultGF a7 0xB ^^^ MultGF a11 0xD ^^^ MultGF a15 0x9,
       MultGF a0 0x9 ^^^ MultGF a4 0xE ^^^ MultGF a8 0xB ^^^ MultGF a12 0xD,
       MultGF a1 0x9 ^^^ MultGF a5 0xE ^^^ MultGF a9 0xB ^^^ MultGF a13 0xD,
       MultGF a2 0x9 ^^^ MultGF a6 0xE ^^^ MultGF a10 0xB ^^^ MultGF a14 0xD,
       MultGF a3 0x9 ^^^ MultGF a7 0xE ^^^ MultGF a11 0xB ^^^ MultGF a15 0xD,
       MultGF a0 0xD ^^^ MultGF a4 0x9 ^^^ MultGF a8 0xE ^^^ MultGF a12 0xB,
       MultGF a1 0xD ^^^ MultGF a5 0x9 ^^^ MultGF a9 0xE ^^^ MultGF a13 0xB,
       MultGF a2 0xD ^^^ MultGF a6 0x9 ^^^ MultGF a10 0xE ^^^ MultGF a14 0xB,
       MultGF a3 0xD ^^^ MultGF a7 0x9 ^^^ MultGF a11 0xE ^^^ MultGF a15 0xB,
       MultGF a0 0xB ^^^ MultGF a4 0xD ^^^ MultGF a8 0x9 ^^^ MultGF a12 0xE,
       MultGF a1 0xB ^^^ MultGF a5 0xD ^^^ MultGF a9 0x9 ^^^ MultGF a13 0xE,
       MultGF a2 0xB ^^^ MultGF a6 0xD ^^^ MultGF a10 0x9 ^^^ MultGF a14 0xE,
       MultGF a3 0xB ^^^ MultGF a7 0xD ^^^ MultGF a11 0x9 ^^^ MultGF a15 0xE] := by
  simp only [InvMixColumns, InvMixColumns_col, forLoop_succ, forLoop_zero, get2, set2, Nb,
    List.getD_cons_succ, List.getD_cons_zero, List.set_cons_succ, List.set_cons_zero,
    Nat.reduceMul, Nat.reduceAdd, Nat.zero_add, Nat.add_zero]

theorem MultGF_0B (x : Nat) :
    MultGF x 0xB = x ^^^ Mult2GF x ^^^ Mult2GF (Mult2GF (Mult2GF x)) := by
  rw [MultGF_eq, MultGF_fold_false x 11 7 (by decide),
    MultGF_fold_false x 11 6 (by decide),
    MultGF_fold_false x 11 5 (by decide),
    MultGF_fold_false x 11 4 (by decide),
    MultGF_fold_true x 11 3 (by decide),
    MultGF_fold_false x 11 2 (by decide),
    MultGF_fold_true x 11 1 (by decide),
    MultGF_fold_true x 11 0 (by decide),
    forLoop_zero]
  simp only [Function.iterate_succ, Function.iterate_zero, Function.comp_apply, id_eq,
    Nat.zero_xor]

theorem MultGF_0D (x : Nat) :
    MultGF x 0xD = x ^^^ Mult2GF (Mult2GF x) ^^^ Mult2GF (Mult2GF (Mult2GF x)) := by
  rw [MultGF_eq, MultGF_fold_false x 13 7 (by decide),
    MultGF_fold_false x 13 6 (by decide),
    MultGF_fold_false x 13 5 (by decide),
    MultGF_fold_false x 13 4 (by decide),
    MultGF_fold_true x 13 3 (by decide),
    MultGF_fold_true x 13 2 (by decide),
    MultGF_fold_false x 13 1 (by decide),
    MultGF_fold_true x 13 0 (by decide),
    forLoop_zero]
  simp only [Function.iterate_succ, Function.iterate_zero, Function.comp_apply, id_eq,
    Nat.zero_xor]

theorem MultGF_09 (x : Nat) :
    MultGF x 0x9 = x ^^^ Mult2GF (Mult2GF (Mult2GF x)) := by
  rw [MultGF_eq, MultGF_fold_false x 9 7 (by decide),
    MultGF_fold_false x 9 6 (by decide),
    MultGF_fold_false x 9 5 (by decide),
    MultGF_fold_false x 9 4 (by decide),
    MultGF_fold_true x 9 3 (by decide),
    MultGF_fold_false x 9 2 (by decide),
    MultGF_fold_false x 9 1 (by decide),
    MultGF_fold_true x 9 0 (by decide),
    forLoop_zero]
  simp only [Function.iterate_succ, Function.iterate_zero, Function.comp_apply, id_eq,
    Nat.zero_xor]

/-- Row 0 of the product of the `InvMixColumns` and `MixColumns` matrices on one column. -/
theorem inv_mix_row0 (b0 b1 b2 b3 : Nat) :
    MultGF (Mult2GF b0 ^^^ Mult3GF b1 ^^^ b2 ^^^ b3) 0xE ^^^
      MultGF (b0 ^^^ Mult2GF b1 ^^^ Mult3GF b2 ^^^ b3) 0xB ^^^
      MultGF (b0 ^^^ b1 ^^^ Mult2GF b2 ^^^ Mult3GF b3) 0xD ^^^
      MultGF (Mult3GF b0 ^^^ b1 ^^^ b2 ^^^ Mult2GF b3) 0x9 = b0 := by
  simp only [MultGF_0E, MultGF_0B, MultGF_0D, MultGF_09, Mult3GF]
  have ht := Mult2GF_xor
  generalize Mult2GF = t at ht ⊢
  simp only [ht, Nat.xor_assoc]
  generalize t (t (t (t b0))) = x04
  generalize t (t (t b0)) = x03
  generalize t (t b0) = x02
  generalize t b0 = x01
  generalize t (t (t (t b1))) = x14
  generalize t (t (t b1)) = x13
  generalize t (t b1) = x12
  generalize t b1 = x11
  generalize t (t (t (t b2))) = x24
  generalize t (t (t b2)) = x23
  generalize t (t b2) = x22
  generalize t b2 = x21
  generalize t (t (t (t b3))) = x34
  generalize t (t (t b3)) = x33
  generalize t (t b3) = x32
  generalize t b3 = x31
  simp only [Nat.xor_comm, xor_left_comm, Nat.xor_cancel_left, Nat.xor_self, Nat.xor_zero]

theorem inv_mix_row1 (b0 b1 b2 b3 : Nat) :
    MultGF (Mult2GF b0 ^^^ Mult3GF b1 ^^^ b2 ^^^ b3) 0x9 ^^^
      MultGF (b0 ^^^ Mult2GF b1 ^^^ Mult3GF b2 ^^^ b3) 0xE ^^^
      MultGF (b0 ^^^ b1 ^^^ Mult2GF b2 ^^^ Mult3GF b3) 0xB ^^^
      MultGF (Mult3GF b0 ^^^ b1 ^^^ b2 ^^^ Mult2GF b3) 0xD = b1 := by
  simp only [MultGF_0E, MultGF_0B, MultGF_0D, MultGF_09, Mult3GF]
  have ht := Mult2GF_xor
  generalize Mult2GF = t at ht ⊢
  simp only [ht, Nat.xor_assoc]
  generalize t (t (t (t b0))) = x04
  generalize t (t (t b0)) = x03
  generalize t (t b0) = x02
  generalize t b0 = x01
  generalize t (t (t (t b1))) = x14
  generalize t (t (t b1)) = x13
  generalize t (t b1) = x12
  generalize t b1 = x11
  generalize t (t (t (t b2))) = x24
  generalize t (t (t b2)) = x23
  generalize t (t b2) = x22
  generalize t b2 = x21
  generalize t (t (t (t b3))) = x34
  generalize t (t (t b3)) = x33
  generalize t (t b3) = x32
  generalize t b3 = x31
  simp only [Nat.xor_comm, xor_left_comm, Nat.xor_cancel_left, Nat.xor_self, Nat.xor_zero]

theorem inv_mix_row2 (b0 b1 b2 b3 : Nat) :
    MultGF (Mult2GF b0 ^^^ Mult3GF b1 ^^^ b2 ^^^ b3) 0xD ^^^
      MultGF (b0 ^^^ Mult2GF b1 ^^^ Mult3GF b2 ^^^ b3) 0x9 ^^^
      MultGF (b0 ^^^ b1 ^^^ Mult2GF b2 ^^^ Mult3GF b3) 0xE ^^^
      MultGF (Mult3GF b0 ^^^ b1 ^^^ b2 ^^^ Mult2GF b3) 0xB = b2 := by
  simp only [MultGF_0E, MultGF_0B, MultGF_0D, MultGF_09, Mult3GF]
  have ht := Mult2GF_xor
  generalize Mult2GF = t at ht ⊢
  simp only [ht, Nat.xor_assoc]
  generalize t (t (t (t b0))) = x04
  generalize t (t (t b0)) = x03
  generalize t (t b0) = x02
  generalize t b0 = x01
  generalize t (t (t (t b1))) = x14
  generalize t (t (t b1)) = x13
  generalize t (t b1) = x12
  generalize t b1 = x11
  generalize t (t (t (t b2))) = x24
  generalize t (t (t b2)) = x23
  generalize t (t b2) = x22
  generalize t b2 = x21
  generalize t (t (t (t b3))) = x34
  generalize t (t (t b3)) = x33
  generalize t (t b3) = x32
  generalize t b3 = x31
  simp only [Nat.xor_comm, xor_left_comm, Nat.xor_cancel_left, Nat.xor_self, Nat.xor_zero]

theorem inv_mix_row3 (b0 b1 b2 b3 : Nat) :
    MultGF (Mult2GF b0 ^^^ Mult3GF b1 ^^^ b2 ^^^ b3) 0xB ^^^
      MultGF (b0 ^^^ Mult2GF b1 ^^^ Mult3GF b2 ^^^ b3) 0xD ^^^
      MultGF (b0 ^^^ b1 ^^^ Mult2GF b2 ^^^ Mult3GF b3) 0x9 ^^^
      MultGF (Mult3GF b0 ^^^ b1 ^^^ b2 ^^^ Mult2GF b3) 0xE = b3 := by
  simp only [MultGF_0E, MultGF_0B, MultGF_0D, MultGF_09, Mult3GF]
  have ht := Mult2GF_xor
  generalize Mult2GF = t at ht ⊢
  simp only [ht, Nat.xor_assoc]
  generalize t (t (t (t b0))) = x04
  generalize t (t (t b0)) = x03
  generalize t (t b0) = x02
  generalize t b0 = x01
  generalize t (t (t (t b1))) = x14
  generalize t (t (t b1)) = x13
  generalize t (t b1) = x12
  generalize t b1 = x11
  generalize t (t (t (t b2))) = x24
  generalize t (t (t b2)) = x23
  generalize t (t b2) = x22
  generalize t b2 = x21
  generalize t (t (t (t b3))) = x34
  generalize t (t (t b3)) = x33
  generalize t (t b3) = x32
  generalize t b3 = x31
  simp only [Nat.xor_comm, xor_left_comm, Nat.xor_cancel_left, Nat.xor_self, Nat.xor_zero]

theorem InvMixColumns_MixColumns (s : List Nat) (h : s.length = 16) :
    InvMixColumns (MixColumns s) = s := by
  obtain ⟨a0, a1, a2, a3, a4, a5, a6, a7, a8, a9, a10, a11, a12, a13, a14, a15, rfl⟩ :=
    list_length_16 s h
  rw [MixColumns_explicit, InvMixColumns_explicit]
  simp only [inv_mix_row0, inv_mix_row1, inv_mix_row2, inv_mix_row3]

theorem InvShiftRows_ShiftRows (s : List Nat) (h : s.length = 16) :
    InvShiftRows (ShiftRows s) = s := by
  obtain ⟨a0, a1, a2, a3, a4, a5, a6, a7, a8, a9, a10, a11, a12, a13, a14, a15, rfl⟩ :=
    list_length_16 s h
  rw [ShiftRows_explicit, InvShiftRows_explicit]

theorem AddRoundKey_AddRoundKey (s w : List Nat) (r : Nat) (h : s.length = 16) :
    AddRoundKey (AddRoundKey s w r) w r = s := by
  obtain ⟨a0, a1, a2, a3, a4, a5, a6, a7, a8, a9, a10, a11, a12, a13, a14, a15, rfl⟩ :=
    list_length_16 s h
  rw [AddRoundKey_explicit, AddRoundKey_explicit]
  simp [Nat.xor_assoc]

/-! ## Bytes stay bytes -/

theorem xor_byte {a b : Nat} (ha : a < 256) (hb : b < 256) : a ^^^ b < 256 :=
  @Nat.xor_lt_two_pow a b 8 ha hb

theorem getD_byte (l : List Nat) (h : ∀ x ∈ l, x < 256) (i : Nat) : l.getD i 0 < 256 := by
  by_cases hi : i < l.length
  · rw [List.getD_eq_getElem _ _ hi]
    exact h _ (List.getElem_mem hi)
  · rw [List.getD_eq_default _ _ (by omega)]
    decide

theorem get2_byte (c : Nat) (w : List Nat) (h : ∀ x ∈ w, x < 256) (j i : Nat) :
    get2 c w j i < 256 := getD_byte w h _

theorem Mult3GF_lt {a : Nat} (ha : a < 256) : Mult3GF a < 256 :=
  xor_byte (Mult2GF_lt a) ha

theorem bytes16_intro {a0 a1 a2 a3 a4 a5 a6 a7 a8 a9 a10 a11 a12 a13 a14 a15 : Nat}
    (h0 : a0 < 256) (h1 : a1 < 256) (h2 : a2 < 256) (h3 : a3 < 256) (h4 : a4 < 256)
    (h5 : a5 < 256) (h6 : a6 < 256) (h7 : a7 < 256) (h8 : a8 < 256) (h9 : a9 < 256)
    (h10 : a10 < 256) (h11 : a11 < 256) (h12 : a12 < 256) (h13 : a13 < 256)
    (h14 : a14 < 256) (h15 : a15 < 256) :
    ByteList 16 [a0, a1, a2, a3, a4, a5, a6, a7, a8, a9, a10, a11, a12, a13, a14, a15] := by
  refine ⟨rfl, ?_⟩
  intro x hx
  simp only [List.mem_cons, List.mem_singleton, List.not_mem_nil, or_false] at hx
  rcases hx with rfl | rfl | rfl | rfl | rfl | rfl | rfl | rfl | rfl | rfl | rfl | rfl | rfl |
    rfl | rfl | rfl <;> assumption

theorem bytes16_elim {a0 a1 a2 a3 a4 a5 a6 a7 a8 a9 a10 a11 a12 a13 a14 a15 : Nat}
    (h : ByteList 16 [a0, a1, a2, a3, a4, a5, a6, a7, a8, a9, a10, a11, a12, a13, a14, a15]) :
    a0 < 256 ∧ a1 < 256 ∧ a2 < 256 ∧ a3 < 256 ∧ a4 < 256 ∧ a5 < 256 ∧ a6 < 256 ∧ a7 < 256 ∧
    a8 < 256 ∧ a9 < 256 ∧ a10 < 256 ∧ a11 < 256 ∧ a12 < 256 ∧ a13 < 256 ∧ a14 < 256 ∧
    a15 < 256 := by
  have := h.2
  simp only [List.mem_cons, List.mem_singleton, List.not_mem_nil, or_false, forall_eq_or_imp,
    forall_eq] at this
  exact this

theorem SubBytes_bytes (T : AesTables) (hS : ∀ x, T.Sbox.getD x 0 < 256) (s : List Nat)
    (h : s.length = 16) : ByteList 16 (SubBytes T s) := by
  obtain ⟨a0, a1, a2, a3, a4, a5, a6, a7, a8, a9, a10, a11, a12, a13, a14, a15, rfl⟩ :=
    list_length_16 s h
  rw [SubBytes_explicit]
  exact bytes16_intro (hS _) (hS _) (hS _) (hS _) (hS _) (hS _) (hS _) (hS _) (hS _) (hS _)
    (hS _) (hS _) (hS _) (hS _) (hS _) (hS _)

theorem ShiftRows_bytes (s : List Nat) (h : ByteList 16 s) : ByteList 16 (ShiftRows s) := by
  obtain ⟨a0, a1, a2, a3, a4, a5, a6, a7, a8, a9, a10, a11, a12, a13, a14, a15, rfl⟩ :=
    list_length_16 s h.1
  obtain ⟨h0, h1, h2, h3, h4, h5, h6, h7, h8, h9, h10, h11, h12, h13, h14, h15⟩ :=
    bytes16_elim h
  rw [ShiftRows_explicit]
  exact bytes16_intro h0 h1 h2 h3 h5 h6 h7 h4 h10 h11 h8 h9 h15 h12 h13 h14

theorem MixColumns_bytes (s : List Nat) (h : ByteList 16 s) : ByteList 16 (MixColumns s) := by
  obtain ⟨a0, a1, a2, a3, a4, a5, a6, a7, a8, a9, a10, a11, a12, a13, a14, a15, rfl⟩ :=
    list_length_16 s h.1
  obtain ⟨h0, h1, h2, h3, h4, h5, h6, h7, h8, h9, h10, h11, h12, h13, h14, h15⟩ :=
    bytes16_elim h
  rw [MixColumns_explicit]
  have m2 := Mult2GF_lt
  apply bytes16_intro <;>
    first
    | exact xor_byte (xor_byte (xor_byte (m2 _) (Mult3GF_lt (by assumption))) (by assumption))
        (by assumption)
    | exact xor_byte (xor_byte (xor_byte (by assumption) (m2 _)) (Mult3GF_lt (by assumption)))
        (by assumption)
    | exact xor_byte (xor_byte (xor_byte (by assumption) (by assumption)) (m2 _))
        (Mult3GF_lt (by assumption))
    | exact xor_byte (xor_byte (xor_byte (Mult3GF_lt (by assumption)) (by assumption))
        (by assumption)) (m2 _)

theorem AddRoundKey_bytes (s w : List Nat) (r : Nat) (h : ByteList 16 s)
    (hw : ∀ x ∈ w, x < 256) : ByteList 16 (AddRoundKey s w r) := by
  obtain ⟨a0, a1, a2, a3, a4, a5, a6, a7, a8, a9, a10, a11, a12, a13, a14, a15, rfl⟩ :=
    list_length_16 s h.1
  obtain ⟨h0, h1, h2, h3, h4, h5, h6, h7, h8, h9, h10, h11, h12, h13, h14, h15⟩ :=
    bytes16_elim h
  rw [AddRoundKey_explicit]
  have g := get2_byte 44 w hw
  exact bytes16_intro (xor_byte h0 (g _ _)) (xor_byte h1 (g _ _)) (xor_byte h2 (g _ _))
    (xor_byte h3 (g _ _)) (xor_byte h4 (g _ _)) (xor_byte h5 (g _ _)) (xor_byte h6 (g _ _))
    (xor_byte h7 (g _ _)) (xor_byte h8 (g _ _)) (xor_byte h9 (g _ _)) (xor_byte h10 (g _ _))
    (xor_byte h11 (g _ _)) (xor_byte h12 (g _ _)) (xor_byte h13 (g _ _)) (xor_byte h14 (g _ _))
    (xor_byte h15 (g _ _))

theorem InvSubBytes_SubBytes (T : AesTables)
    (hI : ∀ x, x < 256 → T.InvSbox.getD (T.Sbox.getD x 0) 0 = x) (s : List Nat)
    (h : ByteList 16 s) : InvSubBytes T (SubBytes T s) = s := by
  obtain ⟨a0, a1, a2, a3, a4, a5, a6, a7, a8, a9, a10, a11, a12, a13, a14, a15, rfl⟩ :=
    list_length_16 s h.1
  obtain ⟨h0, h1, h2, h3, h4, h5, h6, h7, h8, h9, h10, h11, h12, h13, h14, h15⟩ :=
    bytes16_elim h
  rw [SubBytes_explicit, InvSubBytes_explicit, hI a0 h0, hI a1 h1, hI a2 h2, hI a3 h3,
    hI a4 h4, hI a5 h5, hI a6 h6, hI a7 h7, hI a8 h8, hI a9 h9, hI a10 h10, hI a11 h11,
    hI a12 h12, hI a13 h13, hI a14 h14, hI a15 h15]

theorem loadState_explicit (a0 a1 a2 a3 a4 a5 a6 a7 a8 a9 a10 a11 a12 a13 a14 a15 : Nat) :
    loadState [a0, a1, a2, a3, a4, a5, a6, a7, a8, a9, a10, a11, a12, a13, a14, a15] =
      [a0, a4, a8, a12, a1, a5, a9, a13, a2, a6, a10, a14, a3, a7, a11, a15] := by
  simp only [loadState, forLoop_succ, forLoop_zero, get2, set2, Nb, List.replicate,
    List.getD_cons_succ, List.getD_cons_zero, List.set_cons_succ, List.set_cons_zero,
    Nat.reduceMul, Nat.reduceAdd, Nat.zero_add, Nat.add_zero]

theorem storeState_explicit (a0 a1 a2 a3 a4 a5 a6 a7 a8 a9 a10 a11 a12 a13 a14 a15 : Nat)
    (b0 b1 b2 b3 b4 b5 b6 b7 b8 b9 b10 b11 b12 b13 b14 b15 : Nat) :
    storeState [a0, a1, a2, a3, a4, a5, a6, a7, a8, a9, a10, a11, a12, a13, a14, a15]
      [b0, b1, b2, b3, b4, b5, b6, b7, b8, b9, b10, b11, b12, b13, b14, b15] =
      [a0, a4, a8, a12, a1, a5, a9, a13, a2, a6, a10, a14, a3, a7, a11, a15] := by
  simp only [storeState, forLoop_succ, forLoop_zero, get2, set2, Nb,
    List.getD_cons_succ, List.getD_cons_zero, List.set_cons_succ, List.set_cons_zero,
    Nat.reduceMul, Nat.reduceAdd, Nat.zero_add, Nat.add_zero]

theorem loadState_storeState (s o : List Nat) (hs : s.length = 16) (ho : o.length = 16) :
    loadState (storeState s o) = s := by
  obtain ⟨a0, a1, a2, a3, a4, a5, a6, a7, a8, a9, a10, a11, a12, a13, a14, a15, rfl⟩ :=
    list_length_16 s hs
  obtain ⟨b0, b1, b2, b3, b4, b5, b6, b7, b8, b9, b10, b11, b12, b13, b14, b15, rfl⟩ :=
    list_length_16 o ho
  rw [storeState_explicit, loadState_explicit]

theorem storeState_loadState (p o : List Nat) (hp : p.length = 16) (ho : o.length = 16) :
    storeState (loadState p) o = p := by
  obtain ⟨a0, a1, a2, a3, a4, a5, a6, a7, a8, a9, a10, a11, a12, a13, a14, a15, rfl⟩ :=
    list_length_16 p hp
  obtain ⟨b0, b1, b2, b3, b4, b5, b6, b7, b8, b9, b10, b11, b12, b13, b14, b15, rfl⟩ :=
    list_length_16 o ho
  rw [loadState_explicit, storeState_explicit]

theorem loadState_bytes (p : List Nat) (h : ByteList 16 p) : ByteList 16 (loadState p) := by
  obtain ⟨a0, a1, a2, a3, a4, a5, a6, a7, a8, a9, a10, a11, a12, a13, a14, a15, rfl⟩ :=
    list_length_16 p h.1
  obtain ⟨h0, h1, h2, h3, h4, h5, h6, h7, h8, h9, h10, h11, h12, h13, h14, h15⟩ :=
    bytes16_elim h
  rw [loadState_explicit]
  exact bytes16_intro h0 h4 h8 h12 h1 h5 h9 h13 h2 h6 h10 h14 h3 h7 h11 h15

/-! ## InvCipher undoes Cipher -/

theorem AddRoundKey_length (s w : List Nat) (r : Nat) (h : s.length = 16) :
    (AddRoundKey s w r).length = 16 := by
  obtain ⟨a0, a1, a2, a3, a4, a5, a6, a7, a8, a9, a10, a11, a12, a13, a14, a15, rfl⟩ :=
    list_length_16 s h
  rw [AddRoundKey_explicit]
  rfl

theorem Cipher_round_bytes (T : AesTables) (hS : ∀ x, T.Sbox.getD x 0 < 256)
    (w : List Nat) (hw : ∀ x ∈ w, x < 256) (i : Nat) (s : List Nat) (h : ByteList 16 s) :
    ByteList 16 (Cipher_round T w i s) := by
  dsimp only [Cipher_round]
  exact AddRoundKey_bytes _ w i
    (MixColumns_bytes _ (ShiftRows_bytes _ (SubBytes_bytes T hS s h.1))) hw

theorem Cipher_loop_bytes (T : AesTables) (hS : ∀ x, T.Sbox.getD x 0 < 256)
    (w : List Nat) (hw : ∀ x ∈ w, x < 256) (s : List Nat) (h : ByteList 16 s) (n : Nat) :
    ByteList 16 (forLoop (fun k state => Cipher_round T w (k + 1) state) n s) := by
  induction n with
  | zero => rw [forLoop_zero]; exact h
  | succ n ih => rw [forLoop_succ]; exact Cipher_round_bytes T hS w hw _ _ ih

/-- One decryption round undoes one encryption round, seen between the
`SubBytes`/`ShiftRows` pairs. -/
theorem InvCipher_round_Cipher_round (T : AesTables) (hS : ∀ x, T.Sbox.getD x 0 < 256)
    (hI : ∀ x, x < 256 → T.InvSbox.getD (T.Sbox.getD x 0) 0 = x)
    (w : List Nat) (hw : ∀ x ∈ w, x < 256) (i : Nat) (s : List Nat) (h : ByteList 16 s) :
    InvCipher_round T w i (ShiftRows (SubBytes T (Cipher_round T w i s))) =
      ShiftRows (SubBytes T s) := by
  have hb : ByteList 16 (ShiftRows (SubBytes T s)) :=
    ShiftRows_bytes _ (SubBytes_bytes T hS s h.1)
  have hm : ByteList 16 (MixColumns (ShiftRows (SubBytes T s))) := MixColumns_bytes _ hb
  have hc : ByteList 16 (Cipher_round T w i s) := Cipher_round_bytes T hS w hw i s h
  dsimp only [InvCipher_round]
  rw [InvShiftRows_ShiftRows _ (SubBytes_bytes T hS _ hc.1).1, InvSubBytes_SubBytes T hI _ hc]
  dsimp only [Cipher_round]
  rw [AddRoundKey_AddRoundKey _ w i hm.1, InvMixColumns_MixColumns _ hb.1]

/-- The decryption round loop runs the encryption round loop backwards. -/
theorem InvCipher_loop (T : AesTables) (hS : ∀ x, T.Sbox.getD x 0 < 256)
    (hI : ∀ x, x < 256 → T.InvSbox.getD (T.Sbox.getD x 0) 0 = x)
    (w : List Nat) (hw : ∀ x ∈ w, x < 256) (s : List Nat) (h : ByteList 16 s)
    (k : Nat) (hk : k ≤ Nr - 1) :
    forLoop (fun k state => InvCipher_round T w (Nr - 1 - k) state) k
        (ShiftRows (SubBytes T
          (forLoop (fun k state => Cipher_round T w (k + 1) state) (Nr - 1) s))) =
      ShiftRows (SubBytes T
        (forLoop (fun k state => Cipher_round T w (k + 1) state) (Nr - 1 - k) s)) := by
  induction k with
  | zero => rw [forLoop_zero, Nat.sub_zero]
  | succ k ih =>
    rw [forLoop_succ, ih (by omega)]
    have e : Nr - 1 - k = (Nr - 1 - (k + 1)) + 1 := by omega
    rw [e, forLoop_succ]
    exact InvCipher_round_Cipher_round T hS hI w hw _ _ (Cipher_loop_bytes T hS w hw s h _)

theorem InvCipher_Cipher (T : AesTables) (hS : ∀ x, T.Sbox.getD x 0 < 256)
    (hI : ∀ x, x < 256 → T.InvSbox.getD (T.Sbox.getD x 0) 0 = x)
    (w : List Nat) (hw : ∀ x ∈ w, x < 256) (p o1 o2 : List Nat) (hp : ByteList 16 p)
    (ho1 : o1.length = 16) (ho2 : o2.length = 16) :
    InvCipher T (Cipher T p o1 w) o2 w = p := by
  have hl := loadState_bytes p hp
  have h0 := AddRoundKey_bytes _ w 0 hl hw
  have h9 := Cipher_loop_bytes T hS w hw _ h0 (Nr - 1)
  have hsb := ShiftRows_bytes _ (SubBytes_bytes T hS _ h9.1)
  have hx := AddRoundKey_length _ w Nr hsb.1
  dsimp only [InvCipher, Cipher]
  rw [loadState_storeState _ o1 hx ho1, AddRoundKey_AddRoundKey _ w Nr hsb.1,
    InvCipher_loop T hS hI w hw _ h0 (Nr - 1) (Nat.le_refl _), Nat.sub_self, forLoop_zero,
    InvShiftRows_ShiftRows _ (SubBytes_bytes T hS _ h0.1).1, InvSubBytes_SubBytes T hI _ h0,
    AddRoundKey_AddRoundKey _ w 0 hl.1, storeState_loadState p o2 hp.1 ho2]

/-! ## The AES key schedule holds bytes -/

theorem setcol_bytes (w : List Nat) (i v0 v1 v2 v3 : Nat) (hi : i < 44)
    (h0 : v0 < 256) (h1 : v1 < 256) (h2 : v2 < 256) (h3 : v3 < 256)
    (hB : SchedBytes i w) :
    SchedBytes (i + 1) (set2 44 (set2 44 (set2 44 (set2 44 w 0 i v0) 1 i v1) 2 i v2) 3 i v3) := by
  obtain ⟨hl, h⟩ := hB
  refine ⟨by simp [length_set2, hl], ?_⟩
  intro j c hj hc
  simp only [get2_set2, length_set2, hl]
  by_cases e : c = i
  · subst e
    have : j = 0 ∨ j = 1 ∨ j = 2 ∨ j = 3 := by omega
    rcases this with rfl | rfl | rfl | rfl <;> split_ifs <;> first | assumption | omega
  · have hc2 : c < i := by omega
    have f : ∀ (r : Nat) (P : Prop), ¬ (r * 44 + i = j * 44 + c ∧ P) := by
      intro r P hh
      have := hh.1
      omega
    simp only [f, if_false]
    exact h j c hj hc2

theorem KeyExpansion_val_byte (T : AesTables) (hS : ∀ x, T.Sbox.getD x 0 < 256)
    (hR : ∀ x, T.Rcon.getD x 0 < 256) (i : Nat) (w : List Nat) (hi : 4 ≤ i)
    (hB : SchedBytes i w) (j : Nat) (hj : j < 4) : KeyExpansion_val T i w j < 256 := by
  obtain ⟨_, h⟩ := hB
  have t0 := h 0 (i - 1) (by omega) (by omega)
  have t1 := h 1 (i - 1) (by omega) (by omega)
  have t2 := h 2 (i - 1) (by omega) (by omega)
  have t3 := h 3 (i - 1) (by omega) (by omega)
  have u := h j (i - Nk) hj (by unfold Nk; omega)
  unfold KeyExpansion_val
  apply xor_byte u
  have hN : ¬ (Nk > 6 ∧ i % Nk = 4) := by unfold Nk; omega
  have : j = 0 ∨ j = 1 ∨ j = 2 ∨ j = 3 := by omega
  by_cases hm : i % Nk = 0
  · simp only [hm, if_true, RotWord, SubWord, List.set_cons_zero, List.set_cons_succ,
      List.getD_cons_zero, List.getD_cons_succ]
    rcases this with rfl | rfl | rfl | rfl
    · exact xor_byte (hS _) (hR _)
    · exact hS _
    · exact hS _
    · exact hS _
  · simp only [hm, hN, if_false]
    rcases this with rfl | rfl | rfl | rfl <;> assumption

theorem copy_loop_bytes (key w : List Nat) (hk : ∀ x ∈ key, x < 256) (hw : w.length = 176)
    (n : Nat) (hn : n ≤ 44) :
    SchedBytes n (forLoop (fun i w => KeyExpansion_copy key i w) n w) := by
  induction n with
  | zero => exact ⟨hw, fun j i _ hi => absurd hi (Nat.not_lt_zero i)⟩
  | succ n ih =>
    rw [forLoop_succ]
    simp only [KeyExpansion_copy_eq]
    exact setcol_bytes _ _ _ _ _ _ (by omega) (getD_byte _ hk _) (getD_byte _ hk _)
      (getD_byte _ hk _) (getD_byte _ hk _) (ih (by omega))

theorem word_loop_bytes (T : AesTables) (hS : ∀ x, T.Sbox.getD x 0 < 256)
    (hR : ∀ x, T.Rcon.getD x 0 < 256) (w : List Nat) (hB : SchedBytes 4 w)
    (n : Nat) (hn : 4 + n ≤ 44) :
    SchedBytes (4 + n) (forLoop (fun k w => KeyExpansion_word T (Nk + k) w) n w) := by
  induction n with
  | zero => exact hB
  | succ n ih =>
    rw [forLoop_succ]
    have e : Nk + n = 4 + n := rfl
    have ih2 := ih (by omega)
    simp only [e]
    rw [KeyExpansion_word_eq T (4 + n) _ (by omega) (by omega)]
    exact setcol_bytes _ (4 + n) _ _ _ _ (by omega)
      (KeyExpansion_val_byte T hS hR _ _ (by omega) ih2 0 (by omega))
      (KeyExpansion_val_byte T hS hR _ _ (by omega) ih2 1 (by omega))
      (KeyExpansion_val_byte T hS hR _ _ (by omega) ih2 2 (by omega))
      (KeyExpansion_val_byte T hS hR _ _ (by omega) ih2 3 (by omega)) ih2

theorem SchedBytes_all (w : List Nat) (hB : SchedBytes 44 w) : ∀ x ∈ w, x < 256 := by
  obtain ⟨hl, h⟩ := hB
  intro x hx
  obtain ⟨n, hn, rfl⟩ := List.mem_iff_getElem.mp hx
  have := h (n / 44) (n % 44) (by omega) (by omega)
  unfold get2 at this
  have e : n / 44 * 44 + n % 44 = n := by omega
  rw [e, List.getD_eq_getElem _ _ hn] at this
  exact this

theorem KeyExpansion_bytes (T : AesTables) (hS : ∀ x, T.Sbox.getD x 0 < 256)
    (hR : ∀ x, T.Rcon.getD x 0 < 256) (key w : List Nat) (hk : ∀ x ∈ key, x < 256)
    (hw : w.length = 176) : ∀ x ∈ KeyExpansion T key w, x < 256 :=
  SchedBytes_all _
    (word_loop_bytes T hS hR _ (copy_loop_bytes key w hk hw 4 (by omega)) 40 (by omega))

set_option maxRecDepth 100000 in
theorem aes_h_Sbox_byte : ∀ x, aes_h.Sbox.getD x 0 < 256 :=
  getD_byte _ (by decide!)

set_option maxRecDepth 100000 in
theorem aes_h_Rcon_byte : ∀ x, aes_h.Rcon.getD x 0 < 256 :=
  getD_byte _ (by decide!)

set_option maxRecDepth 100000 in
theorem aes_h_InvSbox_Sbox : ∀ x, x < 256 → aes_h.InvSbox.getD (aes_h.Sbox.getD x 0) 0 = x := by
  decide!

/-! ## DES: words, halves and rotations -/

theorem testBit_of_lt {x n j : Nat} (h : x < 2 ^ n) (hj : n ≤ j) : x.testBit j = false :=
  Nat.testBit_lt_two_pow (Nat.lt_of_lt_of_le h (Nat.pow_le_pow_right (by decide) hj))

theorem testBit_u32 (x j : Nat) : (u32 x).testBit j = (decide (j < 32) && x.testBit j) := by
  have h : (4294967296 : Nat) = 2 ^ 32 := by norm_num
  unfold u32
  rw [h, Nat.testBit_mod_two_pow]

theorem testBit_mask32 (j : Nat) : DATA_BIT_WIDTH_2_MASK.testBit j = decide (j < 32) := by
  have h : DATA_BIT_WIDTH_2_MASK = 2 ^ 32 - 1 := by decide
  rw [h, Nat.testBit_two_pow_sub_one]

theorem testBit_mask28 (j : Nat) : KEY_BIT_WIDTH_2_MASK.testBit j = decide (j < 28) := by
  have h : KEY_BIT_WIDTH_2_MASK = 2 ^ 28 - 1 := by decide
  rw [h, Nat.testBit_two_pow_sub_one]

theorem u32_lt (x : Nat) : u32 x < 2 ^ 32 := Nat.mod_lt _ (by norm_num)

theorem u32_of_lt {x : Nat} (h : x < 2 ^ 32) : u32 x = x := Nat.mod_eq_of_lt h

/-- The upper half `(sb_uint32_t)(d >> 32)` of a packed word. -/
theorem hi_pack (a b : Nat) (ha : a < 2 ^ 32) (hb : b < 2 ^ 32) :
    u32 (((a <<< DATA_BIT_WIDTH_2) ||| b) >>> DATA_BIT_WIDTH_2) = a := by
  apply Nat.eq_of_testBit_eq
  intro j
  simp only [testBit_u32, Nat.testBit_shiftRight, Nat.testBit_or, Nat.testBit_shiftLeft,
    DATA_BIT_WIDTH_2]
  have h1 : b.testBit (32 + j) = false := testBit_of_lt hb (by omega)
  have h2 : 32 + j - 32 = j := by omega
  by_cases hj : j < 32
  · simp [hj, h1, h2]
  · have h3 : a.testBit j = false := testBit_of_lt ha (by omega)
    simp [hj, h3]

/-- The lower half `(sb_uint32_t)(d & 0xFFFFFFFF)` of a packed word. -/
theorem lo_pack (a b : Nat) (hb : b < 2 ^ 32) :
    u32 (((a <<< DATA_BIT_WIDTH_2) ||| b) &&& DATA_BIT_WIDTH_2_MASK) = b := by
  apply Nat.eq_of_testBit_eq
  intro j
  simp only [testBit_u32, Nat.testBit_and, Nat.testBit_or, Nat.testBit_shiftLeft,
    testBit_mask32, DATA_BIT_WIDTH_2]
  by_cases hj : j < 32
  · have : ¬ j ≥ 32 := by omega
    simp [hj, this]
  · have h3 : b.testBit j = false := testBit_of_lt hb (by omega)
    simp [hj, h3]

theorem pack_lt (a b : Nat) (ha : a < 2 ^ 32) (hb : b < 2 ^ 32) :
    (a <<< DATA_BIT_WIDTH_2) ||| b < 2 ^ 64 := by
  apply Nat.lt_pow_two_of_testBit
  intro j hj
  simp only [Nat.testBit_or, Nat.testBit_shiftLeft, DATA_BIT_WIDTH_2]
  have h1 : b.testBit j = false := testBit_of_lt hb (by omega)
  have h2 : a.testBit (j - 32) = false := testBit_of_lt ha (by omega)
  simp [h1, h2]

theorem pack_hi_lo (d : Nat) (hd : d < 2 ^ 64) :
    (u32 (d >>> DATA_BIT_WIDTH_2) <<< DATA_BIT_WIDTH_2) |||
      u32 (d &&& DATA_BIT_WIDTH_2_MASK) = d := by
  apply Nat.eq_of_testBit_eq
  intro j
  simp only [testBit_u32, Nat.testBit_and, Nat.testBit_or, Nat.testBit_shiftLeft,
    Nat.testBit_shiftRight, testBit_mask32, DATA_BIT_WIDTH_2]
  by_cases hj : j < 32
  · have : ¬ j ≥ 32 := by omega
    simp [hj, this]
  · have h1 : j ≥ 32 := by omega
    have h2 : 32 + (j - 32) = j := by omega
    by_cases h3 : j - 32 < 32
    · simp [hj, h1, h2, h3]
    · have h4 : d.testBit j = false := testBit_of_lt hd (by omega)
      simp [hj, h3, h4]

theorem do_feistel_lt (T : DesTables) (d k : Nat) : do_feistel T d k < 2 ^ 32 := u32_lt _

/-- A round of `do_des`, the swap of the halves and the same round again give the swap. -/
theorem do_round_swap_do_round (T : DesTables) (d k : Nat) :
    do_round T
      ((u32 (do_round T d k &&& DATA_BIT_WIDTH_2_MASK) <<< DATA_BIT_WIDTH_2) |||
        u32 (do_round T d k >>> DATA_BIT_WIDTH_2)) k =
      (u32 (d &&& DATA_BIT_WIDTH_2_MASK) <<< DATA_BIT_WIDTH_2) |||
        u32 (d >>> DATA_BIT_WIDTH_2) := by
  have hL := u32_lt (d >>> DATA_BIT_WIDTH_2)
  have hR := u32_lt (d &&& DATA_BIT_WIDTH_2_MASK)
  have hF := do_feistel_lt T (u32 (d &&& DATA_BIT_WIDTH_2_MASK)) k
  have hX := @Nat.xor_lt_two_pow _ _ 32 hF hL
  have e1 : do_round T d k =
      (u32 (d &&& DATA_BIT_WIDTH_2_MASK) <<< DATA_BIT_WIDTH_2) |||
        (do_feistel T (u32 (d &&& DATA_BIT_WIDTH_2_MASK)) k ^^^ u32 (d >>> DATA_BIT_WIDTH_2)) :=
    rfl
  rw [e1, hi_pack _ _ hR hX, lo_pack _ _ hX]
  generalize u32 (d &&& DATA_BIT_WIDTH_2_MASK) = R at *
  generalize u32 (d >>> DATA_BIT_WIDTH_2) = L at *
  have e2 : ∀ x, do_round T x k =
      (u32 (x &&& DATA_BIT_WIDTH_2_MASK) <<< DATA_BIT_WIDTH_2) |||
        (do_feistel T (u32 (x &&& DATA_BIT_WIDTH_2_MASK)) k ^^^ u32 (x >>> DATA_BIT_WIDTH_2)) :=
    fun _ => rfl
  rw [e2, hi_pack _ _ hX hR, lo_pack _ _ hR, Nat.xor_cancel_left]

theorem swap_halves_lt (x : Nat) : swap_halves x < 2 ^ 64 :=
  pack_lt _ _ (u32_lt _) (u32_lt _)

theorem swap_halves_swap_halves (x : Nat) (hx : x < 2 ^ 64) :
    swap_halves (swap_halves x) = x := by
  unfold swap_halves
  dsimp only
  rw [hi_pack _ _ (u32_lt _) (u32_lt _), lo_pack _ _ (u32_lt _), pack_hi_lo x hx]

theorem do_round_swap (T : DesTables) (d k : Nat) :
    do_round T (swap_halves (do_round T d k)) k = swap_halves d :=
  do_round_swap_do_round T d k

/-- Running the 16 rounds with the reversed subkeys on the swapped result of the 16
rounds walks the states back. -/
theorem rounds_reverse (T : DesTables) (x : Nat) (sk sk2 : List Nat)
    (hrev : ∀ i, i < 16 → sk2.getD i 0 = sk.getD (15 - i) 0) (n : Nat) (hn : n ≤ 16) :
    forLoop (fun i d => do_round T d (sk2.getD i 0)) n
        (swap_halves (forLoop (fun i d => do_round T d (sk.getD i 0)) 16 x)) =
      swap_halves (forLoop (fun i d => do_round T d (sk.getD i 0)) (16 - n) x) := by
  induction n with
  | zero => rw [forLoop_zero, Nat.sub_zero]
  | succ n ih =>
    rw [forLoop_succ, ih (by omega), hrev n (by omega)]
    have e : 16 - n = (15 - n) + 1 := by omega
    have e2 : 16 - (n + 1) = 15 - n := by omega
    rw [e, forLoop_succ, e2]
    exact do_round_swap T _ _

/-- The data path of `do_des` is undone by the same data path with the subkeys in reverse
order, when the initial and final permutations are inverse to each other. -/
theorem do_des_data_reverse (T : DesTables)
    (h1 : ∀ x, x < 2 ^ 64 →
      do_perm (do_perm x T.ip_table_c 64 64) T.fp_table_c 64 64 = x)
    (h2 : ∀ x, x < 2 ^ 64 →
      do_perm (do_perm x T.fp_table_c 64 64) T.ip_table_c 64 64 = x)
    (d : Nat) (hd : d < 2 ^ 64) (sk sk2 : List Nat)
    (hrev : ∀ i, i < 16 → sk2.getD i 0 = sk.getD (15 - i) 0) :
    do_des_data T (do_des_data T d sk) sk2 = d := by
  unfold do_des_data
  dsimp only [DATA_BIT_WIDTH, IP_BIT_WIDTH, FP_BIT_WIDTH, NB_ROUND]
  rw [h2 _ (swap_halves_lt _), rounds_reverse T _ sk sk2 hrev 16 (Nat.le_refl _), Nat.sub_self,
    forLoop_zero, swap_halves_swap_halves _ (do_perm_lt _ _ _ _), h1 d hd]

/-! ## DES: the key schedule -/

theorem rotl28_testBit (x r j : Nat) (hx : x < 2 ^ 28) (hr : r ≤ 28) :
    (((u32 (x <<< r)) ||| (x >>> (KEY_BIT_WIDTH_2 - r))) &&& KEY_BIT_WIDTH_2_MASK).testBit j =
      (decide (j < 28) && x.testBit ((j + (28 - r)) % 28)) := by
  simp only [Nat.testBit_and, Nat.testBit_or, testBit_u32, Nat.testBit_shiftLeft,
    Nat.testBit_shiftRight, testBit_mask28, KEY_BIT_WIDTH_2]
  by_cases hj : j < 28
  · have hj2 : j < 32 := by omega
    by_cases h : j ≥ r
    · have h1 : x.testBit (28 - r + j) = false := testBit_of_lt hx (by omega)
      have h2 : (j + (28 - r)) % 28 = j - r := by omega
      simp [hj, hj2, h, h1, h2]
    · have h2 : (j + (28 - r)) % 28 = 28 - r + j := by omega
      simp [hj, hj2, h, h2]
  · simp [hj]

theorem rotr28_testBit (x r j : Nat) (hx : x < 2 ^ 28) (hr : r ≤ 28) :
    (((x >>> r) ||| u32 (x <<< (KEY_BIT_WIDTH_2 - r))) &&& KEY_BIT_WIDTH_2_MASK).testBit j =
      (decide (j < 28) && x.testBit ((j + r) % 28)) := by
  simp only [Nat.testBit_and, Nat.testBit_or, testBit_u32, Nat.testBit_shiftLeft,
    Nat.testBit_shiftRight, testBit_mask28, KEY_BIT_WIDTH_2]
  by_cases hj : j < 28
  · have hj2 : j < 32 := by omega
    by_cases h : r + j < 28
    · have h1 : ¬ j ≥ 28 - r := by omega
      have h2 : (j + r) % 28 = r + j := by omega
      simp [hj, hj2, h1, h2]
    · have h1 : x.testBit (r + j) = false := testBit_of_lt hx (by omega)
      have h2 : (j + r) % 28 = j - (28 - r) := by omega
      have h3 : j ≥ 28 - r := by omega
      simp [hj, hj2, h1, h2, h3]
  · simp [hj]

theorem key_r_lt (key : Nat) : u32 (key &&& KEY_BIT_WIDTH_2_MASK) < 2 ^ 28 := by
  apply Nat.lt_pow_two_of_testBit
  intro j hj
  rw [testBit_u32, Nat.testBit_and, testBit_mask28]
  have : ¬ j < 28 := by omega
  simp [this]

theorem key_l_lt (key : Nat) (hk : key < 2 ^ 56) : u32 (key >>> KEY_BIT_WIDTH_2) < 2 ^ 28 := by
  apply Nat.lt_pow_two_of_testBit
  intro j hj
  rw [testBit_u32, Nat.testBit_shiftRight]
  have : key.testBit (KEY_BIT_WIDTH_2 + j) = false :=
    testBit_of_lt hk (by unfold KEY_BIT_WIDTH_2; omega)
  simp [this]

theorem key_r_testBit (key j : Nat) (hj : j < 28) :
    (u32 (key &&& KEY_BIT_WIDTH_2_MASK)).testBit j = key.testBit j := by
  rw [testBit_u32, Nat.testBit_and, testBit_mask28]
  have : j < 32 := by omega
  simp [hj, this]

theorem key_l_testBit (key j : Nat) (hj : j < 28) :
    (u32 (key >>> KEY_BIT_WIDTH_2)).testBit j = key.testBit (28 + j) := by
  rw [testBit_u32, Nat.testBit_shiftRight]
  have : j < 32 := by omega
  simp [this, KEY_BIT_WIDTH_2]

/-- Bits of the word `(key_l << 28) | key_r` built from two 28-bit halves. -/
theorem key_join_testBit (l r j : Nat) (hr : r < 2 ^ 28) :
    ((l <<< KEY_BIT_WIDTH_2) ||| r).testBit j =
      if j < 28 then r.testBit j else l.testBit (j - 28) := by
  rw [Nat.testBit_or, Nat.testBit_shiftLeft]
  by_cases hj : j < 28
  · have : ¬ j ≥ KEY_BIT_WIDTH_2 := by unfold KEY_BIT_WIDTH_2; omega
    simp [hj, this]
  · have h1 : r.testBit j = false := testBit_of_lt hr (by omega)
    have h2 : j ≥ 28 := by omega
    simp only [hj, h1, h2, KEY_BIT_WIDTH_2, decide_True, Bool.true_and, Bool.or_false,
      if_false]

theorem and_mask28_lt (y : Nat) : y &&& KEY_BIT_WIDTH_2_MASK < 2 ^ 28 := by
  apply Nat.lt_pow_two_of_testBit
  intro j hj
  rw [Nat.testBit_and, testBit_mask28]
  have : ¬ j < 28 := by omega
  simp [this]

theorem do_key_cipher_fst (T : DesTables) (key round : Nat) :
    (do_key T key round MODE_CIPHER).1 =
      ((((u32 (u32 (key >>> KEY_BIT_WIDTH_2) <<< T.encrypt_rotate_tab.getD round 0)) |||
          (u32 (key >>> KEY_BIT_WIDTH_2) >>>
            (KEY_BIT_WIDTH_2 - T.encrypt_rotate_tab.getD round 0))) &&&
          KEY_BIT_WIDTH_2_MASK) <<< KEY_BIT_WIDTH_2) |||
      (((u32 (u32 (key &&& KEY_BIT_WIDTH_2_MASK) <<< T.encrypt_rotate_tab.getD round 0)) |||
          (u32 (key &&& KEY_BIT_WIDTH_2_MASK) >>>
            (KEY_BIT_WIDTH_2 - T.encrypt_rotate_tab.getD round 0))) &&&
          KEY_BIT_WIDTH_2_MASK) := by
  simp only [do_key, if_true]

theorem do_key_decipher_fst (T : DesTables) (key round : Nat) :
    (do_key T key round MODE_DECIPHER).1 =
      ((((u32 (key >>> KEY_BIT_WIDTH_2) >>> T.decrypt_rotate_tab.getD round 0) |||
          u32 (u32 (key >>> KEY_BIT_WIDTH_2) <<<
            (KEY_BIT_WIDTH_2 - T.decrypt_rotate_tab.getD round 0))) &&&
          KEY_BIT_WIDTH_2_MASK) <<< KEY_BIT_WIDTH_2) |||
      (((u32 (key &&& KEY_BIT_WIDTH_2_MASK) >>> T.decrypt_rotate_tab.getD round 0) |||
          u32 (u32 (key &&& KEY_BIT_WIDTH_2_MASK) <<<
            (KEY_BIT_WIDTH_2 - T.decrypt_rotate_tab.getD round 0))) &&&
          KEY_BIT_WIDTH_2_MASK) := by
  have h : ¬ (MODE_DECIPHER = MODE_CIPHER) := by decide
  simp only [do_key, h, if_true, if_false]

theorem do_key_snd (T : DesTables) (key round mode : Nat) :
    (do_key T key round mode).2 =
      do_perm (do_key T key round mode).1 T.pc2_table_c KEY_BIT_WIDTH SUBKEY_BIT_WIDTH := rfl

/-- Bits of the key state after one `do_key` call in encrypt mode: both halves rotated
left by the table amount `r`. -/
theorem do_key_cipher_testBit (T : DesTables) (key round j : Nat) (hk : key < 2 ^ 56)
    (hr : T.encrypt_rotate_tab.getD round 0 ≤ 28) :
    (do_key T key round MODE_CIPHER).1.testBit j =
      (decide (j < 56) &&
        key.testBit (rotIdx (28 - T.encrypt_rotate_tab.getD round 0) j)) := by
  rw [do_key_cipher_fst, key_join_testBit _ _ _ (and_mask28_lt _)]
  unfold rotIdx
  by_cases hj : j < 28
  · have h56 : j < 56 := by omega
    rw [if_pos hj, if_pos hj, rotl28_testBit _ _ _ (key_r_lt key) hr,
      key_r_testBit _ _ (Nat.mod_lt _ (by decide))]
    simp [hj, h56]
  · rw [if_neg hj, if_neg hj, rotl28_testBit _ _ _ (key_l_lt key hk) hr,
      key_l_testBit _ _ (Nat.mod_lt _ (by decide))]
    by_cases h56 : j < 56
    · have : j - 28 < 28 := by omega
      simp [h56, this]
    · have : ¬ j - 28 < 28 := by omega
      simp [h56, this]

/-- Bits of the key state after one `do_key` call in decrypt mode: both halves rotated
right by the table amount `r`. -/
theorem do_key_decipher_testBit (T : DesTables) (key round j : Nat) (hk : key < 2 ^ 56)
    (hr : T.decrypt_rotate_tab.getD round 0 ≤ 28) :
    (do_key T key round MODE_DECIPHER).1.testBit j =
      (decide (j < 56) && key.testBit (rotIdx (T.decrypt_rotate_tab.getD round 0) j)) := by
  rw [do_key_decipher_fst, key_join_testBit _ _ _ (and_mask28_lt _)]
  unfold rotIdx
  by_cases hj : j < 28
  · have h56 : j < 56 := by omega
    rw [if_pos hj, if_pos hj, rotr28_testBit _ _ _ (key_r_lt key) hr,
      key_r_testBit _ _ (Nat.mod_lt _ (by decide))]
    simp [hj, h56]
  · rw [if_neg hj, if_neg hj, rotr28_testBit _ _ _ (key_l_lt key hk) hr,
      key_l_testBit _ _ (Nat.mod_lt _ (by decide))]
    by_cases h56 : j < 56
    · have : j - 28 < 28 := by omega
      simp [h56, this]
    · have : ¬ j - 28 < 28 := by omega
      simp [h56, this]

theorem rotIdx_lt (a j : Nat) : rotIdx a j < 56 := by
  unfold rotIdx
  split_ifs <;> omega

theorem keyState_testBit_cipher (T : DesTables) (key_56 : Nat) (hk : key_56 < 2 ^ 56)
    (hr : ∀ i, i < 16 → T.encrypt_rotate_tab.getD i 0 ≤ 28) (n : Nat) (hn : n ≤ 16) (j : Nat) :
    (keyState T MODE_CIPHER key_56 n).testBit j =
      (decide (j < 56) && key_56.testBit (keyIdx T MODE_CIPHER n j)) := by
  induction n generalizing j with
  | zero =>
    unfold keyState keyIdx
    by_cases hj : j < 56
    · simp [hj]
    · simp [hj, testBit_of_lt hk (by omega : 56 ≤ j)]
  | succ n ih =>
    have hlt : keyState T MODE_CIPHER key_56 n < 2 ^ 56 := by
      apply Nat.lt_pow_two_of_testBit
      intro i hi
      rw [ih (by omega)]
      have : ¬ i < 56 := by omega
      simp [this]
    rw [keyState, do_key_cipher_testBit T _ n j hlt (hr n (by omega)), ih (by omega), keyIdx]
    have e : keyShift T MODE_CIPHER n = 28 - T.encrypt_rotate_tab.getD n 0 := by
      simp only [keyShift, if_true]
    rw [e]
    by_cases hj : j < 56
    · simp [hj, rotIdx_lt _ _]
    · simp [hj]

theorem keyState_testBit_decipher (T : DesTables) (key_56 : Nat) (hk : key_56 < 2 ^ 56)
    (hr : ∀ i, i < 16 → T.decrypt_rotate_tab.getD i 0 ≤ 28) (n : Nat) (hn : n ≤ 16) (j : Nat) :
    (keyState T MODE_DECIPHER key_56 n).testBit j =
      (decide (j < 56) && key_56.testBit (keyIdx T MODE_DECIPHER n j)) := by
  induction n generalizing j with
  | zero =>
    unfold keyState keyIdx
    by_cases hj : j < 56
    · simp [hj]
    · simp [hj, testBit_of_lt hk (by omega : 56 ≤ j)]
  | succ n ih =>
    have hlt : keyState T MODE_DECIPHER key_56 n < 2 ^ 56 := by
      apply Nat.lt_pow_two_of_testBit
      intro i hi
      rw [ih (by omega)]
      have : ¬ i < 56 := by omega
      simp [this]
    rw [keyState, do_key_decipher_testBit T _ n j hlt (hr n (by omega)), ih (by omega), keyIdx]
    have h : ¬ (MODE_DECIPHER = MODE_CIPHER) := by decide
    have e : keyShift T MODE_DECIPHER n = T.decrypt_rotate_tab.getD n 0 := by
      simp only [keyShift, h, if_true, if_false]
    rw [e]
    by_cases hj : j < 56
    · simp [hj, rotIdx_lt _ _]
    · simp [hj]

/-! ## DES: subkeys, permutations and the round trip -/

/-- The state of the key schedule loop of `do_des` after `n` iterations. -/
theorem do_des_keys_loop (T : DesTables) (key_56 mode : Nat) (n : Nat) (hn : n ≤ 16) :
    (forLoop (fun i (st : Nat × List Nat) =>
        ((do_key T st.1 i mode).1, st.2.set i (do_key T st.1 i mode).2)) n
        (key_56, List.replicate NB_ROUND 0)).1 = keyState T mode key_56 n ∧
    (forLoop (fun i (st : Nat × List Nat) =>
        ((do_key T st.1 i mode).1, st.2.set i (do_key T st.1 i mode).2)) n
        (key_56, List.replicate NB_ROUND 0)).2.length = 16 ∧
    ∀ i, i < n →
      (forLoop (fun i (st : Nat × List Nat) =>
        ((do_key T st.1 i mode).1, st.2.set i (do_key T st.1 i mode).2)) n
        (key_56, List.replicate NB_ROUND 0)).2.getD i 0 =
      do_perm (keyState T mode key_56 (i + 1)) T.pc2_table_c KEY_BIT_WIDTH SUBKEY_BIT_WIDTH := by
  induction n with
  | zero =>
    rw [forLoop_zero]
    exact ⟨rfl, rfl, fun i hi => absurd hi (Nat.not_lt_zero i)⟩
  | succ n ih =>
    obtain ⟨h1, h2, h3⟩ := ih (by omega)
    rw [forLoop_succ]
    generalize forLoop (fun i (st : Nat × List Nat) =>
        ((do_key T st.1 i mode).1, st.2.set i (do_key T st.1 i mode).2)) n
        (key_56, List.replicate NB_ROUND 0) = st at h1 h2 h3
    dsimp only
    rw [h1]
    refine ⟨rfl, by rw [List.length_set]; exact h2, ?_⟩
    intro i hi
    rw [getD_set]
    by_cases e : n = i
    · subst e
      have : n = n ∧ n < st.2.length := ⟨rfl, by omega⟩
      rw [if_pos this, do_key_snd]
      rfl
    · have : ¬ (n = i ∧ n < st.2.length) := fun h => e h.1
      rw [if_neg this]
      exact h3 i (by omega)

/-- The `i`-th subkey derived by `do_des` is PC2 of the key state after round `i`. -/
theorem do_des_keys_getD (T : DesTables) (key mode i : Nat) (hi : i < 16) :
    (do_des_keys T key mode).2.getD i 0 =
      do_perm (keyState T mode (do_perm key T.pc1_table_c DATA_BIT_WIDTH PC1_BIT_WIDTH) (i + 1))
        T.pc2_table_c KEY_BIT_WIDTH SUBKEY_BIT_WIDTH :=
  (do_des_keys_loop T _ mode 16 (Nat.le_refl _)).2.2 i hi

theorem des_h_encrypt_rotate_le : ∀ i, i < 16 → des_h.encrypt_rotate_tab.getD i 0 ≤ 28 := by
  decide

theorem des_h_decrypt_rotate_le : ∀ i, i < 16 → des_h.decrypt_rotate_tab.getD i 0 ≤ 28 := by
  decide

set_option maxRecDepth 100000 in
theorem des_h_ip_idx : ∀ j, j < 64 →
    u32 (64 + 4294967296 - des_h.fp_table_c.getD (64 - 1 - j) 0) < 64 ∧
    u32 (64 + 4294967296 - des_h.ip_table_c.getD
      (64 - 1 - u32 (64 + 4294967296 - des_h.fp_table_c.getD (64 - 1 - j) 0)) 0) = j := by
  decide!

set_option maxRecDepth 100000 in
theorem des_h_fp_idx : ∀ j, j < 64 →
    u32 (64 + 4294967296 - des_h.ip_table_c.getD (64 - 1 - j) 0) < 64 ∧
    u32 (64 + 4294967296 - des_h.fp_table_c.getD
      (64 - 1 - u32 (64 + 4294967296 - des_h.ip_table_c.getD (64 - 1 - j) 0)) 0) = j := by
  decide!

theorem des_h_fp_ip (x : Nat) (hx : x < 2 ^ 64) :
    do_perm (do_perm x des_h.ip_table_c 64 64) des_h.fp_table_c 64 64 = x := by
  apply Nat.eq_of_testBit_eq
  intro j
  rw [do_perm_testBit, do_perm_testBit]
  by_cases hj : j < 64
  · obtain ⟨h1, h2⟩ := des_h_ip_idx j hj
    rw [h2]
    simp only [hj, h1, decide_True, Bool.true_and]
  · simp [hj, testBit_of_lt hx (by omega : 64 ≤ j)]

theorem des_h_ip_fp (x : Nat) (hx : x < 2 ^ 64) :
    do_perm (do_perm x des_h.fp_table_c 64 64) des_h.ip_table_c 64 64 = x := by
  apply Nat.eq_of_testBit_eq
  intro j
  rw [do_perm_testBit, do_perm_testBit]
  by_cases hj : j < 64
  · obtain ⟨h1, h2⟩ := des_h_fp_idx j hj
    rw [h2]
    simp only [hj, h1, decide_True, Bool.true_and]
  · simp [hj, testBit_of_lt hx (by omega : 64 ≤ j)]

/-! ## GF(2^8): carry-less product and reduction modulo 0x11B -/

theorem polyMul_loop_xor (a c b n : Nat) :
    forLoop (fun i acc => if b.testBit i then acc ^^^ ((a ^^^ c) <<< i) else acc) n 0 =
      forLoop (fun i acc => if b.testBit i then acc ^^^ (a <<< i) else acc) n 0 ^^^
      forLoop (fun i acc => if b.testBit i then acc ^^^ (c <<< i) else acc) n 0 := by
  induction n with
  | zero => simp [forLoop_zero]
  | succ n ih =>
    rw [forLoop_succ, forLoop_succ, forLoop_succ, ih]
    by_cases h : b.testBit n = true
    · rw [if_pos h, if_pos h, if_pos h, shiftLeft_xor]
      simp only [Nat.xor_assoc, xor_left_comm, Nat.xor_comm]
    · rw [if_neg h, if_neg h, if_neg h]

theorem polyMul_xor (a c b : Nat) : polyMul (a ^^^ c) b = polyMul a b ^^^ polyMul c b :=
  polyMul_loop_xor a c b 16

theorem polyMul_loop_shift (a b j n : Nat) :
    forLoop (fun i acc => if b.testBit i then acc ^^^ ((a <<< j) <<< i) else acc) n 0 =
      (forLoop (fun i acc => if b.testBit i then acc ^^^ (a <<< i) else acc) n 0) <<< j := by
  induction n with
  | zero => simp [forLoop_zero]
  | succ n ih =>
    rw [forLoop_succ, forLoop_succ, ih]
    by_cases h : b.testBit n = true
    · rw [if_pos h, if_pos h, shiftLeft_xor, ← Nat.shiftLeft_add, ← Nat.shiftLeft_add,
        Nat.add_comm]
    · rw [if_neg h, if_neg h]

theorem polyMul_shift (a b j : Nat) : polyMul (a <<< j) b = (polyMul a b) <<< j :=
  polyMul_loop_shift a b j 16

theorem polyMul_zero (b : Nat) : polyMul 0 b = 0 := by
  have := polyMul_xor 0 0 b
  simp only [Nat.xor_self] at this
  exact this

theorem polyMul_one_11B : polyMul 1 0x11B = 0x11B := by decide

theorem polyMul_11B (q : Nat) :
    polyMul q 0x11B = q ^^^ (q <<< 1) ^^^ (q <<< 3) ^^^ (q <<< 4) ^^^ (q <<< 8) := by
  unfold polyMul
  simp [forLoop_succ, forLoop_zero, Nat.testBit]

/-- The leading coefficient of `q * 0x11B + r` is the leading coefficient of `q`. -/
theorem polyMul_11B_top (q r j : Nat) (hq : q < 2 ^ (j + 1)) (hr : r < 256) :
    (polyMul q 0x11B ^^^ r).testBit (j + 8) = q.testBit j := by
  have h1 : q.testBit (j + 8) = false := testBit_of_lt hq (by omega)
  have h2 : q.testBit (j + 7) = false := testBit_of_lt hq (by omega)
  have h3 : q.testBit (j + 5) = false := testBit_of_lt hq (by omega)
  have h4 : q.testBit (j + 4) = false := testBit_of_lt hq (by omega)
  have h5 : r.testBit (j + 8) = false := testBit_of_lt (n := 8) hr (by omega)
  have e1 : j + 8 - 1 = j + 7 := by omega
  have e3 : j + 8 - 3 = j + 5 := by omega
  have e4 : j + 8 - 4 = j + 4 := by omega
  have g1 : j + 8 ≥ 1 := by omega
  have g3 : j + 8 ≥ 3 := by omega
  have g4 : j + 8 ≥ 4 := by omega
  have g8 : j + 8 ≥ 8 := by omega
  rw [polyMul_11B]
  simp only [Nat.testBit_xor, Nat.testBit_shiftLeft, h1, h2, h3, h4, h5, e1, e3, e4, g1, g3,
    g4, g8, Nat.add_sub_cancel, decide_True, Bool.true_and, Bool.false_xor, Bool.xor_false]

theorem clear_top_bit (q j : Nat) (hq : q < 2 ^ (j + 1)) (hb : q.testBit j = true) :
    q ^^^ 2 ^ j < 2 ^ j := by
  apply Nat.lt_pow_two_of_testBit
  intro i hi
  rw [Nat.testBit_xor, Nat.testBit_two_pow]
  by_cases e : j = i
  · subst e
    simp [hb]
  · have : q.testBit i = false := testBit_of_lt hq (by omega)
    simp [this, e]

theorem lt_of_top_bit_false (q j : Nat) (hq : q < 2 ^ (j + 1)) (hb : q.testBit j = false) :
    q < 2 ^ j := by
  apply Nat.lt_pow_two_of_testBit
  intro i hi
  by_cases e : j = i
  · subst e
    exact hb
  · exact testBit_of_lt hq (by omega)

/-- Long division by 0x11B: after `n` steps the quotient left to cancel has degree below
`8 - n`. -/
theorem polyMod11B_loop (r : Nat) (hr : r < 256) (n : Nat) (hn : n ≤ 8) (q : Nat)
    (hq : q < 2 ^ 8) :
    ∃ q2, q2 < 2 ^ (8 - n) ∧
      forLoop (fun k p => if p.testBit (15 - k) then p ^^^ (0x11B <<< (7 - k)) else p) n
        (polyMul q 0x11B ^^^ r) = polyMul q2 0x11B ^^^ r := by
  induction n with
  | zero => exact ⟨q, hq, rfl⟩
  | succ n ih =>
    obtain ⟨q2, hq2, e⟩ := ih (by omega)
    rw [forLoop_succ, e]
    have e1 : 15 - n = (7 - n) + 8 := by omega
    have e2 : 8 - n = (7 - n) + 1 := by omega
    have e3 : 8 - (n + 1) = 7 - n := by omega
    rw [e2] at hq2
    rw [e1, polyMul_11B_top q2 r (7 - n) hq2 hr, e3]
    by_cases hb : q2.testBit (7 - n) = true
    · refine ⟨q2 ^^^ 2 ^ (7 - n), clear_top_bit q2 _ hq2 hb, ?_⟩
      rw [if_pos hb, polyMul_xor, ← Nat.one_shiftLeft, polyMul_shift, polyMul_one_11B]
      simp only [Nat.xor_assoc, xor_left_comm, Nat.xor_comm]
    · refine ⟨q2, lt_of_top_bit_false q2 _ hq2 (by simpa using hb), ?_⟩
      rw [if_neg hb]

/-- Long division recovers the remainder: `(q * 0x11B + r) mod 0x11B = r` for `r` of
degree below 8. -/
theorem polyMod11B_unique (q r : Nat) (hq : q < 2 ^ 8) (hr : r < 256) :
    polyMod11B (polyMul q 0x11B ^^^ r) = r := by
  obtain ⟨q2, hq2, e⟩ := polyMod11B_loop r hr 8 (Nat.le_refl _) q hq
  unfold polyMod11B
  rw [e]
  have : q2 = 0 := by simpa using hq2
  rw [this, polyMul_zero, Nat.zero_xor]

set_option maxRecDepth 100000 in
theorem Mult2GF_poly : ∀ y, y < 256 →
    Mult2GF y = (y <<< 1) ^^^ (if y.testBit 7 then 0x11B else 0) := by
  decide!

theorem Mult2GF_iterate_lt (a : Nat) (ha : a < 256) (i : Nat) : Mult2GF^[i] a < 256 := by
  cases i with
  | zero => exact ha
  | succ i =>
    rw [Function.iterate_succ_apply']
    exact Mult2GF_lt _

/-- Doubling `i` times with reduction differs from the plain shift by a multiple of the
modulus. -/
theorem Mult2GF_iterate_quot (a : Nat) (ha : a < 256) (i : Nat) :
    ∃ q, q < 2 ^ i ∧ polyMul q 0x11B ^^^ Mult2GF^[i] a = a <<< i := by
  induction i with
  | zero =>
    refine ⟨0, by decide, ?_⟩
    rw [polyMul_zero]
    simp
  | succ i ih =>
    obtain ⟨q, hq, e⟩ := ih
    have hs : q <<< 1 < 2 ^ (i + 1) := by
      rw [Nat.shiftLeft_eq, Nat.pow_succ]
      omega
    have e2 : a <<< (i + 1) = (polyMul q 0x11B ^^^ Mult2GF^[i] a) <<< 1 := by
      rw [e, ← Nat.shiftLeft_add]
    rw [Function.iterate_succ_apply', Mult2GF_poly _ (Mult2GF_iterate_lt a ha i), e2,
      shiftLeft_xor, ← polyMul_shift]
    by_cases hb : (Mult2GF^[i] a).testBit 7 = true
    · refine ⟨(q <<< 1) ^^^ 1, Nat.xor_lt_two_pow hs (Nat.one_lt_two_pow (by omega)), ?_⟩
      rw [if_pos hb, polyMul_xor, polyMul_one_11B]
      simp only [Nat.xor_assoc, xor_left_comm, Nat.xor_comm, Nat.xor_cancel_left]
    · refine ⟨q <<< 1, hs, ?_⟩
      rw [if_neg hb, Nat.xor_zero]

/-- The partial sums of `MultGF` and of the carry-less product differ by a multiple of the
modulus. -/
theorem MultGF_loop_quot (a b : Nat) (ha : a < 256) (n : Nat) (hn : n ≤ 8) :
    ∃ q, q < 2 ^ 8 ∧
      polyMul q 0x11B ^^^
        forLoop (fun i r => if b.testBit i then r ^^^ Mult2GF^[i] a else r) n 0 =
      forLoop (fun i acc => if b.testBit i then acc ^^^ (a <<< i) else acc) n 0 := by
  induction n with
  | zero =>
    refine ⟨0, by decide, ?_⟩
    rw [polyMul_zero, forLoop_zero, forLoop_zero]
    rfl
  | succ n ih =>
    obtain ⟨q, hq, e⟩ := ih (by omega)
    rw [forLoop_succ, forLoop_succ]
    by_cases hb : b.testBit n = true
    · obtain ⟨q2, hq2, e2⟩ := Mult2GF_iterate_quot a ha n
      have hq3 : q2 < 2 ^ 8 :=
        Nat.lt_of_lt_of_le hq2 (Nat.pow_le_pow_right (by decide) (by omega))
      refine ⟨q ^^^ q2, Nat.xor_lt_two_pow hq hq3, ?_⟩
      rw [if_pos hb, if_pos hb, ← e, ← e2, polyMul_xor]
      simp only [Nat.xor_assoc, xor_left_comm, Nat.xor_comm]
    · exact ⟨q, hq, by rw [if_neg hb, if_neg hb, e]⟩

theorem MultGF_loop_lt (a b : Nat) (ha : a < 256) (n : Nat) :
    forLoop (fun i r => if b.testBit i then r ^^^ Mult2GF^[i] a else r) n 0 < 256 := by
  induction n with
  | zero => rw [forLoop_zero]; decide
  | succ n ih =>
    rw [forLoop_succ]
    by_cases hb : b.testBit n = true
    · rw [if_pos hb]
      exact xor_byte ih (Mult2GF_iterate_lt a ha n)
    · rw [if_neg hb]
      exact ih

theorem MultGF_lt (a b : Nat) (ha : a < 256) : MultGF a b < 256 := by
  rw [MultGF_eq]
  exact MultGF_loop_lt a b ha 8

theorem polyMul_byte (a b : Nat) (hb : b < 256) :
    polyMul a b = forLoop (fun i acc => if b.testBit i then acc ^^^ (a <<< i) else acc) 8 0 := by
  have h : ∀ k, 8 ≤ k → b.testBit k = false := fun k hk => testBit_of_lt (n := 8) hb hk
  unfold polyMul
  rw [forLoop_succ, forLoop_succ, forLoop_succ, forLoop_succ, forLoop_succ, forLoop_succ,
    forLoop_succ, forLoop_succ]
  simp only [h 8 (by decide), h 9 (by decide), h 10 (by decide), h 11 (by decide),
    h 12 (by decide), h 13 (by decide), h 14 (by decide), h 15 (by decide)]
  rfl

/-! ## The AES key schedule: the words it computes -/

/-- Entries of a buffer after column `i` has been written. -/
theorem setcol_get2 (w : List Nat) (hl : w.length = 176) (i v0 v1 v2 v3 : Nat) (hi : i < 44)
    (j c : Nat) (hj : j < 4) (hc : c < 44) :
    get2 44 (set2 44 (set2 44 (set2 44 (set2 44 w 0 i v0) 1 i v1) 2 i v2) 3 i v3) j c =
      if c = i then [v0, v1, v2, v3].getD j 0 else get2 44 w j c := by
  simp only [get2_set2, length_set2, hl]
  by_cases e : c = i
  · subst e
    have : j = 0 ∨ j = 1 ∨ j = 2 ∨ j = 3 := by omega
    rw [if_pos rfl]
    rcases this with rfl | rfl | rfl | rfl <;> split_ifs <;> first | rfl | omega
  · have f : ∀ (r : Nat) (P : Prop), ¬ (r * 44 + i = j * 44 + c ∧ P) := by
      intro r P hh
      have := hh.1
      omega
    simp only [f, if_false, e]

theorem setcol_agree_self (w : List Nat) (hl : w.length = 176) (n v0 v1 v2 v3 : Nat)
    (hn : n < 44) (i : Nat) (hi : i ≤ n) :
    SchedAgree i (set2 44 (set2 44 (set2 44 (set2 44 w 0 n v0) 1 n v1) 2 n v2) 3 n v3) w := by
  refine ⟨by simp [length_set2, hl], hl, ?_⟩
  intro j c hj hc
  rw [setcol_get2 w hl n v0 v1 v2 v3 hn j c hj (by omega)]
  have : ¬ c = n := by omega
  rw [if_neg this]

theorem setcol_spec (T : AesTables) (key w : List Nat) (n v0 v1 v2 v3 : Nat) (hn : n < 44)
    (hS : SchedSpec T key n w)
    (hv : ∀ j, j < 4 → [v0, v1, v2, v3].getD j 0 =
      if n < 4 then key.getD (4 * n + j) 0 else KeyExpansion_val T n w j) :
    SchedSpec T key (n + 1)
      (set2 44 (set2 44 (set2 44 (set2 44 w 0 n v0) 1 n v1) 2 n v2) 3 n v3) := by
  obtain ⟨hl, h⟩ := hS
  refine ⟨by simp [length_set2, hl], ?_⟩
  intro j i hj hi
  rw [setcol_get2 w hl n v0 v1 v2 v3 hn j i hj (by omega)]
  by_cases h4 : i < 4
  · rw [if_pos h4]
    by_cases e : i = n
    · subst e
      rw [if_pos rfl, hv j hj, if_pos h4]
    · rw [if_neg e, h j i hj (by omega), if_pos h4]
  · rw [if_neg h4,
      KeyExpansion_val_agree T i _ w (by omega)
        (setcol_agree_self w hl n v0 v1 v2 v3 hn i (by omega)) j hj]
    by_cases e : i = n
    · subst e
      rw [if_pos rfl, hv j hj, if_neg h4]
    · rw [if_neg e, h j i hj (by omega), if_neg h4]

theorem copy_loop_spec (T : AesTables) (key w : List Nat) (hw : w.length = 176)
    (n : Nat) (hn : n ≤ 4) :
    SchedSpec T key n (forLoop (fun i w => KeyExpansion_copy key i w) n w) := by
  induction n with
  | zero => exact ⟨hw, fun j i _ hi => absurd hi (Nat.not_lt_zero i)⟩
  | succ n ih =>
    rw [forLoop_succ]
    simp only [KeyExpansion_copy_eq]
    apply setcol_spec T key _ n _ _ _ _ (by omega) (ih (by omega))
    intro j hj
    have h4 : n < 4 := by omega
    rw [if_pos h4]
    have : j = 0 ∨ j = 1 ∨ j = 2 ∨ j = 3 := by omega
    rcases this with rfl | rfl | rfl | rfl <;> rfl

theorem word_loop_spec (T : AesTables) (key w : List Nat) (hS : SchedSpec T key 4 w)
    (n : Nat) (hn : 4 + n ≤ 44) :
    SchedSpec T key (4 + n) (forLoop (fun k w => KeyExpansion_word T (Nk + k) w) n w) := by
  induction n with
  | zero => exact hS
  | succ n ih =>
    rw [forLoop_succ]
    have e : Nk + n = 4 + n := rfl
    have ih2 := ih (by omega)
    simp only [e]
    rw [KeyExpansion_word_eq T (4 + n) _ (by omega) (by omega)]
    apply setcol_spec T key _ (4 + n) _ _ _ _ (by omega) ih2
    intro j hj
    have h4 : ¬ 4 + n < 4 := by omega
    rw [if_neg h4]
    have : j = 0 ∨ j = 1 ∨ j = 2 ∨ j = 3 := by omega
    rcases this with rfl | rfl | rfl | rfl <;> rfl

theorem KeyExpansion_spec (T : AesTables) (key w : List Nat) (hw : w.length = 176) :
    SchedSpec T key 44 (KeyExpansion T key w) :=
  word_loop_spec T key _ (copy_loop_spec T key w hw 4 (Nat.le_refl _)) 40 (by omega)

/-- The word written for an index that is not a multiple of `Nk`. -/
theorem KeyExpansion_val_plain (T : AesTables) (i : Nat) (w : List Nat) (hm : i % 4 ≠ 0)
    (j : Nat) (hj : j < 4) :
    KeyExpansion_val T i w j = get2 44 w j (i - 4) ^^^ get2 44 w j (i - 1) := by
  unfold KeyExpansion_val
  have h0 : ¬ i % Nk = 0 := hm
  have hN : ¬ (Nk > 6 ∧ i % Nk = 4) := by unfold Nk; omega
  simp only [h0, hN, if_false]
  have : j = 0 ∨ j = 1 ∨ j = 2 ∨ j = 3 := by omega
  rcases this with rfl | rfl | rfl | rfl <;> rfl

/-- The word written for an index that is a multiple of `Nk`. -/
theorem KeyExpansion_val_rot (T : AesTables) (i : Nat) (w : List Nat) (hm : i % 4 = 0) :
    KeyExpansion_val T i w 0 =
      get2 44 w 0 (i - 4) ^^^ (T.Sbox.getD (get2 44 w 1 (i - 1)) 0 ^^^ T.Rcon.getD (i / 4) 0) ∧
    KeyExpansion_val T i w 1 = get2 44 w 1 (i - 4) ^^^ T.Sbox.getD (get2 44 w 2 (i - 1)) 0 ∧
    KeyExpansion_val T i w 2 = get2 44 w 2 (i - 4) ^^^ T.Sbox.getD (get2 44 w 3 (i - 1)) 0 ∧
    KeyExpansion_val T i w 3 = get2 44 w 3 (i - 4) ^^^ T.Sbox.getD (get2 44 w 0 (i - 1)) 0 := by
  unfold KeyExpansion_val
  have h0 : i % Nk = 0 := hm
  simp only [h0, if_true, RotWord, SubWord, List.set_cons_zero, List.set_cons_succ,
    List.getD_cons_zero, List.getD_cons_succ]
  exact ⟨rfl, rfl, rfl, rfl⟩

/-! ## MixColumns as a matrix product, and the two-sided inverses -/

set_option maxRecDepth 100000 in
theorem MultGF_two : ∀ x, x < 256 → MultGF 2 x = Mult2GF x := by
  decide!

set_option maxRecDepth 100000 in
theorem MultGF_three : ∀ x, x < 256 → MultGF 3 x = Mult3GF x := by
  decide!

set_option maxRecDepth 100000 in
theorem MultGF_one_left : ∀ x, x < 256 → MultGF 1 x = x := by
  decide!

theorem MixColumns_entry (s : List Nat) (hs : ByteList 16 s) (r c : Nat) (hr : r < 4)
    (hc : c < 4) :
    get2 Nb (MixColumns s) r c =
      MultGF (mixCoef r 0) (get2 Nb s 0 c) ^^^ MultGF (mixCoef r 1) (get2 Nb s 1 c) ^^^
        MultGF (mixCoef r 2) (get2 Nb s 2 c) ^^^ MultGF (mixCoef r 3) (get2 Nb s 3 c) := by
  obtain ⟨a0, a1, a2, a3, a4, a5, a6, a7, a8, a9, a10, a11, a12, a13, a14, a15, rfl⟩ :=
    list_length_16 s hs.1
  obtain ⟨h0, h1, h2, h3, h4, h5, h6, h7, h8, h9, h10, h11, h12, h13, h14, h15⟩ :=
    bytes16_elim hs
  rw [MixColumns_explicit]
  interval_cases r <;> interval_cases c <;>
    simp only [get2, Nb, mixCoef, List.getD_cons_succ, List.getD_cons_zero, Nat.reduceMul,
      Nat.reduceAdd, Nat.reduceSub, Nat.reduceMod, Nat.zero_add, Nat.add_zero,
      MultGF_two _ h0, MultGF_two _ h1, MultGF_two _ h2, MultGF_two _ h3,
      MultGF_two _ h4, MultGF_two _ h5, MultGF_two _ h6, MultGF_two _ h7,
      MultGF_two _ h8, MultGF_two _ h9, MultGF_two _ h10, MultGF_two _ h11,
      MultGF_two _ h12, MultGF_two _ h13, MultGF_two _ h14, MultGF_two _ h15,
      MultGF_three _ h0, MultGF_three _ h1, MultGF_three _ h2, MultGF_three _ h3,
      MultGF_three _ h4, MultGF_three _ h5, MultGF_three _ h6, MultGF_three _ h7,
      MultGF_three _ h8, MultGF_three _ h9, MultGF_three _ h10, MultGF_three _ h11,
      MultGF_three _ h12, MultGF_three _ h13, MultGF_three _ h14, MultGF_three _ h15,
      MultGF_one_left _ h0, MultGF_one_left _ h1, MultGF_one_left _ h2, MultGF_one_left _ h3,
      MultGF_one_left _ h4, MultGF_one_left _ h5, MultGF_one_left _ h6, MultGF_one_left _ h7,
      MultGF_one_left _ h8, MultGF_one_left _ h9, MultGF_one_left _ h10,
      MultGF_one_left _ h11, MultGF_one_left _ h12, MultGF_one_left _ h13,
      MultGF_one_left _ h14, MultGF_one_left _ h15]

/-- Row 0 of the product of the `MixColumns` and `InvMixColumns` matrices on one column. -/
theorem mix_inv_row0 (b0 b1 b2 b3 : Nat) :
    Mult2GF (MultGF b0 0xE ^^^ MultGF b1 0xB ^^^ MultGF b2 0xD ^^^ MultGF b3 0x9) ^^^
      Mult3GF (MultGF b0 0x9 ^^^ MultGF b1 0xE ^^^ MultGF b2 0xB ^^^ MultGF b3 0xD) ^^^
      (MultGF b0 0xD ^^^ MultGF b1 0x9 ^^^ MultGF b2 0xE ^^^ MultGF b3 0xB) ^^^
      (MultGF b0 0xB ^^^ MultGF b1 0xD ^^^ MultGF b2 0x9 ^^^ MultGF b3 0xE) = b0 := by
  simp only [MultGF_0E, MultGF_0B, MultGF_0D, MultGF_09, Mult3GF]
  have ht := Mult2GF_xor
  generalize Mult2GF = t at ht ⊢
  simp only [ht, Nat.xor_assoc]
  generalize t (t (t (t b0))) = x04
  generalize t (t (t b0)) = x03
  generalize t (t b0) = x02
  generalize t b0 = x01
  generalize t (t (t (t b1))) = x14
  generalize t (t (t b1)) = x13
  generalize t (t b1) = x12
  generalize t b1 = x11
  generalize t (t (t (t b2))) = x24
  generalize t (t (t b2)) = x23
  generalize t (t b2) = x22
  generalize t b2 = x21
  generalize t (t (t (t b3))) = x34
  generalize t (t (t b3)) = x33
  generalize t (t b3) = x32
  generalize t b3 = x31
  simp only [Nat.xor_comm, xor_left_comm, Nat.xor_cancel_left, Nat.xor_self, Nat.xor_zero]

theorem mix_inv_row1 (b0 b1 b2 b3 : Nat) :
    (MultGF b0 0xE ^^^ MultGF b1 0xB ^^^ MultGF b2 0xD ^^^ MultGF b3 0x9) ^^^
      Mult2GF (MultGF b0 0x9 ^^^ MultGF b1 0xE ^^^ MultGF b2 0xB ^^^ MultGF b3 0xD) ^^^
      Mult3GF (MultGF b0 0xD ^^^ MultGF b1 0x9 ^^^ MultGF b2 0xE ^^^ MultGF b3 0xB) ^^^
      (MultGF b0 0xB ^^^ MultGF b1 0xD ^^^ MultGF b2 0x9 ^^^ MultGF b3 0xE) = b1 := by
  simp only [MultGF_0E, MultGF_0B, MultGF_0D, MultGF_09, Mult3GF]
  have ht := Mult2GF_xor
  generalize Mult2GF = t at ht ⊢
  simp only [ht, Nat.xor_assoc]
  generalize t (t (t (t b0))) = x04
  generalize t (t (t b0)) = x03
  generalize t (t b0) = x02
  generalize t b0 = x01
  generalize t (t (t (t b1))) = x14
  generalize t (t (t b1)) = x13
  generalize t (t b1) = x12
  generalize t b1 = x11
  generalize t (t (t (t b2))) = x24
  generalize t (t (t b2)) = x23
  generalize t (t b2) = x22
  generalize t b2 = x21
  generalize t (t (t (t b3))) = x34
  generalize t (t (t b3)) = x33
  generalize t (t b3) = x32
  generalize t b3 = x31
  simp only [Nat.xor_comm, xor_left_comm, Nat.xor_cancel_left, Nat.xor_self, Nat.xor_zero]

theorem mix_inv_row2 (b0 b1 b2 b3 : Nat) :
    (MultGF b0 0xE ^^^ MultGF b1 0xB ^^^ MultGF b2 0xD ^^^ MultGF b3 0x9) ^^^
      (MultGF b0 0x9 ^^^ MultGF b1 0xE ^^^ MultGF b2 0xB ^^^ MultGF b3 0xD) ^^^
      Mult2GF (MultGF b0 0xD ^^^ MultGF b1 0x9 ^^^ MultGF b2 0xE ^^^ MultGF b3 0xB) ^^^
      Mult3GF (MultGF b0 0xB ^^^ MultGF b1 0xD ^^^ MultGF b2 0x9 ^^^ MultGF b3 0xE) = b2 := by
  simp only [MultGF_0E, MultGF_0B, MultGF_0D, MultGF_09, Mult3GF]
  have ht := Mult2GF_xor
  generalize Mult2GF = t at ht ⊢
  simp only [ht, Nat.xor_assoc]
  generalize t (t (t (t b0))) = x04
  generalize t (t (t b0)) = x03
  generalize t (t b0) = x02
  generalize t b0 = x01
  generalize t (t (t (t b1))) = x14
  generalize t (t (t b1)) = x13
  generalize t (t b1) = x12
  generalize t b1 = x11
  generalize t (t (t (t b2))) = x24
  generalize t (t (t b2)) = x23
  generalize t (t b2) = x22
  generalize t b2 = x21
  generalize t (t (t (t b3))) = x34
  generalize t (t (t b3)) = x33
  generalize t (t b3) = x32
  generalize t b3 = x31
  simp only [Nat.xor_comm, xor_left_comm, Nat.xor_cancel_left, Nat.xor_self, Nat.xor_zero]

theorem mix_inv_row3 (b0 b1 b2 b3 : Nat) :
    Mult3GF (MultGF b0 0xE ^^^ MultGF b1 0xB ^^^ MultGF b2 0xD ^^^ MultGF b3 0x9) ^^^
      (MultGF b0 0x9 ^^^ MultGF b1 0xE ^^^ MultGF b2 0xB ^^^ MultGF b3 0xD) ^^^
      (MultGF b0 0xD ^^^ MultGF b1 0x9 ^^^ MultGF b2 0xE ^^^ MultGF b3 0xB) ^^^
      Mult2GF (MultGF b0 0xB ^^^ MultGF b1 0xD ^^^ MultGF b2 0x9 ^^^ MultGF b3 0xE) = b3 := by
  simp only [MultGF_0E, MultGF_0B, MultGF_0D, MultGF_09, Mult3GF]
  have ht := Mult2GF_xor
  generalize Mult2GF = t at ht ⊢
  simp only [ht, Nat.xor_assoc]
  generalize t (t (t (t b0))) = x04
  generalize t (t (t b0)) = x03
  generalize t (t b0) = x02
  generalize t b0 = x01
  generalize t (t (t (t b1))) = x14
  generalize t (t (t b1)) = x13
  generalize t (t b1) = x12
  generalize t b1 = x11
  generalize t (t (t (t b2))) = x24
  generalize t (t (t b2)) = x23
  generalize t (t b2) = x22
  generalize t b2 = x21
  generalize t (t (t (t b3))) = x34
  generalize t (t (t b3)) = x33
  generalize t (t b3) = x32
  generalize t b3 = x31
  simp only [Nat.xor_comm, xor_left_comm, Nat.xor_cancel_left, Nat.xor_self, Nat.xor_zero]

theorem MixColumns_InvMixColumns (s : List Nat) (h : s.length = 16) :
    MixColumns (InvMixColumns s) = s := by
  obtain ⟨a0, a1, a2, a3, a4, a5, a6, a7, a8, a9, a10, a11, a12, a13, a14, a15, rfl⟩ :=
    list_length_16 s h
  rw [InvMixColumns_explicit, MixColumns_explicit]
  simp only [mix_inv_row0, mix_inv_row1, mix_inv_row2, mix_inv_row3]

/-! ## ShiftRows and InvShiftRows as row rotations -/

theorem ShiftRows_entry (s : List Nat) (hs : s.length = 16) (r c : Nat) (hr : r < 4)
    (hc : c < 4) : get2 Nb (ShiftRows s) r c = get2 Nb s r ((c + r) % 4) := by
  obtain ⟨a0, a1, a2, a3, a4, a5, a6, a7, a8, a9, a10, a11, a12, a13, a14, a15, rfl⟩ :=
    list_length_16 s hs
  rw [ShiftRows_explicit]
  interval_cases r <;> interval_cases c <;> rfl

theorem InvShiftRows_entry (s : List Nat) (hs : s.length = 16) (r c : Nat) (hr : r < 4)
    (hc : c < 4) : get2 Nb (InvShiftRows s) r c = get2 Nb s r ((c + 4 - r) % 4) := by
  obtain ⟨a0, a1, a2, a3, a4, a5, a6, a7, a8, a9, a10, a11, a12, a13, a14, a15, rfl⟩ :=
    list_length_16 s hs
  rw [InvShiftRows_explicit]
  interval_cases r <;> interval_cases c <;> rfl

theorem ShiftRows_InvShiftRows (s : List Nat) (h : s.length = 16) :
    ShiftRows (InvShiftRows s) = s := by
  obtain ⟨a0, a1, a2, a3, a4, a5, a6, a7, a8, a9, a10, a11, a12, a13, a14, a15, rfl⟩ :=
    list_length_16 s h
  rw [InvShiftRows_explicit, ShiftRows_explicit]

/-! ## The column-major block layout -/

theorem loadState_entry (p : List Nat) (hp : p.length = 16) (i : Nat) (hi : i < 16) :
    get2 Nb (loadState p) (i % 4) (i / 4) = p.getD i 0 := by
  obtain ⟨a0, a1, a2, a3, a4, a5, a6, a7, a8, a9, a10, a11, a12, a13, a14, a15, rfl⟩ :=
    list_length_16 p hp
  rw [loadState_explicit]
  interval_cases i <;> rfl

theorem storeState_entry (s o : List Nat) (hs : s.length = 16) (ho : o.length = 16) (i : Nat)
    (hi : i < 16) : (storeState s o).getD i 0 = get2 Nb s (i % 4) (i / 4) := by
  obtain ⟨a0, a1, a2, a3, a4, a5, a6, a7, a8, a9, a10, a11, a12, a13, a14, a15, rfl⟩ :=
    list_length_16 s hs
  obtain ⟨b0, b1, b2, b3, b4, b5, b6, b7, b8, b9, b10, b11, b12, b13, b14, b15, rfl⟩ :=
    list_length_16 o ho
  rw [storeState_explicit]
  interval_cases i <;> rfl

/-! ## DES: the data path under reversed subkeys -/

theorem getD_reverse_16 (sk : List Nat) (hsk : sk.length = 16) (i : Nat) (hi : i < 16) :
    sk.reverse.getD i 0 = sk.getD (15 - i) 0 := by
  have h1 : i < sk.reverse.length := by rw [List.length_reverse]; omega
  have h2 : 15 - i < sk.length := by omega
  rw [List.getD_eq_getElem _ _ h1, List.getD_eq_getElem _ _ h2, List.getElem_reverse]
  congr 1
  omega

/-! ## DES: rotation of the key halves and the round, in arithmetic terms -/

theorem shl_or_eq_mul_add (a b i : Nat) (hb : b < 2 ^ i) : (a <<< i) ||| b = a * 2 ^ i + b := by
  rw [Nat.shiftLeft_eq, Nat.mul_comm a, Nat.mul_add_lt_is_or hb]

theorem testBit_div_pow (x k m : Nat) : (x / 2 ^ k).testBit m = x.testBit (k + m) := by
  rw [← Nat.shiftRight_eq_div_pow, Nat.testBit_shiftRight]

theorem rotate_left_28_eq (x s : Nat) (hx : x < 2 ^ 28) (hs : s ≤ 28) :
    rotate_left_28 x s = ((x % 2 ^ (28 - s)) <<< s) ||| (x / 2 ^ (28 - s)) := by
  have e : (2 : Nat) ^ 28 = 2 ^ (28 - s) * 2 ^ s := by
    rw [← Nat.pow_add]
    congr 1
    omega
  have hlt : x / 2 ^ (28 - s) < 2 ^ s := by
    rw [Nat.div_lt_iff_lt_mul (Nat.pow_pos (by decide))]
    rw [Nat.mul_comm, ← e]
    exact hx
  unfold rotate_left_28
  rw [shl_or_eq_mul_add _ _ _ hlt]
  congr 1
  rw [e, Nat.mul_mod_mul_right]

theorem rotate_left_28_testBit (x s j : Nat) (hx : x < 2 ^ 28) (hs : s ≤ 28) :
    (rotate_left_28 x s).testBit j = (decide (j < 28) && x.testBit ((j + (28 - s)) % 28)) := by
  rw [rotate_left_28_eq x s hx hs, Nat.testBit_or, Nat.testBit_shiftLeft,
    Nat.testBit_mod_two_pow, testBit_div_pow]
  by_cases hj : j < 28
  · by_cases h : j ≥ s
    · have h1 : x.testBit (28 - s + j) = false := testBit_of_lt hx (by omega)
      have h2 : (j + (28 - s)) % 28 = j - s := by omega
      have h3 : j - s < 28 - s := by omega
      simp [hj, h, h1, h2, h3]
    · have h2 : (j + (28 - s)) % 28 = 28 - s + j := by omega
      simp [hj, h, h2]
  · have h1 : x.testBit (28 - s + j) = false := testBit_of_lt hx (by omega)
    have h3 : ¬ j - s < 28 - s := by omega
    simp [hj, h1, h3]

theorem rotate_left_28_lt (x s : Nat) (hx : x < 2 ^ 28) (hs : s ≤ 28) :
    rotate_left_28 x s < 2 ^ 28 := by
  apply Nat.lt_pow_two_of_testBit
  intro j hj
  rw [rotate_left_28_testBit x s j hx hs]
  have : ¬ j < 28 := by omega
  simp [this]

/-- The new key state of `do_key` in encrypt mode, in arithmetic terms. -/
theorem do_key_cipher_rotate (T : DesTables) (key round : Nat) (hk : key < 2 ^ 56)
    (hr : T.encrypt_rotate_tab.getD round 0 ≤ 28) :
    (do_key T key round MODE_CIPHER).1 =
      rotate_left_28 (key / 2 ^ 28) (T.encrypt_rotate_tab.getD round 0) * 2 ^ 28 +
        rotate_left_28 (key % 2 ^ 28) (T.encrypt_rotate_tab.getD round 0) := by
  have hhi : key / 2 ^ 28 < 2 ^ 28 := by
    rw [Nat.div_lt_iff_lt_mul (Nat.pow_pos (by decide))]
    exact hk
  have hlo : key % 2 ^ 28 < 2 ^ 28 := Nat.mod_lt _ (Nat.pow_pos (by decide))
  rw [← shl_or_eq_mul_add _ _ _ (rotate_left_28_lt _ _ hlo hr)]
  apply Nat.eq_of_testBit_eq
  intro j
  rw [do_key_cipher_testBit T key round j hk hr]
  show _ = ((_ <<< KEY_BIT_WIDTH_2) ||| _).testBit j
  rw [key_join_testBit _ _ j (rotate_left_28_lt _ _ hlo hr)]
  unfold rotIdx
  generalize T.encrypt_rotate_tab.getD round 0 = r at hr ⊢
  by_cases hj : j < 28
  · have h56 : j < 56 := by omega
    rw [if_pos hj, if_pos hj, rotate_left_28_testBit _ _ _ hlo hr, Nat.testBit_mod_two_pow]
    have : (j + (28 - r)) % 28 < 28 := Nat.mod_lt _ (by decide)
    simp [hj, h56, this]
  · rw [if_neg hj, if_neg hj, rotate_left_28_testBit _ _ _ hhi hr, testBit_div_pow]
    by_cases h56 : j < 56
    · have : j - 28 < 28 := by omega
      simp [h56, this]
    · have : ¬ j - 28 < 28 := by omega
      simp [h56, this]

theorem u32_and_mask32 (d : Nat) : u32 (d &&& DATA_BIT_WIDTH_2_MASK) = d % 2 ^ 32 := by
  have h : DATA_BIT_WIDTH_2_MASK = 2 ^ 32 - 1 := by decide
  rw [h, Nat.and_pow_two_sub_one_eq_mod]
  exact u32_of_lt (Nat.mod_lt _ (Nat.pow_pos (by decide)))

theorem u32_shr_32 (d : Nat) (hd : d < 2 ^ 64) : u32 (d >>> DATA_BIT_WIDTH_2) = d / 2 ^ 32 := by
  have h : d >>> DATA_BIT_WIDTH_2 = d / 2 ^ 32 := Nat.shiftRight_eq_div_pow d 32
  rw [h]
  apply u32_of_lt
  rw [Nat.div_lt_iff_lt_mul (Nat.pow_pos (by decide))]
  exact hd

/-- The result of `do_round` in terms of the two halves of `data`. -/
theorem do_round_halves (T : DesTables) (data k : Nat) (hd : data < 2 ^ 64) :
    do_round T data k =
      (data % 2 ^ 32) * 2 ^ 32 + (do_feistel T (data % 2 ^ 32) k ^^^ (data / 2 ^ 32)) ∧
    do_feistel T (data % 2 ^ 32) k ^^^ (data / 2 ^ 32) < 2 ^ 32 := by
  have hL : data / 2 ^ 32 < 2 ^ 32 := by
    rw [Nat.div_lt_iff_lt_mul (Nat.pow_pos (by decide))]
    exact hd
  have hX := @Nat.xor_lt_two_pow _ _ 32 (do_feistel_lt T (data % 2 ^ 32) k) hL
  refine ⟨?_, hX⟩
  have e1 : do_round T data k =
      (u32 (data &&& DATA_BIT_WIDTH_2_MASK) <<< DATA_BIT_WIDTH_2) |||
        (do_feistel T (u32 (data &&& DATA_BIT_WIDTH_2_MASK)) k ^^^
          u32 (data >>> DATA_BIT_WIDTH_2)) := rfl
  rw [e1, u32_and_mask32, u32_shr_32 data hd]
  exact shl_or_eq_mul_add _ _ 32 hX

/-! ## DES: S-box addressing in the Feistel function -/

set_option maxRecDepth 100000 in
theorem reorder_6bit : ∀ g, g < 64 →
    u8 ((u8 g &&& 0x20) ||| ((u8 g &&& 0x1) <<< 4) ||| ((u8 g &&& 0x1E) >>> 1)) =
      32 * (g / 32 % 2) + 16 * (g % 2) + 8 * (g / 16 % 2) + 4 * (g / 8 % 2) +
        2 * (g / 4 % 2) + g / 2 % 2 := by
  decide!

theorem sbox_ind_eq (x m : Nat) :
    sbox_ind x m =
      32 * (x / 2 ^ (6 * m + 5) % 2) + 16 * (x / 2 ^ (6 * m) % 2) +
        8 * (x / 2 ^ (6 * m + 4) % 2) + 4 * (x / 2 ^ (6 * m + 3) % 2) +
        2 * (x / 2 ^ (6 * m + 2) % 2) + x / 2 ^ (6 * m + 1) % 2 := by
  have hm : SBOX_IN_BIT_WIDTH_MASK = 2 ^ 6 - 1 := by decide
  have e : (x >>> (m * SBOX_IN_BIT_WIDTH)) &&& SBOX_IN_BIT_WIDTH_MASK = x / 2 ^ (6 * m) % 64 := by
    rw [hm, Nat.and_pow_two_sub_one_eq_mod, Nat.shiftRight_eq_div_pow]
    have : m * SBOX_IN_BIT_WIDTH = 6 * m := by unfold SBOX_IN_BIT_WIDTH; omega
    rw [this]
  unfold sbox_ind
  dsimp only
  rw [e, reorder_6bit _ (Nat.mod_lt _ (by decide))]
  simp only [Nat.pow_add, ← Nat.div_div_eq_div_mul]
  generalize x / 2 ^ (6 * m) = y
  norm_num
  have h5 : y % 64 / 32 % 2 = y / 32 % 2 := by omega
  have h4 : y % 64 / 16 % 2 = y / 16 % 2 := by omega
  have h3 : y % 64 / 8 % 2 = y / 8 % 2 := by omega
  have h2 : y % 64 / 4 % 2 = y / 4 % 2 := by omega
  have h1 : y % 64 / 2 % 2 = y / 2 % 2 := by omega
  rw [h5, h4, h3, h2, h1]

theorem sbox_ind_address (x n : Nat) (h1 : 1 ≤ n) (h8 : n ≤ 8) :
    sbox_ind x (8 - n) = sbox_address x n := by
  rw [sbox_ind_eq]
  unfold sbox_address group_bit
  have e : 6 * (8 - n) = 48 - 6 * n := by omega
  rw [e]
  have e0 : 48 - 6 * n + 0 = 48 - 6 * n := rfl
  rw [← e0]

theorem sbox_address_lt (x n : Nat) : sbox_address x n < 64 := by
  unfold sbox_address group_bit
  omega

theorem or_shl_eq_add (acc v i : Nat) (h : acc < 2 ^ i) : acc ||| (v <<< i) = v * 2 ^ i + acc := by
  rw [Nat.lor_comm, shl_or_eq_mul_add v acc i h]

/-- The word `sbox_out` that `do_feistel` builds, as a sum of nibbles. -/
theorem sbox_out_eq (s1 s2 s3 s4 s5 s6 s7 s8 : Nat) (h1 : s1 < 16) (h2 : s2 < 16)
    (h3 : s3 < 16) (h4 : s4 < 16) (h5 : s5 < 16) (h6 : s6 < 16) (h7 : s7 < 16) (h8 : s8 < 16) :
    (((((((((0 ||| s8) ||| (s7 <<< 4)) ||| (s6 <<< 8)) ||| (s5 <<< 12)) ||| (s4 <<< 16)) |||
      (s3 <<< 20)) ||| (s2 <<< 24)) ||| (s1 <<< 28)) =
      s1 * 2 ^ 28 + s2 * 2 ^ 24 + s3 * 2 ^ 20 + s4 * 2 ^ 16 + s5 * 2 ^ 12 + s6 * 2 ^ 8 +
        s7 * 2 ^ 4 + s8) ∧
    s1 * 2 ^ 28 + s2 * 2 ^ 24 + s3 * 2 ^ 20 + s4 * 2 ^ 16 + s5 * 2 ^ 12 + s6 * 2 ^ 8 +
        s7 * 2 ^ 4 + s8 < 2 ^ 32 := by
  have b1 : s8 < 2 ^ 4 := by omega
  have b2 : s7 * 2 ^ 4 + s8 < 2 ^ 8 := by omega
  have b3 : s6 * 2 ^ 8 + (s7 * 2 ^ 4 + s8) < 2 ^ 12 := by omega
  have b4 : s5 * 2 ^ 12 + (s6 * 2 ^ 8 + (s7 * 2 ^ 4 + s8)) < 2 ^ 16 := by omega
  have b5 : s4 * 2 ^ 16 + (s5 * 2 ^ 12 + (s6 * 2 ^ 8 + (s7 * 2 ^ 4 + s8))) < 2 ^ 20 := by omega
  have b6 : s3 * 2 ^ 20 + (s4 * 2 ^ 16 + (s5 * 2 ^ 12 + (s6 * 2 ^ 8 + (s7 * 2 ^ 4 + s8)))) <
      2 ^ 24 := by omega
  have b7 : s2 * 2 ^ 24 + (s3 * 2 ^ 20 + (s4 * 2 ^ 16 + (s5 * 2 ^ 12 + (s6 * 2 ^ 8 +
      (s7 * 2 ^ 4 + s8))))) < 2 ^ 28 := by omega
  constructor
  · rw [Nat.zero_or, or_shl_eq_add _ _ 4 b1, or_shl_eq_add _ _ 8 b2, or_shl_eq_add _ _ 12 b3,
      or_shl_eq_add _ _ 16 b4, or_shl_eq_add _ _ 20 b5, or_shl_eq_add _ _ 24 b6,
      or_shl_eq_add _ _ 28 b7]
    omega
  · omega

/-- The function `do_feistel` in terms of the S-box addresses of the eight groups. -/
theorem do_feistel_eq (T : DesTables) (hS : ∀ n idx, (des_sbox T n).getD idx 0 < 16)
    (R k : Nat) :
    do_feistel T R k =
      do_perm (sbox_word T (do_perm R T.exp_table_c 32 48 ^^^ k)) T.sbox_p_table_c 32 32 ∧
    sbox_word T (do_perm R T.exp_table_c 32 48 ^^^ k) < 2 ^ 32 := by
  have e : do_feistel T R k =
      u32 (do_perm
        ((((((((0 ||| T.sbox8.getD (sbox_ind (do_perm R T.exp_table_c 32 48 ^^^ k) 0) 0) |||
          (T.sbox7.getD (sbox_ind (do_perm R T.exp_table_c 32 48 ^^^ k) 1) 0 <<< 4)) |||
          (T.sbox6.getD (sbox_ind (do_perm R T.exp_table_c 32 48 ^^^ k) 2) 0 <<< 8)) |||
          (T.sbox5.getD (sbox_ind (do_perm R T.exp_table_c 32 48 ^^^ k) 3) 0 <<< 12)) |||
          (T.sbox4.getD (sbox_ind (do_perm R T.exp_table_c 32 48 ^^^ k) 4) 0 <<< 16)) |||
          (T.sbox3.getD (sbox_ind (do_perm R T.exp_table_c 32 48 ^^^ k) 5) 0 <<< 20)) |||
          (T.sbox2.getD (sbox_ind (do_perm R T.exp_table_c 32 48 ^^^ k) 6) 0 <<< 24)) |||
          (T.sbox1.getD (sbox_ind (do_perm R T.exp_table_c 32 48 ^^^ k) 7) 0 <<< 28))
        T.sbox_p_table_c 32 32) := rfl
  generalize do_perm R T.exp_table_c 32 48 ^^^ k = x at e ⊢
  have a8 : sbox_ind x 0 = sbox_address x 8 := sbox_ind_address x 8 (by decide) (by decide)
  have a7 : sbox_ind x 1 = sbox_address x 7 := sbox_ind_address x 7 (by decide) (by decide)
  have a6 : sbox_ind x 2 = sbox_address x 6 := sbox_ind_address x 6 (by decide) (by decide)
  have a5 : sbox_ind x 3 = sbox_address x 5 := sbox_ind_address x 5 (by decide) (by decide)
  have a4 : sbox_ind x 4 = sbox_address x 4 := sbox_ind_address x 4 (by decide) (by decide)
  have a3 : sbox_ind x 5 = sbox_address x 3 := sbox_ind_address x 3 (by decide) (by decide)
  have a2 : sbox_ind x 6 = sbox_address x 2 := sbox_ind_address x 2 (by decide) (by decide)
  have a1 : sbox_ind x 7 = sbox_address x 1 := sbox_ind_address x 1 (by decide) (by decide)
  have hw := sbox_out_eq _ _ _ _ _ _ _ _ (hS 1 (sbox_address x 1)) (hS 2 (sbox_address x 2))
    (hS 3 (sbox_address x 3)) (hS 4 (sbox_address x 4)) (hS 5 (sbox_address x 5))
    (hS 6 (sbox_address x 6)) (hS 7 (sbox_address x 7)) (hS 8 (sbox_address x 8))
  rw [e, a1, a2, a3, a4, a5, a6, a7, a8, u32_of_lt (do_perm_lt _ _ _ 32)]
  exact ⟨congrArg (fun v => do_perm v T.sbox_p_table_c 32 32) hw.1, hw.2⟩

theorem getD_lt_16 (l : List Nat) (h : ∀ x ∈ l, x < 16) (i : Nat) : l.getD i 0 < 16 := by
  by_cases hi : i < l.length
  · rw [List.getD_eq_getElem _ _ hi]
    exact h _ (List.getElem_mem hi)
  · rw [List.getD_eq_default _ _ (by omega)]
    decide

set_option maxRecDepth 100000 in
theorem des_h_sbox_entries : ∀ n, n < 9 → ∀ x ∈ des_sbox des_h n, x < 16 := by
  decide!

theorem des_h_sbox_lt (n idx : Nat) : (des_sbox des_h n).getD idx 0 < 16 := by
  by_cases hn : n < 9
  · exact getD_lt_16 _ (des_h_sbox_entries n hn) idx
  · have : des_sbox des_h n = [] := by
      unfold des_sbox
      split <;> first | omega | rfl
    rw [this]
    show (0 : Nat) < 16
    decide

/-! ## The specialised multipliers and the order of `Mult2GF` -/

set_option maxRecDepth 100000 in
theorem MultGF_by_two : ∀ x, x < 256 → MultGF x 2 = Mult2GF x := by
  decide!

set_option maxRecDepth 100000 in
theorem MultGF_by_three : ∀ x, x < 256 → MultGF x 3 = Mult3GF x := by
  decide!

set_option maxRecDepth 100000 in
theorem Mult2GF_shift_reduce : ∀ x, x < 256 →
    Mult2GF x = ((2 * x) % 256) ^^^ (if 0x80 ≤ x then 0x1B else 0) := by
  decide!

set_option maxRecDepth 100000 in
theorem Mult2GF_iterate_51 : Mult2GF^[51] 1 = 1 := by
  decide!

set_option maxRecDepth 100000 in
theorem Mult2GF_iterate_lt_51 : ∀ n, n < 51 → 1 ≤ n → Mult2GF^[n] 1 ≠ 1 := by
  decide!

set_option maxRecDepth 100000 in
theorem Mult2GF_iterate_ne_3 : ∀ n, n < 51 → Mult2GF^[n] 1 ≠ 3 := by
  decide!

/-- The iterates of `Mult2GF` on 1 repeat with period 51. -/
theorem Mult2GF_iterate_mod (n : Nat) : Mult2GF^[n] 1 = Mult2GF^[n % 51] 1 := by
  induction n using Nat.strong_induction_on with
  | _ n ih =>
    by_cases h : n < 51
    · rw [Nat.mod_eq_of_lt h]
    · have e : n = (n - 51) + 51 := by omega
      have hm : n % 51 = (n - 51) % 51 := by omega
      rw [hm, ← ih (n - 51) (by omega)]
      conv_lhs => rw [e, Function.iterate_add_apply, Mult2GF_iterate_51]

/-! ## The key schedule without the branch for long keys; AddRoundKey entry by entry -/

theorem Nk6_branch_condition (i : Nat) : ¬ (Nk > 6 ∧ i % Nk = 4) :=
  fun h => absurd h.1 (by decide)

theorem KeyExpansion_word_without_Nk6_eq (T : AesTables) (i : Nat) (w : List Nat) :
    KeyExpansion_word_without_Nk6 T i w = KeyExpansion_word T i w := by
  unfold KeyExpansion_word_without_Nk6 KeyExpansion_word
  simp only [Nk6_branch_condition i, if_false]

theorem KeyExpansion_without_Nk6_eq (T : AesTables) (key w : List Nat) :
    KeyExpansion_without_Nk6 T key w = KeyExpansion T key w := by
  unfold KeyExpansion_without_Nk6 KeyExpansion
  simp only [KeyExpansion_word_without_Nk6_eq]

theorem AddRoundKey_entry (s w : List Nat) (round : Nat) (hs : s.length = 16) (j i : Nat)
    (hj : j < 4) (hi : i < 4) :
    get2 Nb (AddRoundKey s w round) j i =
      get2 Nb s j i ^^^ get2 (Nb * (Nr + 1)) w j (4 * round + i) := by
  obtain ⟨a0, a1, a2, a3, a4, a5, a6, a7, a8, a9, a10, a11, a12, a13, a14, a15, rfl⟩ :=
    list_length_16 s hs
  rw [AddRoundKey_explicit, Nat.mul_comm 4 round]
  interval_cases j <;> interval_cases i <;> rfl

theorem AddRoundKey_reads_slice (s w1 w2 : List Nat) (round : Nat) (hs : s.length = 16)
    (h : ∀ j i, j < 4 → i < 4 →
      get2 (Nb * (Nr + 1)) w1 j (4 * round + i) = get2 (Nb * (Nr + 1)) w2 j (4 * round + i)) :
    AddRoundKey s w1 round = AddRoundKey s w2 round := by
  obtain ⟨a0, a1, a2, a3, a4, a5, a6, a7, a8, a9, a10, a11, a12, a13, a14, a15, rfl⟩ :=
    list_length_16 s hs
  have g : ∀ j i, j < 4 → i < 4 → get2 44 w1 j (round * 4 + i) = get2 44 w2 j (round * 4 + i) := by
    intro j i hj hi
    have := h j i hj hi
    rw [Nat.mul_comm 4 round] at this
    exact this
  rw [AddRoundKey_explicit, AddRoundKey_explicit]
  rw [g 0 0 (by decide) (by decide), g 0 1 (by decide) (by decide),
    g 0 2 (by decide) (by decide), g 0 3 (by decide) (by decide),
    g 1 0 (by decide) (by decide), g 1 1 (by decide) (by decide),
    g 1 2 (by decide) (by decide), g 1 3 (by decide) (by decide),
    g 2 0 (by decide) (by decide), g 2 1 (by decide) (by decide),
    g 2 2 (by decide) (by decide), g 2 3 (by decide) (by decide),
    g 3 0 (by decide) (by decide), g 3 1 (by decide) (by decide),
    g 3 2 (by decide) (by decide), g 3 3 (by decide) (by decide)]

/-! ## Cipher undoes InvCipher -/

/-- A byte table with a left inverse on the bytes is a permutation of the bytes, so the
left inverse is a byte table and a right inverse as well. -/
theorem Sbox_InvSbox_of_left_inverse (T : AesTables) (hS : ∀ x, T.Sbox.getD x 0 < 256)
    (hI : ∀ x, x < 256 → T.InvSbox.getD (T.Sbox.getD x 0) 0 = x) (y : Nat) (hy : y < 256) :
    T.InvSbox.getD y 0 < 256 ∧ T.Sbox.getD (T.InvSbox.getD y 0) 0 = y := by
  let f : Fin 256 → Fin 256 := fun x => ⟨T.Sbox.getD x.1 0, hS x.1⟩
  have hinj : Function.Injective f := by
    intro a b hab
    have e : T.Sbox.getD a.1 0 = T.Sbox.getD b.1 0 := congrArg Fin.val hab
    have := congrArg (fun v => T.InvSbox.getD v 0) e
    simp only [hI a.1 a.2, hI b.1 b.2] at this
    exact Fin.ext this
  obtain ⟨x, hx⟩ := (Finite.injective_iff_surjective.mp hinj) ⟨y, hy⟩
  have e : T.Sbox.getD x.1 0 = y := congrArg Fin.val hx
  have e2 : T.InvSbox.getD y 0 = x.1 := by rw [← e, hI x.1 x.2]
  rw [e2]
  exact ⟨x.2, e⟩

theorem InvSubBytes_bytes (T : AesTables) (hB : ∀ y, y < 256 → T.InvSbox.getD y 0 < 256)
    (s : List Nat) (h : ByteList 16 s) : ByteList 16 (InvSubBytes T s) := by
  obtain ⟨a0, a1, a2, a3, a4, a5, a6, a7, a8, a9, a10, a11, a12, a13, a14, a15, rfl⟩ :=
    list_length_16 s h.1
  obtain ⟨h0, h1, h2, h3, h4, h5, h6, h7, h8, h9, h10, h11, h12, h13, h14, h15⟩ :=
    bytes16_elim h
  rw [InvSubBytes_explicit]
  exact bytes16_intro (hB _ h0) (hB _ h1) (hB _ h2) (hB _ h3) (hB _ h4) (hB _ h5) (hB _ h6)
    (hB _ h7) (hB _ h8) (hB _ h9) (hB _ h10) (hB _ h11) (hB _ h12) (hB _ h13) (hB _ h14)
    (hB _ h15)

theorem InvShiftRows_bytes (s : List Nat) (h : ByteList 16 s) :
    ByteList 16 (InvShiftRows s) := by
  obtain ⟨a0, a1, a2, a3, a4, a5, a6, a7, a8, a9, a10, a11, a12, a13, a14, a15, rfl⟩ :=
    list_length_16 s h.1
  obtain ⟨h0, h1, h2, h3, h4, h5, h6, h7, h8, h9, h10, h11, h12, h13, h14, h15⟩ :=
    bytes16_elim h
  rw [InvShiftRows_explicit]
  exact bytes16_intro h0 h1 h2 h3 h7 h4 h5 h6 h10 h11 h8 h9 h13 h14 h15 h12

theorem InvMixColumns_bytes (s : List Nat) (h : ByteList 16 s) :
    ByteList 16 (InvMixColumns s) := by
  obtain ⟨a0, a1, a2, a3, a4, a5, a6, a7, a8, a9, a10, a11, a12, a13, a14, a15, rfl⟩ :=
    list_length_16 s h.1
  obtain ⟨h0, h1, h2, h3, h4, h5, h6, h7, h8, h9, h10, h11, h12, h13, h14, h15⟩ :=
    bytes16_elim h
  rw [InvMixColumns_explicit]
  have m : ∀ a b, a < 256 → MultGF a b < 256 := fun a b ha => MultGF_lt a b ha
  apply bytes16_intro <;>
    exact xor_byte (xor_byte (xor_byte (m _ _ (by assumption)) (m _ _ (by assumption)))
      (m _ _ (by assumption))) (m _ _ (by assumption))

theorem SubBytes_InvSubBytes (T : AesTables)
    (hR : ∀ y, y < 256 → T.Sbox.getD (T.InvSbox.getD y 0) 0 = y) (s : List Nat)
    (h : ByteList 16 s) : SubBytes T (InvSubBytes T s) = s := by
  obtain ⟨a0, a1, a2, a3, a4, a5, a6, a7, a8, a9, a10, a11, a12, a13, a14, a15, rfl⟩ :=
    list_length_16 s h.1
  obtain ⟨h0, h1, h2, h3, h4, h5, h6, h7, h8, h9, h10, h11, h12, h13, h14, h15⟩ :=
    bytes16_elim h
  rw [InvSubBytes_explicit, SubBytes_explicit, hR a0 h0, hR a1 h1, hR a2 h2, hR a3 h3,
    hR a4 h4, hR a5 h5, hR a6 h6, hR a7 h7, hR a8 h8, hR a9 h9, hR a10 h10, hR a11 h11,
    hR a12 h12, hR a13 h13, hR a14 h14, hR a15 h15]

theorem InvCipher_round_bytes (T : AesTables) (hB : ∀ y, y < 256 → T.InvSbox.getD y 0 < 256)
    (w : List Nat) (hw : ∀ x ∈ w, x < 256) (i : Nat) (s : List Nat) (h : ByteList 16 s) :
    ByteList 16 (InvCipher_round T w i s) := by
  dsimp only [InvCipher_round]
  exact InvMixColumns_bytes _
    (AddRoundKey_bytes _ w i (InvSubBytes_bytes T hB _ (InvShiftRows_bytes _ h)) hw)

theorem InvCipher_loop_bytes (T : AesTables) (hB : ∀ y, y < 256 → T.InvSbox.getD y 0 < 256)
    (w : List Nat) (hw : ∀ x ∈ w, x < 256) (s : List Nat) (h : ByteList 16 s) (n : Nat) :
    ByteList 16 (forLoop (fun k state => InvCipher_round T w (Nr - 1 - k) state) n s) := by
  induction n with
  | zero => rw [forLoop_zero]; exact h
  | succ n ih => rw [forLoop_succ]; exact InvCipher_round_bytes T hB w hw _ _ ih

/-- One encryption round undoes one decryption round, seen between the
`InvShiftRows`/`InvSubBytes` pairs. -/
theorem Cipher_round_InvCipher_round (T : AesTables)
    (hB : ∀ y, y < 256 → T.InvSbox.getD y 0 < 256)
    (hR : ∀ y, y < 256 → T.Sbox.getD (T.InvSbox.getD y 0) 0 = y)
    (w : List Nat) (hw : ∀ x ∈ w, x < 256) (i : Nat) (s : List Nat) (h : ByteList 16 s) :
    Cipher_round T w i (InvSubBytes T (InvShiftRows (InvCipher_round T w i s))) =
      InvSubBytes T (InvShiftRows s) := by
  have hb : ByteList 16 (InvSubBytes T (InvShiftRows s)) :=
    InvSubBytes_bytes T hB _ (InvShiftRows_bytes _ h)
  have ha : ByteList 16 (AddRoundKey (InvSubBytes T (InvShiftRows s)) w i) :=
    AddRoundKey_bytes _ w i hb hw
  have hc : ByteList 16 (InvCipher_round T w i s) := InvCipher_round_bytes T hB w hw i s h
  dsimp only [Cipher_round]
  rw [SubBytes_InvSubBytes T hR _ (InvShiftRows_bytes _ hc), ShiftRows_InvShiftRows _ hc.1]
  dsimp only [InvCipher_round]
  rw [MixColumns_InvMixColumns _ ha.1, AddRoundKey_AddRoundKey _ w i hb.1]

/-- The encryption round loop runs the decryption round loop backwards. -/
theorem Cipher_loop (T : AesTables) (hB : ∀ y, y < 256 → T.InvSbox.getD y 0 < 256)
    (hR : ∀ y, y < 256 → T.Sbox.getD (T.InvSbox.getD y 0) 0 = y)
    (w : List Nat) (hw : ∀ x ∈ w, x < 256) (s : List Nat) (h : ByteList 16 s)
    (k : Nat) (hk : k ≤ Nr - 1) :
    forLoop (fun k state => Cipher_round T w (k + 1) state) k
        (InvSubBytes T (InvShiftRows
          (forLoop (fun k state => InvCipher_round T w (Nr - 1 - k) state) (Nr - 1) s))) =
      InvSubBytes T (InvShiftRows
        (forLoop (fun k state => InvCipher_round T w (Nr - 1 - k) state) (Nr - 1 - k) s)) := by
  induction k with
  | zero => rw [forLoop_zero, Nat.sub_zero]
  | succ k ih =>
    rw [forLoop_succ, ih (by omega)]
    have e : Nr - 1 - k = (Nr - 1 - (k + 1)) + 1 := by omega
    have e2 : Nr - 1 - (Nr - 1 - (k + 1)) = k + 1 := by omega
    rw [e, forLoop_succ, e2]
    exact Cipher_round_InvCipher_round T hB hR w hw _ _ (InvCipher_loop_bytes T hB w hw s h _)

theorem Cipher_InvCipher (T : AesTables) (hB : ∀ y, y < 256 → T.InvSbox.getD y 0 < 256)
    (hR : ∀ y, y < 256 → T.Sbox.getD (T.InvSbox.getD y 0) 0 = y)
    (w : List Nat) (hw : ∀ x ∈ w, x < 256) (p o1 o2 : List Nat) (hp : ByteList 16 p)
    (ho1 : o1.length = 16) (ho2 : o2.length = 16) :
    Cipher T (InvCipher T p o1 w) o2 w = p := by
  have hl := loadState_bytes p hp
  have h0 := AddRoundKey_bytes _ w Nr hl hw
  have h9 := InvCipher_loop_bytes T hB w hw _ h0 (Nr - 1)
  have hsb := InvSubBytes_bytes T hB _ (InvShiftRows_bytes _ h9)
  have hx := AddRoundKey_length _ w 0 hsb.1
  dsimp only [InvCipher, Cipher]
  rw [loadState_storeState _ o1 hx ho1, AddRoundKey_AddRoundKey _ w 0 hsb.1,
    Cipher_loop T hB hR w hw _ h0 (Nr - 1) (Nat.le_refl _), Nat.sub_self, forLoop_zero,
    SubBytes_InvSubBytes T hR _ (InvShiftRows_bytes _ h0), ShiftRows_InvShiftRows _ h0.1,
    AddRoundKey_AddRoundKey _ w Nr hl.1, storeState_loadState p o2 hp.1 ho2]

/-! ## DES: the decrypt key schedule step and the widths of the key schedule -/

theorem rotate_right_28_eq (x s : Nat) (hx : x < 2 ^ 28) (hs : s ≤ 28) :
    rotate_right_28 x s = ((x % 2 ^ s) <<< (28 - s)) ||| (x / 2 ^ s) := by
  have e : (2 : Nat) ^ 28 = 2 ^ s * 2 ^ (28 - s) := by
    rw [← Nat.pow_add]
    congr 1
    omega
  have hlt : x / 2 ^ s < 2 ^ (28 - s) := by
    rw [Nat.div_lt_iff_lt_mul (Nat.pow_pos (by decide))]
    rw [Nat.mul_comm, ← e]
    exact hx
  unfold rotate_right_28
  rw [shl_or_eq_mul_add _ _ _ hlt, Nat.add_comm]

theorem rotate_right_28_testBit (x s j : Nat) (hx : x < 2 ^ 28) (hs : s ≤ 28) :
    (rotate_right_28 x s).testBit j = (decide (j < 28) && x.testBit ((j + s) % 28)) := by
  rw [rotate_right_28_eq x s hx hs, Nat.testBit_or, Nat.testBit_shiftLeft,
    Nat.testBit_mod_two_pow, testBit_div_pow]
  by_cases hj : j < 28
  · by_cases h : j ≥ 28 - s
    · have h1 : x.testBit (s + j) = false := testBit_of_lt hx (by omega)
      have h2 : (j + s) % 28 = j - (28 - s) := by omega
      have h3 : j - (28 - s) < s := by omega
      simp [hj, h, h1, h2, h3]
    · have h2 : (j + s) % 28 = s + j := by omega
      simp [hj, h, h2]
  · have h1 : x.testBit (s + j) = false := testBit_of_lt hx (by omega)
    have h3 : ¬ j - (28 - s) < s := by omega
    simp [hj, h1, h3]

theorem rotate_right_28_lt (x s : Nat) (hx : x < 2 ^ 28) (hs : s ≤ 28) :
    rotate_right_28 x s < 2 ^ 28 := by
  apply Nat.lt_pow_two_of_testBit
  intro j hj
  rw [rotate_right_28_testBit x s j hx hs]
  have : ¬ j < 28 := by omega
  simp [this]

/-- The new key state of `do_key` in decrypt mode, in arithmetic terms. -/
theorem do_key_decipher_rotate (T : DesTables) (key round : Nat) (hk : key < 2 ^ 56)
    (hr : T.decrypt_rotate_tab.getD round 0 ≤ 28) :
    (do_key T key round MODE_DECIPHER).1 =
      rotate_right_28 (key / 2 ^ 28) (T.decrypt_rotate_tab.getD round 0) * 2 ^ 28 +
        rotate_right_28 (key % 2 ^ 28) (T.decrypt_rotate_tab.getD round 0) := by
  have hhi : key / 2 ^ 28 < 2 ^ 28 := by
    rw [Nat.div_lt_iff_lt_mul (Nat.pow_pos (by decide))]
    exact hk
  have hlo : key % 2 ^ 28 < 2 ^ 28 := Nat.mod_lt _ (Nat.pow_pos (by decide))
  rw [← shl_or_eq_mul_add _ _ _ (rotate_right_28_lt _ _ hlo hr)]
  apply Nat.eq_of_testBit_eq
  intro j
  rw [do_key_decipher_testBit T key round j hk hr]
  show _ = ((_ <<< KEY_BIT_WIDTH_2) ||| _).testBit j
  rw [key_join_testBit _ _ j (rotate_right_28_lt _ _ hlo hr)]
  unfold rotIdx
  generalize T.decrypt_rotate_tab.getD round 0 = r at hr ⊢
  by_cases hj : j < 28
  · have h56 : j < 56 := by omega
    rw [if_pos hj, if_pos hj, rotate_right_28_testBit _ _ _ hlo hr, Nat.testBit_mod_two_pow]
    have : (j + r) % 28 < 28 := Nat.mod_lt _ (by decide)
    simp [hj, h56, this]
  · rw [if_neg hj, if_neg hj, rotate_right_28_testBit _ _ _ hhi hr, testBit_div_pow]
    by_cases h56 : j < 56
    · have : j - 28 < 28 := by omega
      simp [h56, this]
    · have : ¬ j - 28 < 28 := by omega
      simp [h56, this]

theorem join_lt_56 (l r : Nat) (hl : l < 2 ^ 28) (hr : r < 2 ^ 28) :
    (l <<< KEY_BIT_WIDTH_2) ||| r < 2 ^ 56 := by
  have e : (l <<< KEY_BIT_WIDTH_2) ||| r = l * 2 ^ 28 + r := shl_or_eq_mul_add l r 28 hr
  rw [e]
  omega

/-- Every `do_key` call leaves a key state below `2^56`. -/
theorem do_key_fst_lt (T : DesTables) (key round mode : Nat) (hk : key < 2 ^ 56) :
    (do_key T key round mode).1 < 2 ^ 56 := by
  by_cases h1 : mode = MODE_CIPHER
  · subst h1
    rw [do_key_cipher_fst]
    exact join_lt_56 _ _ (and_mask28_lt _) (and_mask28_lt _)
  · by_cases h2 : mode = MODE_DECIPHER
    · subst h2
      rw [do_key_decipher_fst]
      exact join_lt_56 _ _ (and_mask28_lt _) (and_mask28_lt _)
    · have e : (do_key T key round mode).1 =
          (u32 (key >>> KEY_BIT_WIDTH_2) <<< KEY_BIT_WIDTH_2) |||
            u32 (key &&& KEY_BIT_WIDTH_2_MASK) := by
        unfold do_key
        simp only [h1, h2, if_false]
      rw [e]
      exact join_lt_56 _ _ (key_l_lt key hk) (key_r_lt key)

theorem keyState_lt (T : DesTables) (mode key_56 : Nat) (hk : key_56 < 2 ^ 56) (n : Nat) :
    keyState T mode key_56 n < 2 ^ 56 := by
  induction n with
  | zero => exact hk
  | succ n ih => exact do_key_fst_lt T _ n mode ih

/-! ## The DES test bench (`sw/apps/des/main.c`): byte order of the block and the key -/

theorem main_extract_eq (rx : List Nat) :
    main_extract rx =
      (0 ||| (u8 (rx.getD 0 0) <<< 0) ||| (u8 (rx.getD 1 0) <<< 8) |||
        (u8 (rx.getD 2 0) <<< 16) ||| (u8 (rx.getD 3 0) <<< 24) |||
        (u8 (rx.getD 4 0) <<< 32) ||| (u8 (rx.getD 5 0) <<< 40) |||
        (u8 (rx.getD 6 0) <<< 48) ||| (u8 (rx.getD 7 0) <<< 56),
       0 ||| (u8 (rx.getD 8 0) <<< 0) ||| (u8 (rx.getD 9 0) <<< 8) |||
        (u8 (rx.getD 10 0) <<< 16) ||| (u8 (rx.getD 11 0) <<< 24) |||
        (u8 (rx.getD 12 0) <<< 32) ||| (u8 (rx.getD 13 0) <<< 40) |||
        (u8 (rx.getD 14 0) <<< 48) ||| (u8 (rx.getD 15 0) <<< 56)) := by
  simp only [main_extract, forLoop_succ, forLoop_zero, Nat.reduceMul, Nat.reduceAdd,
    Nat.zero_add]

theorem main_send_eq (cipher : Nat) :
    main_send cipher =
      [u8 (cipher >>> 0), u8 (cipher >>> 8), u8 (cipher >>> 16), u8 (cipher >>> 24),
       u8 (cipher >>> 32), u8 (cipher >>> 40), u8 (cipher >>> 48), u8 (cipher >>> 56)] := by
  simp only [main_send, forLoop_succ, forLoop_zero, Nat.reduceMul, List.nil_append,
    List.cons_append]

/-- Eight bytes put together by shifts and ORs are the sum of the bytes times powers of
`2^8`. -/
theorem pack8_eq (b0 b1 b2 b3 b4 b5 b6 b7 : Nat) (h0 : b0 < 256) (h1 : b1 < 256)
    (h2 : b2 < 256) (h3 : b3 < 256) (h4 : b4 < 256) (h5 : b5 < 256) (h6 : b6 < 256)
    (_h7 : b7 < 256) :
    0 ||| (u8 b0 <<< 0) ||| (u8 b1 <<< 8) ||| (u8 b2 <<< 16) ||| (u8 b3 <<< 24) |||
        (u8 b4 <<< 32) ||| (u8 b5 <<< 40) ||| (u8 b6 <<< 48) ||| (u8 b7 <<< 56) =
      b0 + b1 * 2 ^ 8 + b2 * 2 ^ 16 + b3 * 2 ^ 24 + b4 * 2 ^ 32 + b5 * 2 ^ 40 + b6 * 2 ^ 48 +
        b7 * 2 ^ 56 := by
  have u : ∀ b, b < 256 → u8 b = b := fun b hb => Nat.mod_eq_of_lt hb
  rw [u b0 h0, u b1 h1, u b2 h2, u b3 h3, u b4 h4, u b5 h5, u b6 h6, u b7 _h7]
  rw [Nat.zero_or, Nat.shiftLeft_zero]
  rw [or_shl_eq_add b0 b1 8 (by omega)]
  rw [or_shl_eq_add _ b2 16 (by omega)]
  rw [or_shl_eq_add _ b3 24 (by omega)]
  rw [or_shl_eq_add _ b4 32 (by omega)]
  rw [or_shl_eq_add _ b5 40 (by omega)]
  rw [or_shl_eq_add _ b6 48 (by omega)]
  rw [or_shl_eq_add _ b7 56 (by omega)]
  omega

theorem byte_of_sum (lo b hi k : Nat) (hlo : lo < 2 ^ k) (hb : b < 256) :
    (lo + b * 2 ^ k + hi * 2 ^ (k + 8)) / 2 ^ k % 256 = b := by
  have e : lo + b * 2 ^ k + hi * 2 ^ (k + 8) = lo + 2 ^ k * (b + 256 * hi) := by
    rw [Nat.pow_add]
    ring
  rw [e, Nat.add_mul_div_left _ _ (Nat.pow_pos (by decide)), Nat.div_eq_of_lt hlo,
    Nat.zero_add, Nat.add_mul_mod_self_left, Nat.mod_eq_of_lt hb]

/-- The bytes sent for a word that is a sum of eight bytes times powers of `2^8`. -/
theorem main_send_pack8 (b0 b1 b2 b3 b4 b5 b6 b7 : Nat) (h0 : b0 < 256) (h1 : b1 < 256)
    (h2 : b2 < 256) (h3 : b3 < 256) (h4 : b4 < 256) (h5 : b5 < 256) (h6 : b6 < 256)
    (h7 : b7 < 256) :
    main_send (b0 + b1 * 2 ^ 8 + b2 * 2 ^ 16 + b3 * 2 ^ 24 + b4 * 2 ^ 32 + b5 * 2 ^ 40 +
        b6 * 2 ^ 48 + b7 * 2 ^ 56) = [b0, b1, b2, b3, b4, b5, b6, b7] := by
  rw [main_send_eq]
  simp only [Nat.shiftRight_eq_div_pow, u8]
  have e0 : (b0 + b1 * 2 ^ 8 + b2 * 2 ^ 16 + b3 * 2 ^ 24 + b4 * 2 ^ 32 + b5 * 2 ^ 40 +
        b6 * 2 ^ 48 + b7 * 2 ^ 56) / 2 ^ 0 % 256 = b0 := by
    have e : b0 + b1 * 2 ^ 8 + b2 * 2 ^ 16 + b3 * 2 ^ 24 + b4 * 2 ^ 32 + b5 * 2 ^ 40 +
        b6 * 2 ^ 48 + b7 * 2 ^ 56 =
        (0) + b0 * 2 ^ 0 + (b1 + b2 * 2 ^ 8 + b3 * 2 ^ 16 + b4 * 2 ^ 24 + b5 * 2 ^ 32 + b6 * 2 ^ 40 + b7 * 2 ^ 48) * 2 ^ (0 + 8) := by
      ring
    rw [e]
    exact byte_of_sum _ _ _ _ (by omega) h0
  have e1 : (b0 + b1 * 2 ^ 8 + b2 * 2 ^ 16 + b3 * 2 ^ 24 + b4 * 2 ^ 32 + b5 * 2 ^ 40 +
        b6 * 2 ^ 48 + b7 * 2 ^ 56) / 2 ^ 8 % 256 = b1 := by
    have e : b0 + b1 * 2 ^ 8 + b2 * 2 ^ 16 + b3 * 2 ^ 24 + b4 * 2 ^ 32 + b5 * 2 ^ 40 +
        b6 * 2 ^ 48 + b7 * 2 ^ 56 =
        (b0) + b1 * 2 ^ 8 + (b2 + b3 * 2 ^ 8 + b4 * 2 ^ 16 + b5 * 2 ^ 24 + b6 * 2 ^ 32 + b7 * 2 ^ 40) * 2 ^ (8 + 8) := by
      ring
    rw [e]
    exact byte_of_sum _ _ _ _ (by omega) h1
  have e2 : (b0 + b1 * 2 ^ 8 + b2 * 2 ^ 16 + b3 * 2 ^ 24 + b4 * 2 ^ 32 + b5 * 2 ^ 40 +
        b6 * 2 ^ 48 + b7 * 2 ^ 56) / 2 ^ 16 % 256 = b2 := by
    have e : b0 + b1 * 2 ^ 8 + b2 * 2 ^ 16 + b3 * 2 ^ 24 + b4 * 2 ^ 32 + b5 * 2 ^ 40 +
        b6 * 2 ^ 48 + b7 * 2 ^ 56 =
        (b0 + b1 * 2 ^ 8) + b2 * 2 ^ 16 + (b3 + b4 * 2 ^ 8 + b5 * 2 ^ 16 + b6 * 2 ^ 24 + b7 * 2 ^ 32) * 2 ^ (16 + 8) := by
      ring
    rw [e]
    exact byte_of_sum _ _ _ _ (by omega) h2
  have e3 : (b0 + b1 * 2 ^ 8 + b2 * 2 ^ 16 + b3 * 2 ^ 24 + b4 * 2 ^ 32 + b5 * 2 ^ 40 +
        b6 * 2 ^ 48 + b7 * 2 ^ 56) / 2 ^ 24 % 256 = b3 := by
    have e : b0 + b1 * 2 ^ 8 + b2 * 2 ^ 16 + b3 * 2 ^ 24 + b4 * 2 ^ 32 + b5 * 2 ^ 40 +
        b6 * 2 ^ 48 + b7 * 2 ^ 56 =
        (b0 + b1 * 2 ^ 8 + b2 * 2 ^ 16) + b3 * 2 ^ 24 + (b4 + b5 * 2 ^ 8 + b6 * 2 ^ 16 + b7 * 2 ^ 24) * 2 ^ (24 + 8) := by
      ring
    rw [e]
    exact byte_of_sum _ _ _ _ (by omega) h3
  have e4 : (b0 + b1 * 2 ^ 8 + b2 * 2 ^ 16 + b3 * 2 ^ 24 + b4 * 2 ^ 32 + b5 * 2 ^ 40 +
        b6 * 2 ^ 48 + b7 * 2 ^ 56) / 2 ^ 32 % 256 = b4 := by
    have e : b0 + b1 * 2 ^ 8 + b2 * 2 ^ 16 + b3 * 2 ^ 24 + b4 * 2 ^ 32 + b5 * 2 ^ 40 +
        b6 * 2 ^ 48 + b7 * 2 ^ 56 =
        (b0 + b1 * 2 ^ 8 + b2 * 2 ^ 16 + b3 * 2 ^ 24) + b4 * 2 ^ 32 + (b5 + b6 * 2 ^ 8 + b7 * 2 ^ 16) * 2 ^ (32 + 8) := by
      ring
    rw [e]
    exact byte_of_sum _ _ _ _ (by omega) h4
  have e5 : (b0 + b1 * 2 ^ 8 + b2 * 2 ^ 16 + b3 * 2 ^ 24 + b4 * 2 ^ 32 + b5 * 2 ^ 40 +
        b6 * 2 ^ 48 + b7 * 2 ^ 56) / 2 ^ 40 % 256 = b5 := by
    have e : b0 + b1 * 2 ^ 8 + b2 * 2 ^ 16 + b3 * 2 ^ 24 + b4 * 2 ^ 32 + b5 * 2 ^ 40 +
        b6 * 2 ^ 48 + b7 * 2 ^ 56 =
        (b0 + b1 * 2 ^ 8 + b2 * 2 ^ 16 + b3 * 2 ^ 24 + b4 * 2 ^ 32) + b5 * 2 ^ 40 + (b6 + b7 * 2 ^ 8) * 2 ^ (40 + 8) := by
      ring
    rw [e]
    exact byte_of_sum _ _ _ _ (by omega) h5
  have e6 : (b0 + b1 * 2 ^ 8 + b2 * 2 ^ 16 + b3 * 2 ^ 24 + b4 * 2 ^ 32 + b5 * 2 ^ 40 +
        b6 * 2 ^ 48 + b7 * 2 ^ 56) / 2 ^ 48 % 256 = b6 := by
    have e : b0 + b1 * 2 ^ 8 + b2 * 2 ^ 16 + b3 * 2 ^ 24 + b4 * 2 ^ 32 + b5 * 2 ^ 40 +
        b6 * 2 ^ 48 + b7 * 2 ^ 56 =
        (b0 + b1 * 2 ^ 8 + b2 * 2 ^ 16 + b3 * 2 ^ 24 + b4 * 2 ^ 32 + b5 * 2 ^ 40) + b6 * 2 ^ 48 + (b7) * 2 ^ (48 + 8) := by
      ring
    rw [e]
    exact byte_of_sum _ _ _ _ (by omega) h6
  have e7 : (b0 + b1 * 2 ^ 8 + b2 * 2 ^ 16 + b3 * 2 ^ 24 + b4 * 2 ^ 32 + b5 * 2 ^ 40 +
        b6 * 2 ^ 48 + b7 * 2 ^ 56) / 2 ^ 56 % 256 = b7 := by
    have e : b0 + b1 * 2 ^ 8 + b2 * 2 ^ 16 + b3 * 2 ^ 24 + b4 * 2 ^ 32 + b5 * 2 ^ 40 +
        b6 * 2 ^ 48 + b7 * 2 ^ 56 =
        (b0 + b1 * 2 ^ 8 + b2 * 2 ^ 16 + b3 * 2 ^ 24 + b4 * 2 ^ 32 + b5 * 2 ^ 40 + b6 * 2 ^ 48) + b7 * 2 ^ 56 + (0) * 2 ^ (56 + 8) := by
      ring
    rw [e]
    exact byte_of_sum _ _ _ _ (by omega) h7
  rw [e0, e1, e2, e3, e4, e5, e6, e7]

/-! ## DES: the decrypt rotation amounts and the round trip -/

set_option maxRecDepth 1000000 in
/-- With the encrypt amounts used for decryption as well, deciphering does not return the
block that was enciphered. -/
theorem des_h_same_amounts_round_trip :
    do_des des_h_same_amounts
        (do_des des_h_same_amounts 0x0123456789ABCDEF 0x133457799BBCDFF1 MODE_CIPHER)
        0x133457799BBCDFF1 MODE_DECIPHER = 0xBD48923CC46E4F7C := by
  decide!

set_option maxRecDepth 1000000 in
/-- The first decrypt subkey is the last encrypt subkey only if the first decrypt round
leaves the key state as it is (a rotation by 0 or by the full 28 places). -/
theorem des_h_first_decrypt_forced : ∀ d, d < 29 →
    (do_des_keys (des_h_first_decrypt d) 0x133457799BBCDFF1 MODE_DECIPHER).2.getD 0 0 =
      (do_des_keys des_h 0x133457799BBCDFF1 MODE_CIPHER).2.getD 15 0 →
    d = 0 ∨ d = 28 := by
  decide!

/-! ## `do_perm` is XOR-linear; unrecognised modes; the encrypt key state comes back -/

theorem do_perm_xor (a b : Nat) (table : List Nat) (n m : Nat) :
    do_perm (a ^^^ b) table n m = do_perm a table n m ^^^ do_perm b table n m := by
  apply Nat.eq_of_testBit_eq
  intro j
  rw [Nat.testBit_xor, do_perm_testBit, do_perm_testBit, do_perm_testBit, Nat.testBit_xor]
  by_cases h : j < m <;> simp [h]

/-- With table entries in `1..n`, `do_perm` reads only the low `n` bits of its data. -/
theorem do_perm_low_bits (data : Nat) (table : List Nat) (n m : Nat) (hn : n ≤ 64)
    (htab : ∀ i, i < m → 1 ≤ table.getD i 0 ∧ table.getD i 0 ≤ n) :
    do_perm (data % 2 ^ n) table n m = do_perm data table n m := by
  apply Nat.eq_of_testBit_eq
  intro j
  rw [do_perm_testBit, do_perm_testBit]
  by_cases h : j < m
  · have hi : m - 1 - j < m := by omega
    have ht := htab (m - 1 - j) hi
    rw [u32_wrap_sub _ _ ht.2 (by omega), Nat.testBit_mod_two_pow]
    generalize table.getD (m - 1 - j) 0 = t at ht ⊢
    have : n - t < n := by omega
    simp [h, this]
  · simp [h]

theorem key_join_halves (key : Nat) (hk : key < 2 ^ 56) :
    (u32 (key >>> KEY_BIT_WIDTH_2) <<< KEY_BIT_WIDTH_2) |||
      u32 (key &&& KEY_BIT_WIDTH_2_MASK) = key := by
  apply Nat.eq_of_testBit_eq
  intro j
  rw [key_join_testBit _ _ j (key_r_lt key)]
  by_cases hj : j < 28
  · rw [if_pos hj, key_r_testBit key j hj]
  · rw [if_neg hj]
    by_cases h56 : j < 56
    · rw [key_l_testBit key (j - 28) (by omega)]
      congr 1
      omega
    · rw [testBit_of_lt (key_l_lt key hk) (by omega), testBit_of_lt hk (by omega)]

/-- In a mode that is neither of the two, `do_key` takes the `default` branch. -/
theorem do_key_other_mode (T : DesTables) (key round mode : Nat) (hk : key < 2 ^ 56)
    (h1 : mode ≠ MODE_CIPHER) (h2 : mode ≠ MODE_DECIPHER) :
    do_key T key round mode = (key, do_perm key T.pc2_table_c KEY_BIT_WIDTH SUBKEY_BIT_WIDTH) := by
  have e : (do_key T key round mode).1 =
      (u32 (key >>> KEY_BIT_WIDTH_2) <<< KEY_BIT_WIDTH_2) |||
        u32 (key &&& KEY_BIT_WIDTH_2_MASK) := by
    unfold do_key
    simp only [h1, h2, if_false]
  have e1 : (do_key T key round mode).1 = key := e.trans (key_join_halves key hk)
  have e2 := do_key_snd T key round mode
  rw [e1] at e2
  exact Prod.ext e1 e2

theorem keyState_other_mode (T : DesTables) (mode key_56 : Nat) (hk : key_56 < 2 ^ 56)
    (h1 : mode ≠ MODE_CIPHER) (h2 : mode ≠ MODE_DECIPHER) (n : Nat) :
    keyState T mode key_56 n = key_56 := by
  induction n with
  | zero => rfl
  | succ n ih =>
    show (do_key T (keyState T mode key_56 n) n mode).1 = key_56
    rw [ih, do_key_other_mode T key_56 n mode hk h1 h2]

theorem des_h_keyIdx_cipher_16 : ∀ j, j < 56 → keyIdx des_h MODE_CIPHER 16 j = j := by
  decide

/-- After the 16 encrypt rounds the key state is the one the schedule started from. -/
theorem des_h_keyState_cipher_16 (key_56 : Nat) (hk : key_56 < 2 ^ 56) :
    keyState des_h MODE_CIPHER key_56 16 = key_56 := by
  apply Nat.eq_of_testBit_eq
  intro j
  rw [keyState_testBit_cipher des_h key_56 hk des_h_encrypt_rotate_le 16 (Nat.le_refl _) j]
  by_cases h : j < 56
  · rw [des_h_keyIdx_cipher_16 j h]
    simp [h]
  · have e : key_56.testBit j = false := testBit_of_lt hk (by omega)
    simp [h, e]

theorem des_h_pc1_skips_parity : ∀ j, j < 56 →
    (0xFEFEFEFEFEFEFEFE : Nat).testBit
      (u32 (64 + 4294967296 - des_h.pc1_table_c.getD (56 - 1 - j) 0)) = true := by
  decide

/-- The PC1 output does not depend on the least significant bit of any key byte. -/
theorem des_h_pc1_parity (K K2 : Nat)
    (h : K &&& 0xFEFEFEFEFEFEFEFE = K2 &&& 0xFEFEFEFEFEFEFEFE) :
    do_perm K des_h.pc1_table_c 64 56 = do_perm K2 des_h.pc1_table_c 64 56 := by
  apply Nat.eq_of_testBit_eq
  intro j
  rw [do_perm_testBit, do_perm_testBit]
  by_cases hj : j < 56
  · have hm := des_h_pc1_skips_parity j hj
    have e := congrArg
      (fun v => v.testBit (u32 (64 + 4294967296 - des_h.pc1_table_c.getD (56 - 1 - j) 0))) h
    simp only [Nat.testBit_and, hm, Bool.and_true] at e
    rw [e]
  · simp [hj]

/-! ## `MultGF` is bilinear and commutative -/

theorem Mult2GF_iterate_xor (a b i : Nat) :
    Mult2GF^[i] (a ^^^ b) = Mult2GF^[i] a ^^^ Mult2GF^[i] b := by
  induction i with
  | zero => rfl
  | succ i ih =>
    rw [Function.iterate_succ_apply', Function.iterate_succ_apply',
      Function.iterate_succ_apply', ih, Mult2GF_xor]

theorem Mult2GF_iterate_zero (i : Nat) : Mult2GF^[i] 0 = 0 := by
  induction i with
  | zero => rfl
  | succ i ih => rw [Function.iterate_succ_apply', ih, Mult2GF_zero]

theorem xor_interchange (p q r s : Nat) : (p ^^^ q) ^^^ (r ^^^ s) = (p ^^^ r) ^^^ (q ^^^ s) := by
  simp only [Nat.xor_assoc, Nat.xor_comm, xor_left_comm]

theorem MultGF_fold_xor_left (a c b n : Nat) :
    forLoop (fun i r => if b.testBit i then r ^^^ Mult2GF^[i] (a ^^^ c) else r) n 0 =
      forLoop (fun i r => if b.testBit i then r ^^^ Mult2GF^[i] a else r) n 0 ^^^
        forLoop (fun i r => if b.testBit i then r ^^^ Mult2GF^[i] c else r) n 0 := by
  induction n with
  | zero => simp only [forLoop_zero, Nat.xor_self]
  | succ n ih =>
    rw [forLoop_succ, forLoop_succ, forLoop_succ, ih]
    by_cases h : b.testBit n = true
    · rw [if_pos h, if_pos h, if_pos h, Mult2GF_iterate_xor, xor_interchange]
    · rw [if_neg h, if_neg h, if_neg h]

theorem MultGF_fold_xor_right (a b c n : Nat) :
    forLoop (fun i r => if (b ^^^ c).testBit i then r ^^^ Mult2GF^[i] a else r) n 0 =
      forLoop (fun i r => if b.testBit i then r ^^^ Mult2GF^[i] a else r) n 0 ^^^
        forLoop (fun i r => if c.testBit i then r ^^^ Mult2GF^[i] a else r) n 0 := by
  induction n with
  | zero => simp only [forLoop_zero, Nat.xor_self]
  | succ n ih =>
    rw [forLoop_succ, forLoop_succ, forLoop_succ, ih, Nat.testBit_xor]
    generalize forLoop (fun i r => if b.testBit i then r ^^^ Mult2GF^[i] a else r) n 0 = rb
    generalize forLoop (fun i r => if c.testBit i then r ^^^ Mult2GF^[i] a else r) n 0 = rc
    generalize Mult2GF^[n] a = m
    cases hb : b.testBit n <;> cases hc : c.testBit n <;>
      simp only [Bool.xor_false, Bool.xor_true, Bool.not_false, Bool.not_true, Bool.false_xor,
        Bool.true_xor, if_true, if_false, Bool.false_eq_true] <;>
      simp only [Nat.xor_assoc, Nat.xor_comm, xor_left_comm, Nat.xor_cancel_left, Nat.xor_self,
        Nat.xor_zero]

/-- `MultGF` distributes over XOR in its first argument. -/
theorem MultGF_xor_left (a b c : Nat) : MultGF (a ^^^ b) c = MultGF a c ^^^ MultGF b c := by
  rw [MultGF_eq, MultGF_eq, MultGF_eq, MultGF_fold_xor_left]

/-- `MultGF` distributes over XOR in its second argument. -/
theorem MultGF_xor_right (c a b : Nat) : MultGF c (a ^^^ b) = MultGF c a ^^^ MultGF c b := by
  rw [MultGF_eq, MultGF_eq, MultGF_eq, MultGF_fold_xor_right]

theorem MultGF_zero_left (b : Nat) : MultGF 0 b = 0 := by
  have h := MultGF_xor_left 0 0 b
  rw [Nat.xor_self, Nat.xor_self] at h
  exact h

theorem MultGF_zero_right (a : Nat) : MultGF a 0 = 0 := by
  have h := MultGF_xor_right a 0 0
  rw [Nat.xor_self, Nat.xor_self] at h
  exact h

theorem MultGF_ite_left (p : Prop) [Decidable p] (x b : Nat) :
    MultGF (if p then x else 0) b = if p then MultGF x b else 0 := by
  by_cases h : p
  · rw [if_pos h, if_pos h]
  · rw [if_neg h, if_neg h, MultGF_zero_left]

theorem MultGF_ite_right (p : Prop) [Decidable p] (a x : Nat) :
    MultGF a (if p then x else 0) = if p then MultGF a x else 0 := by
  by_cases h : p
  · rw [if_pos h, if_pos h]
  · rw [if_neg h, if_neg h, MultGF_zero_right]

set_option maxRecDepth 100000 in
theorem byte_bits : ∀ b, b < 256 →
    b = (if b.testBit 0 then 1 else 0) ^^^ (if b.testBit 1 then 2 else 0) ^^^
      (if b.testBit 2 then 4 else 0) ^^^ (if b.testBit 3 then 8 else 0) ^^^
      (if b.testBit 4 then 16 else 0) ^^^ (if b.testBit 5 then 32 else 0) ^^^
      (if b.testBit 6 then 64 else 0) ^^^ (if b.testBit 7 then 128 else 0) := by
  decide!

set_option maxRecDepth 100000 in
theorem MultGF_pow2_comm : ∀ a, a < 256 →
    MultGF a 1 = MultGF 1 a ∧ MultGF a 2 = MultGF 2 a ∧ MultGF a 4 = MultGF 4 a ∧
    MultGF a 8 = MultGF 8 a ∧ MultGF a 16 = MultGF 16 a ∧ MultGF a 32 = MultGF 32 a ∧
    MultGF a 64 = MultGF 64 a ∧ MultGF a 128 = MultGF 128 a := by
  decide!

/-- `MultGF` is commutative on bytes. -/
theorem MultGF_comm (a b : Nat) (ha : a < 256) (hb : b < 256) : MultGF a b = MultGF b a := by
  obtain ⟨c0, c1, c2, c3, c4, c5, c6, c7⟩ := MultGF_pow2_comm a ha
  have e := byte_bits b hb
  generalize b.testBit 0 = t0 at e
  generalize b.testBit 1 = t1 at e
  generalize b.testBit 2 = t2 at e
  generalize b.testBit 3 = t3 at e
  generalize b.testBit 4 = t4 at e
  generalize b.testBit 5 = t5 at e
  generalize b.testBit 6 = t6 at e
  generalize b.testBit 7 = t7 at e
  rw [e]
  simp only [MultGF_xor_left, MultGF_xor_right, MultGF_ite_left, MultGF_ite_right,
    c0, c1, c2, c3, c4, c5, c6, c7]

/-! ## States under XOR: `MixColumns` and `InvMixColumns` are linear -/

theorem xorState_explicit (a0 a1 a2 a3 a4 a5 a6 a7 a8 a9 a10 a11 a12 a13 a14 a15
    b0 b1 b2 b3 b4 b5 b6 b7 b8 b9 b10 b11 b12 b13 b14 b15 : Nat) :
    xorState [a0, a1, a2, a3, a4, a5, a6, a7, a8, a9, a10, a11, a12, a13, a14, a15]
        [b0, b1, b2, b3, b4, b5, b6, b7, b8, b9, b10, b11, b12, b13, b14, b15] =
      [a0 ^^^ b0, a1 ^^^ b1, a2 ^^^ b2, a3 ^^^ b3, a4 ^^^ b4, a5 ^^^ b5, a6 ^^^ b6,
       a7 ^^^ b7, a8 ^^^ b8, a9 ^^^ b9, a10 ^^^ b10, a11 ^^^ b11, a12 ^^^ b12, a13 ^^^ b13,
       a14 ^^^ b14, a15 ^^^ b15] := rfl

theorem Mult3GF_xor (a b : Nat) : Mult3GF (a ^^^ b) = Mult3GF a ^^^ Mult3GF b := by
  unfold Mult3GF
  rw [Mult2GF_xor, xor_interchange]

theorem xor4_interchange (p1 q1 p2 q2 p3 q3 p4 q4 : Nat) :
    (p1 ^^^ q1) ^^^ (p2 ^^^ q2) ^^^ (p3 ^^^ q3) ^^^ (p4 ^^^ q4) =
      (p1 ^^^ p2 ^^^ p3 ^^^ p4) ^^^ (q1 ^^^ q2 ^^^ q3 ^^^ q4) := by
  simp only [Nat.xor_assoc, Nat.xor_comm, xor_left_comm]

theorem MixColumns_xorState (s t : List Nat) (hs : s.length = 16) (ht : t.length = 16) :
    MixColumns (xorState s t) = xorState (MixColumns s) (MixColumns t) := by
  obtain ⟨a0, a1, a2, a3, a4, a5, a6, a7, a8, a9, a10, a11, a12, a13, a14, a15, rfl⟩ :=
    list_length_16 s hs
  obtain ⟨b0, b1, b2, b3, b4, b5, b6, b7, b8, b9, b10, b11, b12, b13, b14, b15, rfl⟩ :=
    list_length_16 t ht
  rw [xorState_explicit, MixColumns_explicit, MixColumns_explicit, MixColumns_explicit,
    xorState_explicit]
  simp only [Mult2GF_xor, Mult3GF_xor, xor4_interchange]

theorem InvMixColumns_xorState (s t : List Nat) (hs : s.length = 16) (ht : t.length = 16) :
    InvMixColumns (xorState s t) = xorState (InvMixColumns s) (InvMixColumns t) := by
  obtain ⟨a0, a1, a2, a3, a4, a5, a6, a7, a8, a9, a10, a11, a12, a13, a14, a15, rfl⟩ :=
    list_length_16 s hs
  obtain ⟨b0, b1, b2, b3, b4, b5, b6, b7, b8, b9, b10, b11, b12, b13, b14, b15, rfl⟩ :=
    list_length_16 t ht
  rw [xorState_explicit, InvMixColumns_explicit, InvMixColumns_explicit,
    InvMixColumns_explicit, xorState_explicit]
  simp only [MultGF_xor_left, xor4_interchange]

/-! ## Byte substitution commutes with row rotation; the two S-boxes -/

theorem ShiftRows_SubBytes (T : AesTables) (s : List Nat) (hs : s.length = 16) :
    ShiftRows (SubBytes T s) = SubBytes T (ShiftRows s) := by
  obtain ⟨a0, a1, a2, a3, a4, a5, a6, a7, a8, a9, a10, a11, a12, a13, a14, a15, rfl⟩ :=
    list_length_16 s hs
  rw [SubBytes_explicit, ShiftRows_explicit, ShiftRows_explicit, SubBytes_explicit]

theorem InvShiftRows_InvSubBytes (T : AesTables) (s : List Nat) (hs : s.length = 16) :
    InvShiftRows (InvSubBytes T s) = InvSubBytes T (InvShiftRows s) := by
  obtain ⟨a0, a1, a2, a3, a4, a5, a6, a7, a8, a9, a10, a11, a12, a13, a14, a15, rfl⟩ :=
    list_length_16 s hs
  rw [InvSubBytes_explicit, InvShiftRows_explicit, InvShiftRows_explicit,
    InvSubBytes_explicit]

set_option maxRecDepth 100000 in
theorem aes_h_Sbox_InvSbox : ∀ x, x < 256 → aes_h.Sbox.getD (aes_h.InvSbox.getD x 0) 0 = x := by
  decide!

set_option maxRecDepth 100000 in
theorem aes_h_lengths : aes_h.Sbox.length = 256 ∧ aes_h.InvSbox.length = 256 := by
  decide!

/-! ## DES: complementing the block and the key complements the result -/

/-- XOR with the all-ones word of `n` bits is the complement within `n` bits. -/
theorem xor_ones (x n : Nat) (h : x < 2 ^ n) : x ^^^ (2 ^ n - 1) = 2 ^ n - 1 - x := by
  apply Nat.eq_of_testBit_eq
  intro j
  have e : 2 ^ n - 1 - x = 2 ^ n - (x + 1) := by omega
  rw [e, Nat.testBit_two_pow_sub_succ h, Nat.testBit_xor, Nat.testBit_two_pow_sub_one]
  by_cases hj : j < n
  · simp [hj]
  · rw [testBit_of_lt h (by omega)]
    simp [hj]

theorem xor_ones_lt (x n : Nat) (h : x < 2 ^ n) : x ^^^ (2 ^ n - 1) < 2 ^ n := by
  rw [xor_ones x n h]
  have : 0 < 2 ^ n := Nat.pow_pos (by decide)
  omega

set_option maxRecDepth 1000000 in
theorem des_h_perm_ones :
    do_perm (2 ^ 64 - 1) des_h.ip_table_c 64 64 = 2 ^ 64 - 1 ∧
    do_perm (2 ^ 64 - 1) des_h.fp_table_c 64 64 = 2 ^ 64 - 1 ∧
    do_perm (2 ^ 64 - 1) des_h.pc1_table_c 64 56 = 2 ^ 56 - 1 ∧
    do_perm (2 ^ 56 - 1) des_h.pc2_table_c 56 48 = 2 ^ 48 - 1 ∧
    do_perm (2 ^ 32 - 1) des_h.exp_table_c 32 48 = 2 ^ 48 - 1 := by
  decide!

theorem keyIdx_lt (T : DesTables) (mode n : Nat) : ∀ j, j < 56 → keyIdx T mode n j < 56 := by
  induction n with
  | zero => intro j hj; exact hj
  | succ n ih => intro j _; exact ih _ (rotIdx_lt _ _)

theorem keyState_cipher_compl (T : DesTables)
    (hr : ∀ i, i < 16 → T.encrypt_rotate_tab.getD i 0 ≤ 28) (k : Nat) (hk : k < 2 ^ 56)
    (n : Nat) (hn : n ≤ 16) :
    keyState T MODE_CIPHER (k ^^^ (2 ^ 56 - 1)) n =
      keyState T MODE_CIPHER k n ^^^ (2 ^ 56 - 1) := by
  apply Nat.eq_of_testBit_eq
  intro j
  rw [Nat.testBit_xor, keyState_testBit_cipher T _ (xor_ones_lt k 56 hk) hr n hn j,
    keyState_testBit_cipher T k hk hr n hn j, Nat.testBit_xor, Nat.testBit_two_pow_sub_one,
    Nat.testBit_two_pow_sub_one]
  by_cases hj : j < 56
  · have := keyIdx_lt T MODE_CIPHER n j hj
    simp [hj, this]
  · simp [hj]

theorem keyState_decipher_compl (T : DesTables)
    (hr : ∀ i, i < 16 → T.decrypt_rotate_tab.getD i 0 ≤ 28) (k : Nat) (hk : k < 2 ^ 56)
    (n : Nat) (hn : n ≤ 16) :
    keyState T MODE_DECIPHER (k ^^^ (2 ^ 56 - 1)) n =
      keyState T MODE_DECIPHER k n ^^^ (2 ^ 56 - 1) := by
  apply Nat.eq_of_testBit_eq
  intro j
  rw [Nat.testBit_xor, keyState_testBit_decipher T _ (xor_ones_lt k 56 hk) hr n hn j,
    keyState_testBit_decipher T k hk hr n hn j, Nat.testBit_xor, Nat.testBit_two_pow_sub_one,
    Nat.testBit_two_pow_sub_one]
  by_cases hj : j < 56
  · have := keyIdx_lt T MODE_DECIPHER n j hj
    simp [hj, this]
  · simp [hj]

/-- The subkeys of the complemented key are the complemented subkeys. -/
theorem des_h_subkey_compl (K mode i : Nat) (hm : mode = MODE_CIPHER ∨ mode = MODE_DECIPHER)
    (hi : i < 16) :
    (do_des_keys des_h (K ^^^ (2 ^ 64 - 1)) mode).2.getD i 0 =
      (do_des_keys des_h K mode).2.getD i 0 ^^^ (2 ^ 48 - 1) := by
  have hp : do_perm (K ^^^ (2 ^ 64 - 1)) des_h.pc1_table_c DATA_BIT_WIDTH PC1_BIT_WIDTH =
      do_perm K des_h.pc1_table_c DATA_BIT_WIDTH PC1_BIT_WIDTH ^^^ (2 ^ 56 - 1) := by
    rw [do_perm_xor]
    exact congrArg _ des_h_perm_ones.2.2.1
  have hk : do_perm K des_h.pc1_table_c DATA_BIT_WIDTH PC1_BIT_WIDTH < 2 ^ 56 :=
    do_perm_lt _ _ _ _
  have hc : ∀ x, do_perm (x ^^^ (2 ^ 56 - 1)) des_h.pc2_table_c KEY_BIT_WIDTH SUBKEY_BIT_WIDTH =
      do_perm x des_h.pc2_table_c KEY_BIT_WIDTH SUBKEY_BIT_WIDTH ^^^ (2 ^ 48 - 1) := by
    intro x
    rw [do_perm_xor]
    exact congrArg _ des_h_perm_ones.2.2.2.1
  rw [do_des_keys_getD des_h _ mode i hi, do_des_keys_getD des_h K mode i hi, hp]
  rcases hm with rfl | rfl
  · rw [keyState_cipher_compl des_h des_h_encrypt_rotate_le _ hk (i + 1) (by omega), hc]
  · rw [keyState_decipher_compl des_h des_h_decrypt_rotate_le _ hk (i + 1) (by omega), hc]

/-- The Feistel function does not change when both its input and its subkey are
complemented: the expansion of the complement is the complement of the expansion. -/
theorem des_h_feistel_compl (R k : Nat) :
    do_feistel des_h (R ^^^ (2 ^ 32 - 1)) (k ^^^ (2 ^ 48 - 1)) = do_feistel des_h R k := by
  have h : do_perm (R ^^^ (2 ^ 32 - 1)) des_h.exp_table_c DATA_BIT_WIDTH_2 EXP_BIT_WIDTH ^^^
      (k ^^^ (2 ^ 48 - 1)) =
      do_perm R des_h.exp_table_c DATA_BIT_WIDTH_2 EXP_BIT_WIDTH ^^^ k := by
    rw [do_perm_xor]
    have e : do_perm (2 ^ 32 - 1) des_h.exp_table_c DATA_BIT_WIDTH_2 EXP_BIT_WIDTH =
        2 ^ 48 - 1 := des_h_perm_ones.2.2.2.2
    rw [e]
    generalize do_perm R des_h.exp_table_c DATA_BIT_WIDTH_2 EXP_BIT_WIDTH = x
    generalize (2 ^ 48 - 1 : Nat) = m
    simp only [Nat.xor_assoc, Nat.xor_comm, xor_left_comm, Nat.xor_cancel_left, Nat.xor_self,
      Nat.xor_zero]
  unfold do_feistel
  simp only [h]

theorem do_round_lt (T : DesTables) (d k : Nat) (hd : d < 2 ^ 64) : do_round T d k < 2 ^ 64 := by
  obtain ⟨e, hX⟩ := do_round_halves T d k hd
  rw [e]
  have : d % 2 ^ 32 < 2 ^ 32 := Nat.mod_lt _ (Nat.pow_pos (by decide))
  omega

theorem do_round_compl (d k : Nat) (hd : d < 2 ^ 64) :
    do_round des_h (d ^^^ (2 ^ 64 - 1)) (k ^^^ (2 ^ 48 - 1)) =
      do_round des_h d k ^^^ (2 ^ 64 - 1) := by
  obtain ⟨e1, hX⟩ := do_round_halves des_h d k hd
  obtain ⟨e2, _⟩ := do_round_halves des_h (d ^^^ (2 ^ 64 - 1)) (k ^^^ (2 ^ 48 - 1))
    (xor_ones_lt d 64 hd)
  have hR : d % 2 ^ 32 < 2 ^ 32 := Nat.mod_lt _ (Nat.pow_pos (by decide))
  have hL : d / 2 ^ 32 < 2 ^ 32 := by omega
  have m1 : (d ^^^ (2 ^ 64 - 1)) % 2 ^ 32 = d % 2 ^ 32 ^^^ (2 ^ 32 - 1) := by
    rw [xor_ones d 64 hd, xor_ones _ 32 hR]
    omega
  have m2 : (d ^^^ (2 ^ 64 - 1)) / 2 ^ 32 = d / 2 ^ 32 ^^^ (2 ^ 32 - 1) := by
    rw [xor_ones d 64 hd, xor_ones _ 32 hL]
    omega
  rw [e2, m1, m2, des_h_feistel_compl, e1, ← Nat.xor_assoc]
  generalize do_feistel des_h (d % 2 ^ 32) k ^^^ d / 2 ^ 32 = X at hX ⊢
  generalize d % 2 ^ 32 = R at hR ⊢
  have hs : R * 2 ^ 32 + X < 2 ^ 64 := by omega
  rw [xor_ones R 32 hR, xor_ones X 32 hX, xor_ones _ 64 hs]
  omega

/-- The round loop on the complemented block under complemented subkeys. -/
theorem rounds_compl (x : Nat) (hx : x < 2 ^ 64) (sk sk2 : List Nat)
    (h : ∀ i, i < 16 → sk2.getD i 0 = sk.getD i 0 ^^^ (2 ^ 48 - 1)) (n : Nat) (hn : n ≤ 16) :
    forLoop (fun i d => do_round des_h d (sk2.getD i 0)) n (x ^^^ (2 ^ 64 - 1)) =
      forLoop (fun i d => do_round des_h d (sk.getD i 0)) n x ^^^ (2 ^ 64 - 1) ∧
    forLoop (fun i d => do_round des_h d (sk.getD i 0)) n x < 2 ^ 64 := by
  induction n with
  | zero => exact ⟨rfl, hx⟩
  | succ n ih =>
    obtain ⟨e, hlt⟩ := ih (by omega)
    rw [forLoop_succ, forLoop_succ, e, h n (by omega)]
    exact ⟨do_round_compl _ _ hlt, do_round_lt _ _ _ hlt⟩

theorem swap_halves_arith (x : Nat) (hx : x < 2 ^ 64) :
    swap_halves x = (x % 2 ^ 32) * 2 ^ 32 + x / 2 ^ 32 := by
  have hL : x / 2 ^ 32 < 2 ^ 32 := by omega
  have e : swap_halves x =
      (u32 (x &&& DATA_BIT_WIDTH_2_MASK) <<< DATA_BIT_WIDTH_2) |||
        u32 (x >>> DATA_BIT_WIDTH_2) := rfl
  rw [e, u32_and_mask32, u32_shr_32 x hx]
  exact shl_or_eq_mul_add _ _ 32 hL

theorem swap_halves_compl (x : Nat) (hx : x < 2 ^ 64) :
    swap_halves (x ^^^ (2 ^ 64 - 1)) = swap_halves x ^^^ (2 ^ 64 - 1) := by
  rw [swap_halves_arith _ (xor_ones_lt x 64 hx), swap_halves_arith x hx,
    xor_ones x 64 hx, xor_ones _ 64 (by omega)]
  omega

theorem des_h_data_compl (P : Nat) (sk sk2 : List Nat)
    (h : ∀ i, i < 16 → sk2.getD i 0 = sk.getD i 0 ^^^ (2 ^ 48 - 1)) :
    do_des_data des_h (P ^^^ (2 ^ 64 - 1)) sk2 = do_des_data des_h P sk ^^^ (2 ^ 64 - 1) := by
  have hip : do_perm (P ^^^ (2 ^ 64 - 1)) des_h.ip_table_c DATA_BIT_WIDTH IP_BIT_WIDTH =
      do_perm P des_h.ip_table_c DATA_BIT_WIDTH IP_BIT_WIDTH ^^^ (2 ^ 64 - 1) := by
    rw [do_perm_xor]
    exact congrArg _ des_h_perm_ones.1
  have hfp : ∀ y, do_perm (y ^^^ (2 ^ 64 - 1)) des_h.fp_table_c DATA_BIT_WIDTH FP_BIT_WIDTH =
      do_perm y des_h.fp_table_c DATA_BIT_WIDTH FP_BIT_WIDTH ^^^ (2 ^ 64 - 1) := by
    intro y
    rw [do_perm_xor]
    exact congrArg _ des_h_perm_ones.2.1
  have hlt0 : do_perm P des_h.ip_table_c DATA_BIT_WIDTH IP_BIT_WIDTH < 2 ^ 64 :=
    do_perm_lt _ _ _ _
  obtain ⟨e, hlt⟩ := rounds_compl _ hlt0 sk sk2 h 16 (Nat.le_refl _)
  unfold do_des_data
  dsimp only
  rw [hip]
  show do_perm (swap_halves (forLoop (fun i d => do_round des_h d (sk2.getD i 0)) 16 _)) _ _ _ =
    do_perm (swap_halves (forLoop (fun i d => do_round des_h d (sk.getD i 0)) 16 _)) _ _ _ ^^^ _
  rw [e, swap_halves_compl _ hlt, hfp]

/-- DES complementation for the tables `des_h`. -/
theorem des_h_complementation (P K mode : Nat)
    (hm : mode = MODE_CIPHER ∨ mode = MODE_DECIPHER) :
    do_des des_h (P ^^^ (2 ^ 64 - 1)) (K ^^^ (2 ^ 64 - 1)) mode =
      do_des des_h P K mode ^^^ (2 ^ 64 - 1) :=
  des_h_data_compl P _ _ (fun i hi => des_h_subkey_compl K mode i hm hi)

theorem do_des_lt (T : DesTables) (P K mode : Nat) : do_des T P K mode < 2 ^ 64 :=
  do_perm_lt _ _ _ _

/-! ## The claims -/

theorem storeState_buffer (s o1 o2 : List Nat) (hs : s.length = 16) (h1 : o1.length = 16)
    (h2 : o2.length = 16) : storeState s o1 = storeState s o2 := by
  obtain ⟨a0, a1, a2, a3, a4, a5, a6, a7, a8, a9, a10, a11, a12, a13, a14, a15, rfl⟩ :=
    list_length_16 s hs
  obtain ⟨b0, b1, b2, b3, b4, b5, b6, b7, b8, b9, b10, b11, b12, b13, b14, b15, rfl⟩ :=
    list_length_16 o1 h1
  obtain ⟨c0, c1, c2, c3, c4, c5, c6, c7, c8, c9, c10, c11, c12, c13, c14, c15, rfl⟩ :=
    list_length_16 o2 h2
  rw [storeState_explicit, storeState_explicit]

set_option maxRecDepth 1000000 in
theorem aes_h_vector :
    Cipher aes_h
      [0x00, 0x11, 0x22, 0x33, 0x44, 0x55, 0x66, 0x77,
       0x88, 0x99, 0xaa, 0xbb, 0xcc, 0xdd, 0xee, 0xff]
      (List.replicate 16 0)
      (KeyExpansion aes_h [0, 1, 2, 3, 4, 5, 6, 7, 8, 9, 10, 11, 12, 13, 14, 15]
        (List.replicate 176 0)) =
      [0x69, 0xc4, 0xe0, 0xd8, 0x6a, 0x7b, 0x04, 0x30,
       0xd8, 0xcd, 0xb7, 0x80, 0x70, 0xb4, 0xc5, 0x5a] := by
  decide!

set_option maxRecDepth 1000000 in
theorem des_h_vector :
    do_des des_h 0x0123456789ABCDEF 0x133457799BBCDFF1 MODE_CIPHER = 0x85E813540F0AB405 := by
  decide!

theorem loadState_length (p : List Nat) : (loadState p).length = 16 := by
  simp [loadState, forLoop_succ, forLoop_zero, set2, Nb]

theorem SubBytes_length (T : AesTables) (s : List Nat) (h : s.length = 16) :
    (SubBytes T s).length = 16 := by
  obtain ⟨a0, a1, a2, a3, a4, a5, a6, a7, a8, a9, a10, a11, a12, a13, a14, a15, rfl⟩ :=
    list_length_16 s h
  rw [SubBytes_explicit]
  rfl

theorem ShiftRows_length (s : List Nat) (h : s.length = 16) : (ShiftRows s).length = 16 := by
  obtain ⟨a0, a1, a2, a3, a4, a5, a6, a7, a8, a9, a10, a11, a12, a13, a14, a15, rfl⟩ :=
    list_length_16 s h
  rw [ShiftRows_explicit]
  rfl

theorem MixColumns_length (s : List Nat) (h : s.length = 16) : (MixColumns s).length = 16 := by
  obtain ⟨a0, a1, a2, a3, a4, a5, a6, a7, a8, a9, a10, a11, a12, a13, a14, a15, rfl⟩ :=
    list_length_16 s h
  rw [MixColumns_explicit]
  rfl

theorem Cipher_loop_length (T : AesTables) (w s : List Nat) (h : s.length = 16) (n : Nat) :
    (forLoop (fun k state => Cipher_round T w (k + 1) state) n s).length = 16 := by
  induction n with
  | zero => rw [forLoop_zero]; exact h
  | succ n ih =>
    rw [forLoop_succ]
    dsimp only [Cipher_round]
    exact AddRoundKey_length _ _ _
      (MixColumns_length _ (ShiftRows_length _ (SubBytes_length T _ ih)))

/-- The result of `Cipher` does not depend on the previous content of `dat_o`. -/
theorem Cipher_buffer (T : AesTables) (p o1 o2 w : List Nat) (h1 : o1.length = 16)
    (h2 : o2.length = 16) : Cipher T p o1 w = Cipher T p o2 w := by
  dsimp only [Cipher]
  exact storeState_buffer _ o1 o2
    (AddRoundKey_length _ _ _ (ShiftRows_length _ (SubBytes_length T _
      (Cipher_loop_length T w _ (AddRoundKey_length _ _ _ (loadState_length p)) _)))) h1 h2

/-- Claim C1. AES round trip: for every 16-byte plaintext `P` and 16-byte key `K`,
deciphering with `InvCipher` what `Cipher` produced under the schedule
`KeyExpansion K` gives `P` back, for the FIPS-197 tables `aes_h` and whatever the
previous contents of the output buffers `o1`, `o2` and of the schedule buffer `w0`. -/
theorem aes_round_trip (P K o1 o2 w0 : List Nat) (hP : ByteList 16 P) (hK : ByteList 16 K)
    (ho1 : o1.length = 16) (ho2 : o2.length = 16) (hw0 : w0.length = 176) :
    InvCipher aes_h (Cipher aes_h P o1 (KeyExpansion aes_h K w0)) o2
      (KeyExpansion aes_h K w0) = P :=
  InvCipher_Cipher aes_h aes_h_Sbox_byte aes_h_InvSbox_Sbox _
    (KeyExpansion_bytes aes_h aes_h_Sbox_byte aes_h_Rcon_byte K w0 hK.2 hw0) P o1 o2 hP ho1 ho2

theorem aes_round_trip_witness :
    InvCipher aes_h
      (Cipher aes_h [1, 2, 3, 4, 5, 6, 7, 8, 9, 10, 11, 12, 13, 14, 15, 255]
        (List.replicate 16 0)
        (KeyExpansion aes_h [0, 1, 2, 3, 4, 5, 6, 7, 8, 9, 10, 11, 12, 13, 14, 15]
          (List.replicate 176 0)))
      (List.replicate 16 0)
      (KeyExpansion aes_h [0, 1, 2, 3, 4, 5, 6, 7, 8, 9, 10, 11, 12, 13, 14, 15]
        (List.replicate 176 0)) =
      [1, 2, 3, 4, 5, 6, 7, 8, 9, 10, 11, 12, 13, 14, 15, 255] :=
  aes_round_trip [1, 2, 3, 4, 5, 6, 7, 8, 9, 10, 11, 12, 13, 14, 15, 255]
    [0, 1, 2, 3, 4, 5, 6, 7, 8, 9, 10, 11, 12, 13, 14, 15]
    (List.replicate 16 0) (List.replicate 16 0) (List.replicate 176 0)
    ⟨rfl, by decide⟩ ⟨rfl, by decide⟩ rfl rfl rfl

/-- Claim C3. AES known vector (FIPS-197): with key bytes 00 01 .. 0f and plaintext bytes
00 11 .. ff, `Cipher` under the schedule of `KeyExpansion` yields
69 c4 e0 d8 6a 7b 04 30 d8 cd b7 80 70 b4 c5 5a, whatever the previous contents of the
output buffer and of the schedule buffer. -/
theorem aes_known_vector (dat_o w0 : List Nat) (ho : dat_o.length = 16)
    (hw0 : w0.length = 176) :
    Cipher aes_h
      [0x00, 0x11, 0x22, 0x33, 0x44, 0x55, 0x66, 0x77,
       0x88, 0x99, 0xaa, 0xbb, 0xcc, 0xdd, 0xee, 0xff]
      dat_o
      (KeyExpansion aes_h [0, 1, 2, 3, 4, 5, 6, 7, 8, 9, 10, 11, 12, 13, 14, 15] w0) =
      [0x69, 0xc4, 0xe0, 0xd8, 0x6a, 0x7b, 0x04, 0x30,
       0xd8, 0xcd, 0xb7, 0x80, 0x70, 0xb4, 0xc5, 0x5a] := by
  rw [KeyExpansion_buffer aes_h _ w0 (List.replicate 176 0) hw0 rfl,
    Cipher_buffer aes_h _ dat_o (List.replicate 16 0) _ ho rfl]
  exact aes_h_vector

theorem aes_known_vector_witness :
    Cipher aes_h
      [0x00, 0x11, 0x22, 0x33, 0x44, 0x55, 0x66, 0x77,
       0x88, 0x99, 0xaa, 0xbb, 0xcc, 0xdd, 0xee, 0xff]
      (List.replicate 16 0xff)
      (KeyExpansion aes_h [0, 1, 2, 3, 4, 5, 6, 7, 8, 9, 10, 11, 12, 13, 14, 15]
        (List.replicate 176 0xff)) =
      [0x69, 0xc4, 0xe0, 0xd8, 0x6a, 0x7b, 0x04, 0x30,
       0xd8, 0xcd, 0xb7, 0x80, 0x70, 0xb4, 0xc5, 0x5a] :=
  aes_known_vector (List.replicate 16 0xff) (List.replicate 176 0xff) rfl rfl

/-- Claim C4. DES known vector: `do_des` in `MODE_CIPHER` maps the block
0x0123456789ABCDEF under the key 0x133457799BBCDFF1 to 0x85E813540F0AB405 (block and key
as 64-bit word values, table position 1 being the most significant bit). -/
theorem des_known_vector :
    do_des des_h 0x0123456789ABCDEF 0x133457799BBCDFF1 MODE_CIPHER = 0x85E813540F0AB405 :=
  des_h_vector

/-- Claim C6. For every byte `a` (indeed every value of `a`), `MultGF a 1 = a` and
`MultGF a 0 = 0`. -/
theorem MultGF_one_zero (a : Nat) : MultGF a 1 = a ∧ MultGF a 0 = 0 := by
  constructor
  · rw [MultGF_eq, MultGF_fold_false a 1 7 (by decide), MultGF_fold_false a 1 6 (by decide),
      MultGF_fold_false a 1 5 (by decide), MultGF_fold_false a 1 4 (by decide),
      MultGF_fold_false a 1 3 (by decide), MultGF_fold_false a 1 2 (by decide),
      MultGF_fold_false a 1 1 (by decide), MultGF_fold_true a 1 0 (by decide), forLoop_zero,
      Function.iterate_zero, id_eq, Nat.zero_xor]
  · rw [MultGF_eq, MultGF_fold_false a 0 7 (by decide), MultGF_fold_false a 0 6 (by decide),
      MultGF_fold_false a 0 5 (by decide), MultGF_fold_false a 0 4 (by decide),
      MultGF_fold_false a 0 3 (by decide), MultGF_fold_false a 0 2 (by decide),
      MultGF_fold_false a 0 1 (by decide), MultGF_fold_false a 0 0 (by decide), forLoop_zero]

/-- Claim C7. `MultGF` is multiplication in GF(2^8): for all bytes `a` and `b`,
`MultGF a b` is the carry-less product `polyMul a b` of `a` and `b` reduced modulo
`x^8 + x^4 + x^3 + x + 1` (0x11B), the remainder `polyMod11B` of the long division. -/
theorem MultGF_is_gf256_product (a b : Nat) (ha : a < 256) (hb : b < 256) :
    MultGF a b = polyMod11B (polyMul a b) := by
  obtain ⟨q, hq, e⟩ := MultGF_loop_quot a b ha 8 (Nat.le_refl _)
  rw [polyMul_byte a b hb, ← e, ← MultGF_eq,
    polyMod11B_unique q (MultGF a b) hq (MultGF_lt a b ha)]

theorem MultGF_is_gf256_product_witness :
    0x57 < 256 ∧ 0x83 < 256 ∧ MultGF 0x57 0x83 = polyMod11B (polyMul 0x57 0x83) :=
  ⟨by decide, by decide, MultGF_is_gf256_product 0x57 0x83 (by decide) (by decide)⟩

/-- Claim C8. Bit selection of `do_perm`: for every `data`, every `sizeIn <= 64`,
`sizeOut <= 64` and every table whose first `sizeOut` entries lie in `1..sizeIn`, for each
`i` in `0..sizeOut-1` bit `sizeOut - 1 - i` of the result equals bit `sizeIn - table[i]` of
`data` (bit 0 being the least significant). -/
theorem do_perm_bit_selection (data : Nat) (table : List Nat) (sizeIn sizeOut : Nat)
    (hin : sizeIn ≤ 64) (hout : sizeOut ≤ 64)
    (htab : ∀ i, i < sizeOut → 1 ≤ table.getD i 0 ∧ table.getD i 0 ≤ sizeIn)
    (i : Nat) (hi : i < sizeOut) :
    (do_perm data table sizeIn sizeOut).testBit (sizeOut - 1 - i) =
      data.testBit (sizeIn - table.getD i 0) := by
  rw [do_perm_testBit]
  have e : sizeOut - 1 - (sizeOut - 1 - i) = i := by omega
  have h : sizeOut - 1 - i < sizeOut := by omega
  rw [e, u32_wrap_sub _ _ (htab i hi).2 (by omega)]
  simp [h]

theorem do_perm_bit_selection_witness :
    (do_perm 0b1010 [2, 1, 4, 3] 4 4).testBit (4 - 1 - 0) =
      (0b1010 : Nat).testBit (4 - [2, 1, 4, 3].getD 0 0) :=
  do_perm_bit_selection 0b1010 [2, 1, 4, 3] 4 4 (by decide) (by decide) (by decide) 0
    (by decide)

/-- Claim C9. With the 4-bit reversal table `[4, 3, 2, 1]` and both sizes 4, `do_perm`
returns for every `data` its low 4 bits in reversed order (output bit `j` is input bit
`3 - j` for `j` in `0..3`; 0b0011 gives 0b1100) and nothing above bit 3. -/
theorem do_perm_reversal4 (data : Nat) :
    (∀ j, j < 4 → (do_perm data [4, 3, 2, 1] 4 4).testBit j = data.testBit (3 - j)) ∧
    (∀ j, 4 ≤ j → (do_perm data [4, 3, 2, 1] 4 4).testBit j = false) ∧
    do_perm data [4, 3, 2, 1] 4 4 < 2 ^ 4 ∧
    do_perm 0b0011 [4, 3, 2, 1] 4 4 = 0b1100 := by
  refine ⟨?_, ?_, do_perm_lt _ _ _ _, by decide⟩
  · intro j hj
    rw [do_perm_testBit]
    have : j = 0 ∨ j = 1 ∨ j = 2 ∨ j = 3 := by omega
    rcases this with h | h | h | h <;> subst h <;> simp [u32]
  · intro j hj
    exact testBit_of_lt (do_perm_lt _ _ _ _) hj

/-- Claim C10. `KeyExpansion` is a pure function of the key: for every key and any two
initial contents `w1`, `w2` of the 4x44 schedule buffer the schedule left by `KeyExpansion`
is the same, so calling it a second time with the same key, on the buffer the first call
left, yields the identical schedule. -/
theorem KeyExpansion_pure (T : AesTables) (key w1 w2 : List Nat) (h1 : w1.length = 176)
    (h2 : w2.length = 176) :
    KeyExpansion T key w1 = KeyExpansion T key w2 ∧
    KeyExpansion T key (KeyExpansion T key w1) = KeyExpansion T key w1 :=
  ⟨KeyExpansion_buffer T key w1 w2 h1 h2,
   KeyExpansion_buffer T key _ w1 (KeyExpansion_length T key w1 h1) h1⟩

theorem KeyExpansion_pure_witness :
    KeyExpansion aes_h [0, 1, 2, 3, 4, 5, 6, 7, 8, 9, 10, 11, 12, 13, 14, 15]
        (List.replicate 176 0) =
      KeyExpansion aes_h [0, 1, 2, 3, 4, 5, 6, 7, 8, 9, 10, 11, 12, 13, 14, 15]
        (List.replicate 176 0xff) ∧
    KeyExpansion aes_h [0, 1, 2, 3, 4, 5, 6, 7, 8, 9, 10, 11, 12, 13, 14, 15]
        (KeyExpansion aes_h [0, 1, 2, 3, 4, 5, 6, 7, 8, 9, 10, 11, 12, 13, 14, 15]
          (List.replicate 176 0)) =
      KeyExpansion aes_h [0, 1, 2, 3, 4, 5, 6, 7, 8, 9, 10, 11, 12, 13, 14, 15]
        (List.replicate 176 0) :=
  KeyExpansion_pure aes_h [0, 1, 2, 3, 4, 5, 6, 7, 8, 9, 10, 11, 12, 13, 14, 15]
    (List.replicate 176 0) (List.replicate 176 0xff) rfl rfl

/-- Claim C11. `KeyExpansion` computes the FIPS-197 AES-128 schedule: in the schedule `W`
it leaves, word `i` (bytes `W[0][i]..W[3][i]`) is key bytes `4i..4i+3` for `i` in 0..3; for
`i` in 4..43 not a multiple of 4 it is word `i-4` XOR word `i-1`; for `i` in 4..43 a
multiple of 4 it is word `i-4` XOR `t`, where `t` is word `i-1` rotated left by one byte,
each byte passed through `Sbox`, and its first byte XORed with `Rcon[i/4]`, the index `i/4`
lying in 1..10. -/
theorem KeyExpansion_fips197_words (T : AesTables) (key w0 : List Nat)
    (hw : w0.length = 176) :
    (∀ i j, i < 4 → j < 4 →
      get2 44 (KeyExpansion T key w0) j i = key.getD (4 * i + j) 0) ∧
    (∀ i j, 4 ≤ i → i < 44 → i % 4 ≠ 0 → j < 4 →
      get2 44 (KeyExpansion T key w0) j i =
        get2 44 (KeyExpansion T key w0) j (i - 4) ^^^
          get2 44 (KeyExpansion T key w0) j (i - 1)) ∧
    (∀ i, 4 ≤ i → i < 44 → i % 4 = 0 →
      1 ≤ i / 4 ∧ i / 4 ≤ 10 ∧
      get2 44 (KeyExpansion T key w0) 0 i =
        get2 44 (KeyExpansion T key w0) 0 (i - 4) ^^^
          (T.Sbox.getD (get2 44 (KeyExpansion T key w0) 1 (i - 1)) 0 ^^^
            T.Rcon.getD (i / 4) 0) ∧
      get2 44 (KeyExpansion T key w0) 1 i =
        get2 44 (KeyExpansion T key w0) 1 (i - 4) ^^^
          T.Sbox.getD (get2 44 (KeyExpansion T key w0) 2 (i - 1)) 0 ∧
      get2 44 (KeyExpansion T key w0) 2 i =
        get2 44 (KeyExpansion T key w0) 2 (i - 4) ^^^
          T.Sbox.getD (get2 44 (KeyExpansion T key w0) 3 (i - 1)) 0 ∧
      get2 44 (KeyExpansion T key w0) 3 i =
        get2 44 (KeyExpansion T key w0) 3 (i - 4) ^^^
          T.Sbox.getD (get2 44 (KeyExpansion T key w0) 0 (i - 1)) 0) := by
  obtain ⟨_, h⟩ := KeyExpansion_spec T key w0 hw
  refine ⟨?_, ?_, ?_⟩
  · intro i j hi hj
    rw [h j i hj (by omega), if_pos hi]
  · intro i j h4 h44 hm hj
    have : ¬ i < 4 := by omega
    rw [h j i hj h44, if_neg this, KeyExpansion_val_plain T i _ hm j hj]
  · intro i h4 h44 hm
    have hn : ¬ i < 4 := by omega
    obtain ⟨e0, e1, e2, e3⟩ := KeyExpansion_val_rot T i (KeyExpansion T key w0) hm
    refine ⟨by omega, by omega, ?_, ?_, ?_, ?_⟩
    · rw [h 0 i (by decide) h44, if_neg hn, e0]
    · rw [h 1 i (by decide) h44, if_neg hn, e1]
    · rw [h 2 i (by decide) h44, if_neg hn, e2]
    · rw [h 3 i (by decide) h44, if_neg hn, e3]

theorem KeyExpansion_fips197_words_witness :
    get2 44 (KeyExpansion aes_h [0, 1, 2, 3, 4, 5, 6, 7, 8, 9, 10, 11, 12, 13, 14, 15]
        (List.replicate 176 0)) 2 5 =
      get2 44 (KeyExpansion aes_h [0, 1, 2, 3, 4, 5, 6, 7, 8, 9, 10, 11, 12, 13, 14, 15]
        (List.replicate 176 0)) 2 (5 - 4) ^^^
      get2 44 (KeyExpansion aes_h [0, 1, 2, 3, 4, 5, 6, 7, 8, 9, 10, 11, 12, 13, 14, 15]
        (List.replicate 176 0)) 2 (5 - 1) :=
  (KeyExpansion_fips197_words aes_h [0, 1, 2, 3, 4, 5, 6, 7, 8, 9, 10, 11, 12, 13, 14, 15]
    (List.replicate 176 0) rfl).2.1 5 2 (by decide) (by decide) (by decide) (by decide)

/-- Claim C12. `MixColumns` is the GF(2^8) matrix product with the circulant matrix of first
row (2,3,1,1): for every byte state `s`, row `r` and column `c`, entry `[r][c]` of
`MixColumns s` is the XOR over `k` in 0..3 of `MultGF (M[r][k]) (s[k][c])`, where
`M[r][k] = mixCoef r k` is entry `(k - r) mod 4` of (2,3,1,1). -/
theorem MixColumns_is_matrix_product (s : List Nat) (hs : ByteList 16 s) (r c : Nat)
    (hr : r < 4) (hc : c < 4) :
    get2 Nb (MixColumns s) r c =
      MultGF (mixCoef r 0) (get2 Nb s 0 c) ^^^ MultGF (mixCoef r 1) (get2 Nb s 1 c) ^^^
        MultGF (mixCoef r 2) (get2 Nb s 2 c) ^^^ MultGF (mixCoef r 3) (get2 Nb s 3 c) :=
  MixColumns_entry s hs r c hr hc

theorem MixColumns_is_matrix_product_witness :
    get2 Nb (MixColumns [219, 242, 1, 198, 19, 10, 1, 198, 83, 34, 1, 198, 69, 92, 1, 198])
        1 0 =
      MultGF (mixCoef 1 0)
          (get2 Nb [219, 242, 1, 198, 19, 10, 1, 198, 83, 34, 1, 198, 69, 92, 1, 198] 0 0) ^^^
        MultGF (mixCoef 1 1)
          (get2 Nb [219, 242, 1, 198, 19, 10, 1, 198, 83, 34, 1, 198, 69, 92, 1, 198] 1 0) ^^^
        MultGF (mixCoef 1 2)
          (get2 Nb [219, 242, 1, 198, 19, 10, 1, 198, 83, 34, 1, 198, 69, 92, 1, 198] 2 0) ^^^
        MultGF (mixCoef 1 3)
          (get2 Nb [219, 242, 1, 198, 19, 10, 1, 198, 83, 34, 1, 198, 69, 92, 1, 198] 3 0) :=
  MixColumns_is_matrix_product
    [219, 242, 1, 198, 19, 10, 1, 198, 83, 34, 1, 198, 69, 92, 1, 198]
    ⟨rfl, by decide⟩ 1 0 (by decide) (by decide)

/-- Claim C13. `InvMixColumns` is the two-sided inverse of `MixColumns`: for every 4x4
state `s`, `InvMixColumns (MixColumns s) = s` and `MixColumns (InvMixColumns s) = s`. -/
theorem InvMixColumns_two_sided_inverse (s : List Nat) (hs : s.length = 16) :
    InvMixColumns (MixColumns s) = s ∧ MixColumns (InvMixColumns s) = s :=
  ⟨InvMixColumns_MixColumns s hs, MixColumns_InvMixColumns s hs⟩

theorem InvMixColumns_two_sided_inverse_witness :
    InvMixColumns
        (MixColumns [219, 242, 1, 198, 19, 10, 1, 198, 83, 34, 1, 198, 69, 92, 1, 198]) =
      [219, 242, 1, 198, 19, 10, 1, 198, 83, 34, 1, 198, 69, 92, 1, 198] ∧
    MixColumns
        (InvMixColumns [219, 242, 1, 198, 19, 10, 1, 198, 83, 34, 1, 198, 69, 92, 1, 198]) =
      [219, 242, 1, 198, 19, 10, 1, 198, 83, 34, 1, 198, 69, 92, 1, 198] :=
  InvMixColumns_two_sided_inverse
    [219, 242, 1, 198, 19, 10, 1, 198, 83, 34, 1, 198, 69, 92, 1, 198] rfl

/-- Claim C14. `ShiftRows` rotates row `r` left by `r` positions: for every state `s`, `r`
in 0..3 and `c` in 0..3, entry `[r][c]` of `ShiftRows s` is `s[r][(c + r) mod 4]`. -/
theorem ShiftRows_rotates_left (s : List Nat) (hs : s.length = 16) (r c : Nat) (hr : r < 4)
    (hc : c < 4) : get2 Nb (ShiftRows s) r c = get2 Nb s r ((c + r) % 4) :=
  ShiftRows_entry s hs r c hr hc

theorem ShiftRows_rotates_left_witness :
    get2 Nb (ShiftRows [0, 1, 2, 3, 4, 5, 6, 7, 8, 9, 10, 11, 12, 13, 14, 15]) 3 2 =
      get2 Nb [0, 1, 2, 3, 4, 5, 6, 7, 8, 9, 10, 11, 12, 13, 14, 15] 3 ((2 + 3) % 4) :=
  ShiftRows_rotates_left [0, 1, 2, 3, 4, 5, 6, 7, 8, 9, 10, 11, 12, 13, 14, 15] rfl 3 2
    (by decide) (by decide)

/-- Claim C15. `InvShiftRows` rotates row `r` right by `r` positions and so undoes
`ShiftRows`: for every state `s`, entry `[r][c]` of `InvShiftRows s` is
`s[r][(c - r) mod 4]`, and `InvShiftRows (ShiftRows s) = s`,
`ShiftRows (InvShiftRows s) = s`. -/
theorem InvShiftRows_rotates_right (s : List Nat) (hs : s.length = 16) :
    (∀ r c, r < 4 → c < 4 →
      get2 Nb (InvShiftRows s) r c = get2 Nb s r ((c + 4 - r) % 4)) ∧
    InvShiftRows (ShiftRows s) = s ∧ ShiftRows (InvShiftRows s) = s :=
  ⟨fun r c hr hc => InvShiftRows_entry s hs r c hr hc, InvShiftRows_ShiftRows s hs,
    ShiftRows_InvShiftRows s hs⟩

theorem InvShiftRows_rotates_right_witness :
    get2 Nb (InvShiftRows [0, 1, 2, 3, 4, 5, 6, 7, 8, 9, 10, 11, 12, 13, 14, 15]) 1 0 =
      get2 Nb [0, 1, 2, 3, 4, 5, 6, 7, 8, 9, 10, 11, 12, 13, 14, 15] 1 ((0 + 4 - 1) % 4) :=
  (InvShiftRows_rotates_right [0, 1, 2, 3, 4, 5, 6, 7, 8, 9, 10, 11, 12, 13, 14, 15] rfl).1
    1 0 (by decide) (by decide)

/-- Claim C16. The DES data path is its own inverse under reversed subkeys: for every
64-bit block `d` and every sequence `sk` of 16 subkeys, running the data path of `do_des`
(initial permutation, 16 `do_round` calls, swap of the halves, final permutation) with
`sk` and then on the result with `sk` reversed returns `d`, for the tables `des_h`. -/
theorem des_data_path_self_inverse (d : Nat) (hd : d < 2 ^ 64) (sk : List Nat)
    (hsk : sk.length = 16) :
    do_des_data des_h (do_des_data des_h d sk) sk.reverse = d :=
  do_des_data_reverse des_h des_h_fp_ip des_h_ip_fp d hd sk sk.reverse
    (fun i hi => getD_reverse_16 sk hsk i hi)

theorem des_data_path_self_inverse_witness :
    do_des_data des_h
        (do_des_data des_h 0x0123456789ABCDEF
          [1, 2, 3, 4, 5, 6, 7, 8, 9, 10, 11, 12, 13, 14, 15, 16])
        [1, 2, 3, 4, 5, 6, 7, 8, 9, 10, 11, 12, 13, 14, 15, 16].reverse =
      0x0123456789ABCDEF :=
  des_data_path_self_inverse 0x0123456789ABCDEF (by decide)
    [1, 2, 3, 4, 5, 6, 7, 8, 9, 10, 11, 12, 13, 14, 15, 16] rfl

/-- Claim C17. DES encrypt key-schedule step: for every `key56 < 2^56` and round `i` in
0..15, `do_key` in `MODE_CIPHER` replaces `key56` by the word whose upper and lower 28-bit
halves are the old halves each rotated left within 28 bits by `s_i`, where
`(s_0..s_15) = (1,1,2,2,2,2,2,2,1,2,2,2,2,2,2,1)` is the encrypt table of `des_h`, and
returns `do_perm` of the new `key56` under PC2 (56 to 48). -/
theorem do_key_encrypt_step (key56 i : Nat) (hk : key56 < 2 ^ 56) (hi : i < 16) :
    des_h.encrypt_rotate_tab = [1, 1, 2, 2, 2, 2, 2, 2, 1, 2, 2, 2, 2, 2, 2, 1] ∧
    (do_key des_h key56 i MODE_CIPHER).1 =
      rotate_left_28 (key56 / 2 ^ 28)
          ([1, 1, 2, 2, 2, 2, 2, 2, 1, 2, 2, 2, 2, 2, 2, 1].getD i 0) * 2 ^ 28 +
        rotate_left_28 (key56 % 2 ^ 28)
          ([1, 1, 2, 2, 2, 2, 2, 2, 1, 2, 2, 2, 2, 2, 2, 1].getD i 0) ∧
    (do_key des_h key56 i MODE_CIPHER).2 =
      do_perm (do_key des_h key56 i MODE_CIPHER).1 des_h.pc2_table_c 56 48 :=
  ⟨rfl, do_key_cipher_rotate des_h key56 i hk (des_h_encrypt_rotate_le i hi), rfl⟩

theorem do_key_encrypt_step_witness :
    (do_key des_h 0x00F0CCAA0AACCF00 2 MODE_CIPHER).2 =
      do_perm (do_key des_h 0x00F0CCAA0AACCF00 2 MODE_CIPHER).1 des_h.pc2_table_c 56 48 :=
  (do_key_encrypt_step 0x00F0CCAA0AACCF00 2 (by decide) (by decide)).2.2

/-- Claim C18. DES round: for every 64-bit `data` with halves `L = data / 2^32` (upper) and
`R = data mod 2^32` (lower) and every subkey `k`, `do_round` leaves the word whose upper
half is `R` and whose lower half is `do_feistel R k XOR L`. -/
theorem do_round_feistel_step (T : DesTables) (data k : Nat) (hd : data < 2 ^ 64) :
    do_round T data k =
      (data % 2 ^ 32) * 2 ^ 32 + (do_feistel T (data % 2 ^ 32) k ^^^ (data / 2 ^ 32)) ∧
    do_round T data k / 2 ^ 32 = data % 2 ^ 32 ∧
    do_round T data k % 2 ^ 32 = do_feistel T (data % 2 ^ 32) k ^^^ (data / 2 ^ 32) := by
  obtain ⟨e, hX⟩ := do_round_halves T data k hd
  refine ⟨e, ?_, ?_⟩
  · rw [e, Nat.mul_comm, Nat.mul_add_div (Nat.pow_pos (by decide)), Nat.div_eq_of_lt hX,
      Nat.add_zero]
  · rw [e, Nat.mul_comm, Nat.mul_add_mod, Nat.mod_eq_of_lt hX]

theorem do_round_feistel_step_witness :
    do_round des_h 0x0123456789ABCDEF 5 / 2 ^ 32 = 0x0123456789ABCDEF % 2 ^ 32 :=
  (do_round_feistel_step des_h 0x0123456789ABCDEF 5 (by decide)).2.1

/-- The `n`-th nibble from the most significant end of `sbox_word` is the entry of S-box
`n`. -/
theorem sbox_word_nibble (T : DesTables) (hS : ∀ n idx, (des_sbox T n).getD idx 0 < 16)
    (x n : Nat) (h1 : 1 ≤ n) (h8 : n ≤ 8) :
    sbox_word T x / 2 ^ (4 * (8 - n)) % 16 = (des_sbox T n).getD (sbox_address x n) 0 := by
  have b1 := hS 1 (sbox_address x 1)
  have b2 := hS 2 (sbox_address x 2)
  have b3 := hS 3 (sbox_address x 3)
  have b4 := hS 4 (sbox_address x 4)
  have b5 := hS 5 (sbox_address x 5)
  have b6 := hS 6 (sbox_address x 6)
  have b7 := hS 7 (sbox_address x 7)
  have b8 := hS 8 (sbox_address x 8)
  interval_cases n <;>
  · unfold sbox_word
    generalize (des_sbox T 1).getD (sbox_address x 1) 0 = s1 at b1 ⊢
    generalize (des_sbox T 2).getD (sbox_address x 2) 0 = s2 at b2 ⊢
    generalize (des_sbox T 3).getD (sbox_address x 3) 0 = s3 at b3 ⊢
    generalize (des_sbox T 4).getD (sbox_address x 4) 0 = s4 at b4 ⊢
    generalize (des_sbox T 5).getD (sbox_address x 5) 0 = s5 at b5 ⊢
    generalize (des_sbox T 6).getD (sbox_address x 6) 0 = s6 at b6 ⊢
    generalize (des_sbox T 7).getD (sbox_address x 7) 0 = s7 at b7 ⊢
    generalize (des_sbox T 8).getD (sbox_address x 8) 0 = s8 at b8 ⊢
    norm_num
    omega

/-- Claim C19. DES Feistel function S-box addressing: for every `R` and subkey `k`, with
`x = do_perm R E 32 48 XOR k`, `do_feistel` returns `do_perm` under the P table (32 to 32)
of the 32-bit word `sbox_word x`; for each `n` in 1..8 the `n`-th nibble of that word from
the most significant end is the entry of S-box `n` at index
`32*b5 + 16*b0 + 8*b4 + 4*b3 + 2*b2 + b1`, where `b5..b0` are the bits of the `n`-th 6-bit
group of `x` from the most significant end, and that index is below 64. -/
theorem do_feistel_sbox_addressing (R k : Nat) :
    do_feistel des_h R k =
      do_perm (sbox_word des_h (do_perm R des_h.exp_table_c 32 48 ^^^ k))
        des_h.sbox_p_table_c 32 32 ∧
    sbox_word des_h (do_perm R des_h.exp_table_c 32 48 ^^^ k) < 2 ^ 32 ∧
    ∀ n, 1 ≤ n → n ≤ 8 →
      sbox_address (do_perm R des_h.exp_table_c 32 48 ^^^ k) n =
        32 * group_bit (do_perm R des_h.exp_table_c 32 48 ^^^ k) n 5 +
          16 * group_bit (do_perm R des_h.exp_table_c 32 48 ^^^ k) n 0 +
          8 * group_bit (do_perm R des_h.exp_table_c 32 48 ^^^ k) n 4 +
          4 * group_bit (do_perm R des_h.exp_table_c 32 48 ^^^ k) n 3 +
          2 * group_bit (do_perm R des_h.exp_table_c 32 48 ^^^ k) n 2 +
          group_bit (do_perm R des_h.exp_table_c 32 48 ^^^ k) n 1 ∧
      sbox_address (do_perm R des_h.exp_table_c 32 48 ^^^ k) n < 64 ∧
      sbox_word des_h (do_perm R des_h.exp_table_c 32 48 ^^^ k) / 2 ^ (4 * (8 - n)) % 16 =
        (des_sbox des_h n).getD (sbox_address (do_perm R des_h.exp_table_c 32 48 ^^^ k) n) 0 :=
  ⟨(do_feistel_eq des_h des_h_sbox_lt R k).1, (do_feistel_eq des_h des_h_sbox_lt R k).2,
    fun n h1 h8 => ⟨rfl, sbox_address_lt _ n, sbox_word_nibble des_h des_h_sbox_lt _ n h1 h8⟩⟩

/-- Claim C20. AES block layout is column-major: `Cipher` and `InvCipher` begin with
`loadState` of the input and end with `storeState` into the output; `loadState` puts input
byte `i` at `state[i mod 4][i div 4]` for every `i` in 0..15, `storeState` takes output
byte `i` from `state[i mod 4][i div 4]`, and the load followed directly by the store is the
identity on 16-byte blocks. -/
theorem aes_block_layout (p o s : List Nat) (hp : p.length = 16) (ho : o.length = 16)
    (hs : s.length = 16) :
    (∀ (T : AesTables) (w : List Nat), Cipher T p o w =
      storeState (AddRoundKey (ShiftRows (SubBytes T
        (forLoop (fun k state => Cipher_round T w (k + 1) state) (Nr - 1)
          (AddRoundKey (loadState p) w 0)))) w Nr) o) ∧
    (∀ (T : AesTables) (w : List Nat), InvCipher T p o w =
      storeState (AddRoundKey (InvSubBytes T (InvShiftRows
        (forLoop (fun k state => InvCipher_round T w (Nr - 1 - k) state) (Nr - 1)
          (AddRoundKey (loadState p) w Nr)))) w 0) o) ∧
    (∀ i, i < 16 → get2 Nb (loadState p) (i % 4) (i / 4) = p.getD i 0) ∧
    (∀ i, i < 16 → (storeState s o).getD i 0 = get2 Nb s (i % 4) (i / 4)) ∧
    storeState (loadState p) o = p :=
  ⟨fun _ _ => rfl, fun _ _ => rfl, fun i hi => loadState_entry p hp i hi,
    fun i hi => storeState_entry s o hs ho i hi, storeState_loadState p o hp ho⟩

theorem aes_block_layout_witness :
    storeState (loadState [0, 1, 2, 3, 4, 5, 6, 7, 8, 9, 10, 11, 12, 13, 14, 15])
        (List.replicate 16 0) =
      [0, 1, 2, 3, 4, 5, 6, 7, 8, 9, 10, 11, 12, 13, 14, 15] :=
  (aes_block_layout [0, 1, 2, 3, 4, 5, 6, 7, 8, 9, 10, 11, 12, 13, 14, 15]
    (List.replicate 16 0) (List.replicate 16 7) rfl rfl rfl).2.2.2.2

/-- Claim C21. The specialised multipliers agree with the generic one: for every byte `x`,
`Mult2GF x = MultGF x 2 = ((2x) mod 256) XOR (0x1B if x >= 0x80 else 0)` and
`Mult3GF x = MultGF x 3 = Mult2GF x XOR x`. -/
theorem specialised_multipliers_agree (x : Nat) (hx : x < 256) :
    Mult2GF x = MultGF x 2 ∧
    Mult2GF x = ((2 * x) % 256) ^^^ (if 0x80 ≤ x then 0x1B else 0) ∧
    Mult3GF x = MultGF x 3 ∧
    Mult3GF x = Mult2GF x ^^^ x :=
  ⟨(MultGF_by_two x hx).symm, Mult2GF_shift_reduce x hx, (MultGF_by_three x hx).symm, rfl⟩

theorem specialised_multipliers_agree_witness :
    Mult2GF 0x80 = MultGF 0x80 2 ∧
    Mult2GF 0x80 = ((2 * 0x80) % 256) ^^^ (if 0x80 ≤ 0x80 then 0x1B else 0) ∧
    Mult3GF 0x80 = MultGF 0x80 3 ∧
    Mult3GF 0x80 = Mult2GF 0x80 ^^^ 0x80 :=
  specialised_multipliers_agree 0x80 (by decide)

/-- Claim C23. The `Nk > 6` branch of `KeyExpansion` is dead for the 128-bit key size: with
`Nk = 4` its condition is false for every `i` (so for every `i` in 4..43), and
`KeyExpansion` with that branch removed produces the same schedule for every key, every
table set and every schedule buffer. -/
theorem KeyExpansion_Nk6_branch_dead :
    (∀ i, 4 ≤ i → i < 44 → ¬ (Nk > 6 ∧ i % Nk = 4)) ∧
    ∀ (T : AesTables) (key w : List Nat),
      KeyExpansion_without_Nk6 T key w = KeyExpansion T key w :=
  ⟨fun i _ _ => Nk6_branch_condition i, KeyExpansion_without_Nk6_eq⟩

/-- Claim C24. `do_perm` never sets a bit outside its output width: for every `data`,
`table`, `sizeIn` and every `sizeOut <= 64` the result is below `2^sizeOut`, that is all
bits at positions `>= sizeOut` are zero, and so it fits the 64-bit result word. -/
theorem do_perm_within_output_width (data : Nat) (table : List Nat) (sizeIn sizeOut : Nat)
    (hout : sizeOut ≤ 64) :
    do_perm data table sizeIn sizeOut < 2 ^ sizeOut ∧
    (∀ j, sizeOut ≤ j → (do_perm data table sizeIn sizeOut).testBit j = false) ∧
    do_perm data table sizeIn sizeOut < 2 ^ 64 :=
  ⟨do_perm_lt _ _ _ _, fun _ hj => testBit_of_lt (do_perm_lt _ _ _ _) hj,
    Nat.lt_of_lt_of_le (do_perm_lt _ _ _ _) (Nat.pow_le_pow_right (by decide) hout)⟩

theorem do_perm_within_output_width_witness :
    do_perm 0xFFFFFFFFFFFFFFFF [1, 2, 3, 4, 5] 64 3 < 2 ^ 3 :=
  (do_perm_within_output_width 0xFFFFFFFFFFFFFFFF [1, 2, 3, 4, 5] 64 3 (by decide)).1

/-- Claim C25. DES key-schedule width invariant: for every key, every table set and every
mode, the PC1 output and the value of `key_56` after each of the 16 `do_key` calls of
`do_des` are below `2^56`, and each of the 16 subkeys is below `2^48`. -/
theorem des_key_schedule_widths (T : DesTables) (key mode : Nat) :
    do_perm key T.pc1_table_c DATA_BIT_WIDTH PC1_BIT_WIDTH < 2 ^ 56 ∧
    (∀ n, n ≤ 16 →
      keyState T mode (do_perm key T.pc1_table_c DATA_BIT_WIDTH PC1_BIT_WIDTH) n < 2 ^ 56) ∧
    (do_des_keys T key mode).1 =
      keyState T mode (do_perm key T.pc1_table_c DATA_BIT_WIDTH PC1_BIT_WIDTH) 16 ∧
    (do_des_keys T key mode).2.length = 16 ∧
    (∀ i, i < 16 → (do_des_keys T key mode).2.getD i 0 < 2 ^ 48) := by
  refine ⟨do_perm_lt _ _ _ _, fun n _ => keyState_lt T mode _ (do_perm_lt _ _ _ _) n,
    (do_des_keys_loop T _ mode 16 (Nat.le_refl _)).1,
    (do_des_keys_loop T _ mode 16 (Nat.le_refl _)).2.1, ?_⟩
  intro i hi
  rw [do_des_keys_getD T key mode i hi]
  exact do_perm_lt _ _ _ _

/-- Claim C26. `AddRoundKey` XORs the state with schedule words `4*round .. 4*round+3`: for
every state `s`, schedule `w`, `round`, row `j` and column `i` in 0..3, entry `[j][i]` of
`AddRoundKey s w round` is `s[j][i] XOR w[j][4*round + i]`; it reads no other schedule
bytes (two schedules that agree on these 16 bytes give the same result), and applying it
twice with the same round restores `s`. -/
theorem AddRoundKey_xors_round_slice (s w : List Nat) (round : Nat) (hs : s.length = 16) :
    (∀ j i, j < 4 → i < 4 →
      get2 Nb (AddRoundKey s w round) j i =
        get2 Nb s j i ^^^ get2 (Nb * (Nr + 1)) w j (4 * round + i)) ∧
    (∀ w2 : List Nat,
      (∀ j i, j < 4 → i < 4 →
        get2 (Nb * (Nr + 1)) w j (4 * round + i) =
          get2 (Nb * (Nr + 1)) w2 j (4 * round + i)) →
      AddRoundKey s w round = AddRoundKey s w2 round) ∧
    AddRoundKey (AddRoundKey s w round) w round = s :=
  ⟨fun j i hj hi => AddRoundKey_entry s w round hs j i hj hi,
    fun w2 h => AddRoundKey_reads_slice s w w2 round hs h,
    AddRoundKey_AddRoundKey s w round hs⟩

theorem AddRoundKey_xors_round_slice_witness :
    AddRoundKey
        (AddRoundKey [0, 1, 2, 3, 4, 5, 6, 7, 8, 9, 10, 11, 12, 13, 14, 15]
          (List.replicate 176 0x5A) 3)
        (List.replicate 176 0x5A) 3 =
      [0, 1, 2, 3, 4, 5, 6, 7, 8, 9, 10, 11, 12, 13, 14, 15] :=
  (AddRoundKey_xors_round_slice [0, 1, 2, 3, 4, 5, 6, 7, 8, 9, 10, 11, 12, 13, 14, 15]
    (List.replicate 176 0x5A) 3 rfl).2.2

/-- Counterexample to claim C27 as stated: 51 applications of `Mult2GF` to 1 already give 1
again, and 51 is at least 1 and less than 255. -/
theorem Mult2GF_returns_to_one_after_51 : 1 ≤ 51 ∧ 51 < 255 ∧ Mult2GF^[51] 1 = 1 :=
  ⟨by decide, by decide, Mult2GF_iterate_51⟩

/-- Claim C27, amended. `Mult2GF` is multiplication by an element of order 51 of GF(2^8),
not by a primitive element: the least `n >= 1` with `Mult2GF` applied `n` times to 1 giving
1 is `n = 51`, so repeated application from 1 reaches only 51 of the 255 non-zero bytes;
the byte 3, for one, is never reached. -/
theorem Mult2GF_order_51 :
    Mult2GF^[51] 1 = 1 ∧
    (∀ n, 1 ≤ n → n < 51 → Mult2GF^[n] 1 ≠ 1) ∧
    (∀ n, Mult2GF^[n] 1 = Mult2GF^[n % 51] 1) ∧
    (∀ n, Mult2GF^[n] 1 ≠ 3) := by
  refine ⟨Mult2GF_iterate_51, fun n h1 h51 => Mult2GF_iterate_lt_51 n h51 h1,
    Mult2GF_iterate_mod, ?_⟩
  intro n
  rw [Mult2GF_iterate_mod n]
  exact Mult2GF_iterate_ne_3 _ (Nat.mod_lt _ (by decide))

/-- Claim C28. DES harness byte order: for every 16 received bytes the harness packs bytes
0..7 into the 64-bit word `data`, the sum of `b_i * 2^(8i)` (byte 0 least significant),
and bytes 8..15 into `key` in the same way; the bytes it sends for a word are the low 8
bits of `word >> 8i` for `i = 0..7`, and sending the packed word returns exactly the bytes
that were packed. -/
theorem des_harness_byte_order (rx : List Nat) (hrx : ByteList 16 rx) :
    (main_extract rx).1 =
      rx.getD 0 0 + rx.getD 1 0 * 2 ^ 8 + rx.getD 2 0 * 2 ^ 16 + rx.getD 3 0 * 2 ^ 24 +
        rx.getD 4 0 * 2 ^ 32 + rx.getD 5 0 * 2 ^ 40 + rx.getD 6 0 * 2 ^ 48 +
        rx.getD 7 0 * 2 ^ 56 ∧
    (main_extract rx).2 =
      rx.getD 8 0 + rx.getD 9 0 * 2 ^ 8 + rx.getD 10 0 * 2 ^ 16 + rx.getD 11 0 * 2 ^ 24 +
        rx.getD 12 0 * 2 ^ 32 + rx.getD 13 0 * 2 ^ 40 + rx.getD 14 0 * 2 ^ 48 +
        rx.getD 15 0 * 2 ^ 56 ∧
    (∀ word : Nat, main_send word =
      [u8 (word >>> 0), u8 (word >>> 8), u8 (word >>> 16), u8 (word >>> 24),
       u8 (word >>> 32), u8 (word >>> 40), u8 (word >>> 48), u8 (word >>> 56)]) ∧
    main_send (main_extract rx).1 =
      [rx.getD 0 0, rx.getD 1 0, rx.getD 2 0, rx.getD 3 0, rx.getD 4 0, rx.getD 5 0,
       rx.getD 6 0, rx.getD 7 0] := by
  have g := getD_byte rx hrx.2
  have e1 : (main_extract rx).1 = _ :=
    (congrArg Prod.fst (main_extract_eq rx)).trans
      (pack8_eq _ _ _ _ _ _ _ _ (g 0) (g 1) (g 2) (g 3) (g 4) (g 5) (g 6) (g 7))
  have e2 : (main_extract rx).2 = _ :=
    (congrArg Prod.snd (main_extract_eq rx)).trans
      (pack8_eq _ _ _ _ _ _ _ _ (g 8) (g 9) (g 10) (g 11) (g 12) (g 13) (g 14) (g 15))
  refine ⟨e1, e2, main_send_eq, ?_⟩
  rw [e1]
  exact main_send_pack8 _ _ _ _ _ _ _ _ (g 0) (g 1) (g 2) (g 3) (g 4) (g 5) (g 6) (g 7)

theorem des_harness_byte_order_witness :
    main_send
        (main_extract [0xEF, 0xCD, 0xAB, 0x89, 0x67, 0x45, 0x23, 0x01,
          0xF1, 0xDF, 0xBC, 0x9B, 0x79, 0x57, 0x34, 0x13]).1 =
      [[0xEF, 0xCD, 0xAB, 0x89, 0x67, 0x45, 0x23, 0x01,
          0xF1, 0xDF, 0xBC, 0x9B, 0x79, 0x57, 0x34, 0x13].getD 0 0,
       [0xEF, 0xCD, 0xAB, 0x89, 0x67, 0x45, 0x23, 0x01,
          0xF1, 0xDF, 0xBC, 0x9B, 0x79, 0x57, 0x34, 0x13].getD 1 0,
       [0xEF, 0xCD, 0xAB, 0x89, 0x67, 0x45, 0x23, 0x01,
          0xF1, 0xDF, 0xBC, 0x9B, 0x79, 0x57, 0x34, 0x13].getD 2 0,
       [0xEF, 0xCD, 0xAB, 0x89, 0x67, 0x45, 0x23, 0x01,
          0xF1, 0xDF, 0xBC, 0x9B, 0x79, 0x57, 0x34, 0x13].getD 3 0,
       [0xEF, 0xCD, 0xAB, 0x89, 0x67, 0x45, 0x23, 0x01,
          0xF1, 0xDF, 0xBC, 0x9B, 0x79, 0x57, 0x34, 0x13].getD 4 0,
       [0xEF, 0xCD, 0xAB, 0x89, 0x67, 0x45, 0x23, 0x01,
          0xF1, 0xDF, 0xBC, 0x9B, 0x79, 0x57, 0x34, 0x13].getD 5 0,
       [0xEF, 0xCD, 0xAB, 0x89, 0x67, 0x45, 0x23, 0x01,
          0xF1, 0xDF, 0xBC, 0x9B, 0x79, 0x57, 0x34, 0x13].getD 6 0,
       [0xEF, 0xCD, 0xAB, 0x89, 0x67, 0x45, 0x23, 0x01,
          0xF1, 0xDF, 0xBC, 0x9B, 0x79, 0x57, 0x34, 0x13].getD 7 0] :=
  (des_harness_byte_order [0xEF, 0xCD, 0xAB, 0x89, 0x67, 0x45, 0x23, 0x01,
    0xF1, 0xDF, 0xBC, 0x9B, 0x79, 0x57, 0x34, 0x13] ⟨rfl, by decide⟩).2.2.2

/-- Claim C29. `Cipher` and `InvCipher` are mutually inverse for any schedule, not only one
produced by `KeyExpansion`: for every table set whose `Sbox` holds bytes and whose
`InvSbox` inverts `Sbox` on the bytes, every 4x44-byte schedule `w` and every 16-byte block
`x`, `InvCipher (Cipher x w) w = x` and `Cipher (InvCipher x w) w = x`. -/
theorem Cipher_InvCipher_mutually_inverse (T : AesTables)
    (hS : ∀ b, T.Sbox.getD b 0 < 256)
    (hI : ∀ b, b < 256 → T.InvSbox.getD (T.Sbox.getD b 0) 0 = b)
    (w : List Nat) (hw : ByteList 176 w) (x o1 o2 : List Nat) (hx : ByteList 16 x)
    (ho1 : o1.length = 16) (ho2 : o2.length = 16) :
    InvCipher T (Cipher T x o1 w) o2 w = x ∧ Cipher T (InvCipher T x o1 w) o2 w = x :=
  ⟨InvCipher_Cipher T hS hI w hw.2 x o1 o2 hx ho1 ho2,
    Cipher_InvCipher T (fun y hy => (Sbox_InvSbox_of_left_inverse T hS hI y hy).1)
      (fun y hy => (Sbox_InvSbox_of_left_inverse T hS hI y hy).2) w hw.2 x o1 o2 hx ho1 ho2⟩

theorem Cipher_InvCipher_mutually_inverse_witness :
    InvCipher aes_h
        (Cipher aes_h [1, 2, 3, 4, 5, 6, 7, 8, 9, 10, 11, 12, 13, 14, 15, 255]
          (List.replicate 16 0) (List.replicate 176 0x5A))
        (List.replicate 16 0) (List.replicate 176 0x5A) =
      [1, 2, 3, 4, 5, 6, 7, 8, 9, 10, 11, 12, 13, 14, 15, 255] ∧
    Cipher aes_h
        (InvCipher aes_h [1, 2, 3, 4, 5, 6, 7, 8, 9, 10, 11, 12, 13, 14, 15, 255]
          (List.replicate 16 0) (List.replicate 176 0x5A))
        (List.replicate 16 0) (List.replicate 176 0x5A) =
      [1, 2, 3, 4, 5, 6, 7, 8, 9, 10, 11, 12, 13, 14, 15, 255] :=
  Cipher_InvCipher_mutually_inverse aes_h aes_h_Sbox_byte aes_h_InvSbox_Sbox
    (List.replicate 176 0x5A)
    ⟨rfl, fun b hb => by rw [List.eq_of_mem_replicate hb]; decide⟩
    [1, 2, 3, 4, 5, 6, 7, 8, 9, 10, 11, 12, 13, 14, 15, 255]
    (List.replicate 16 0) (List.replicate 16 0) ⟨rfl, by decide⟩ rfl rfl

/-- Claim C30. A single DES round is undone by itself between half swaps, whatever the
S-box and permutation tables are: for every 64-bit `d` and subkey `k`, with `swap_halves`
exchanging the upper and lower 32-bit halves,
`swap_halves (do_round (swap_halves (do_round d k)) k) = d`. -/
theorem do_round_undone_between_swaps (T : DesTables) (d k : Nat) (hd : d < 2 ^ 64) :
    swap_halves (do_round T (swap_halves (do_round T d k)) k) = d := by
  rw [do_round_swap, swap_halves_swap_halves d hd]

theorem do_round_undone_between_swaps_witness :
    swap_halves (do_round des_h (swap_halves (do_round des_h 0x0123456789ABCDEF 5)) 5) =
      0x0123456789ABCDEF :=
  do_round_undone_between_swaps des_h 0x0123456789ABCDEF 5 (by decide)

/-- Claim C31. The final permutation inverts the initial permutation: for every 64-bit `x`,
`do_perm (do_perm x IP 64 64) FP 64 64 = x` and `do_perm (do_perm x FP 64 64) IP 64 64 = x`,
the tables being the standard IP and FP held by `des_h`. -/
theorem final_permutation_inverts_initial (x : Nat) (hx : x < 2 ^ 64) :
    do_perm (do_perm x des_h.ip_table_c 64 64) des_h.fp_table_c 64 64 = x ∧
    do_perm (do_perm x des_h.fp_table_c 64 64) des_h.ip_table_c 64 64 = x :=
  ⟨des_h_fp_ip x hx, des_h_ip_fp x hx⟩

theorem final_permutation_inverts_initial_witness :
    do_perm (do_perm 0x0123456789ABCDEF des_h.ip_table_c 64 64) des_h.fp_table_c 64 64 =
      0x0123456789ABCDEF ∧
    do_perm (do_perm 0x0123456789ABCDEF des_h.fp_table_c 64 64) des_h.ip_table_c 64 64 =
      0x0123456789ABCDEF :=
  final_permutation_inverts_initial 0x0123456789ABCDEF (by decide)

/-- Claim C32. DES complementation: for every 64-bit block `P`, 64-bit key `K` and mode in
`MODE_CIPHER`, `MODE_DECIPHER`, `do_des (NOT P) (NOT K) mode = NOT (do_des P K mode)`, where
`NOT x = 2^64 - 1 - x` is the 64-bit bitwise complement, for the tables `des_h`. -/
theorem des_complementation (P K mode : Nat) (hP : P < 2 ^ 64) (hK : K < 2 ^ 64)
    (hm : mode = MODE_CIPHER ∨ mode = MODE_DECIPHER) :
    do_des des_h (2 ^ 64 - 1 - P) (2 ^ 64 - 1 - K) mode =
      2 ^ 64 - 1 - do_des des_h P K mode := by
  rw [← xor_ones P 64 hP, ← xor_ones K 64 hK, ← xor_ones _ 64 (do_des_lt des_h P K mode)]
  exact des_h_complementation P K mode hm

theorem des_complementation_witness :
    do_des des_h (2 ^ 64 - 1 - 0x0123456789ABCDEF) (2 ^ 64 - 1 - 0x133457799BBCDFF1)
        MODE_CIPHER =
      2 ^ 64 - 1 - do_des des_h 0x0123456789ABCDEF 0x133457799BBCDFF1 MODE_CIPHER :=
  des_complementation 0x0123456789ABCDEF 0x133457799BBCDFF1 MODE_CIPHER (by decide)
    (by decide) (Or.inl rfl)

/-- Claim C33. The eight parity bits of a DES key do not influence the result: for every
block `P`, every mode, and keys `K` and `K2` that agree outside the mask
0x0101010101010101 (the least significant bit of each key byte, table positions
8,16,...,64), `do_des P K mode = do_des P K2 mode`, for the tables `des_h`. -/
theorem des_parity_bits_ignored (P K K2 mode : Nat)
    (h : K &&& 0xFEFEFEFEFEFEFEFE = K2 &&& 0xFEFEFEFEFEFEFEFE) :
    do_perm K des_h.pc1_table_c 64 56 = do_perm K2 des_h.pc1_table_c 64 56 ∧
    do_des des_h P K mode = do_des des_h P K2 mode := by
  have e := des_h_pc1_parity K K2 h
  refine ⟨e, ?_⟩
  unfold do_des do_des_keys
  dsimp only
  rw [show do_perm K des_h.pc1_table_c DATA_BIT_WIDTH PC1_BIT_WIDTH =
    do_perm K2 des_h.pc1_table_c DATA_BIT_WIDTH PC1_BIT_WIDTH from e]

theorem des_parity_bits_ignored_witness :
    do_des des_h 0x0123456789ABCDEF 0x133457799BBCDFF1 MODE_CIPHER =
      do_des des_h 0x0123456789ABCDEF 0x123456789ABCDEF0 MODE_CIPHER :=
  (des_parity_bits_ignored 0x0123456789ABCDEF 0x133457799BBCDFF1 0x123456789ABCDEF0
    MODE_CIPHER (by decide)).2

/-- Claim C34. The encrypt rotation amounts sum to 28, so the key state returns to its
start: for every key, after the 16 `do_key` calls of `do_des` in `MODE_CIPHER` the value of
`key_56` equals `do_perm key PC1 64 56` again, and therefore the last encrypt subkey equals
`do_perm (do_perm key PC1 64 56) PC2 56 48`, for the tables `des_h`. -/
theorem des_encrypt_key_state_returns (key : Nat) :
    des_h.encrypt_rotate_tab.sum = 28 ∧
    (do_des_keys des_h key MODE_CIPHER).1 = do_perm key des_h.pc1_table_c 64 56 ∧
    (do_des_keys des_h key MODE_CIPHER).2.getD 15 0 =
      do_perm (do_perm key des_h.pc1_table_c 64 56) des_h.pc2_table_c 56 48 := by
  have hk : do_perm key des_h.pc1_table_c DATA_BIT_WIDTH PC1_BIT_WIDTH < 2 ^ 56 :=
    do_perm_lt _ _ _ _
  refine ⟨by decide, ?_, ?_⟩
  · exact ((do_des_keys_loop des_h _ MODE_CIPHER 16 (Nat.le_refl _)).1).trans
      (des_h_keyState_cipher_16 _ hk)
  · rw [do_des_keys_getD des_h key MODE_CIPHER 15 (by decide),
      des_h_keyState_cipher_16 _ hk]
    rfl

/-- Claim C35. `MultGF` is commutative: for all bytes `a` and `b`,
`MultGF a b = MultGF b a`, although the loop treats its two operands differently. -/
theorem MultGF_commutative (a b : Nat) (ha : a < 256) (hb : b < 256) :
    MultGF a b = MultGF b a :=
  MultGF_comm a b ha hb

theorem MultGF_commutative_witness : MultGF 0x57 0x83 = MultGF 0x83 0x57 :=
  MultGF_commutative 0x57 0x83 (by decide) (by decide)

/-- Claim C36. `MultGF` distributes over XOR in each argument: for all bytes `a`, `b`, `c`,
`MultGF (a XOR b) c = MultGF a c XOR MultGF b c` and
`MultGF c (a XOR b) = MultGF c a XOR MultGF c b`; consequently `MixColumns` and
`InvMixColumns` are XOR-linear maps on states, `xorState` being the entry-wise XOR of two
states. -/
theorem MultGF_distributes_over_xor (a b c : Nat) (ha : a < 256) (hb : b < 256)
    (hc : c < 256) :
    a ^^^ b < 256 ∧ MultGF c (a ^^^ b) < 256 ∧
    MultGF (a ^^^ b) c = MultGF a c ^^^ MultGF b c ∧
    MultGF c (a ^^^ b) = MultGF c a ^^^ MultGF c b ∧
    (∀ s t : List Nat, ByteList 16 s → ByteList 16 t →
      MixColumns (xorState s t) = xorState (MixColumns s) (MixColumns t) ∧
      InvMixColumns (xorState s t) = xorState (InvMixColumns s) (InvMixColumns t)) :=
  ⟨xor_byte ha hb, MultGF_lt c _ hc, MultGF_xor_left a b c, MultGF_xor_right c a b,
    fun s t hs ht => ⟨MixColumns_xorState s t hs.1 ht.1,
      InvMixColumns_xorState s t hs.1 ht.1⟩⟩

theorem MultGF_distributes_over_xor_witness :
    MultGF (0x57 ^^^ 0x13) 0x83 = MultGF 0x57 0x83 ^^^ MultGF 0x13 0x83 :=
  (MultGF_distributes_over_xor 0x57 0x13 0x83 (by decide) (by decide) (by decide)).2.2.1

/-- Claim C37. Byte substitution and row rotation commute, which is what lets `InvCipher`
apply `InvShiftRows` before `InvSubBytes`: for every state `s`,
`ShiftRows (SubBytes s) = SubBytes (ShiftRows s)` and
`InvShiftRows (InvSubBytes s) = InvSubBytes (InvShiftRows s)`, whatever the contents of
the tables. -/
theorem SubBytes_commutes_with_ShiftRows (T : AesTables) (s : List Nat)
    (hs : s.length = 16) :
    ShiftRows (SubBytes T s) = SubBytes T (ShiftRows s) ∧
    InvShiftRows (InvSubBytes T s) = InvSubBytes T (InvShiftRows s) :=
  ⟨ShiftRows_SubBytes T s hs, InvShiftRows_InvSubBytes T s hs⟩

theorem SubBytes_commutes_with_ShiftRows_witness :
    ShiftRows (SubBytes aes_h [0, 1, 2, 3, 4, 5, 6, 7, 8, 9, 10, 11, 12, 13, 14, 15]) =
      SubBytes aes_h (ShiftRows [0, 1, 2, 3, 4, 5, 6, 7, 8, 9, 10, 11, 12, 13, 14, 15]) ∧
    InvShiftRows (InvSubBytes aes_h [0, 1, 2, 3, 4, 5, 6, 7, 8, 9, 10, 11, 12, 13, 14, 15]) =
      InvSubBytes aes_h (InvShiftRows [0, 1, 2, 3, 4, 5, 6, 7, 8, 9, 10, 11, 12, 13, 14, 15]) :=
  SubBytes_commutes_with_ShiftRows aes_h [0, 1, 2, 3, 4, 5, 6, 7, 8, 9, 10, 11, 12, 13, 14, 15]
    rfl

/-- Claim C38. The inverse S-box undoes the S-box: for every byte `x`,
`InvSbox[Sbox[x]] = x` and `Sbox[InvSbox[x]] = x`, hence for every byte state `s`,
`InvSubBytes (SubBytes s) = s`; `Sbox` and `InvSbox` are the FIPS-197 tables held by
`aes_h`, of 256 entries each. -/
theorem InvSbox_undoes_Sbox :
    aes_h.Sbox.length = 256 ∧ aes_h.InvSbox.length = 256 ∧
    (∀ x, x < 256 →
      aes_h.InvSbox.getD (aes_h.Sbox.getD x 0) 0 = x ∧
      aes_h.Sbox.getD (aes_h.InvSbox.getD x 0) 0 = x) ∧
    (∀ s, ByteList 16 s → InvSubBytes aes_h (SubBytes aes_h s) = s) :=
  ⟨aes_h_lengths.1, aes_h_lengths.2,
    fun x hx => ⟨aes_h_InvSbox_Sbox x hx, aes_h_Sbox_InvSbox x hx⟩,
    fun s hs => InvSubBytes_SubBytes aes_h aes_h_InvSbox_Sbox s hs⟩

/-- Claim C39. `do_perm` is XOR-linear in its data: for every table, `sizeIn <= 64`,
`sizeOut <= 64` with the first `sizeOut` table entries in `1..sizeIn`, and all `a` and `b`,
`do_perm (a XOR b) = do_perm a XOR do_perm b`, and the result depends only on the low
`sizeIn` bits of the data. -/
theorem do_perm_xor_linear (table : List Nat) (sizeIn sizeOut : Nat) (hin : sizeIn ≤ 64)
    (hout : sizeOut ≤ 64)
    (htab : ∀ i, i < sizeOut → 1 ≤ table.getD i 0 ∧ table.getD i 0 ≤ sizeIn) (a b : Nat) :
    do_perm (a ^^^ b) table sizeIn sizeOut =
      do_perm a table sizeIn sizeOut ^^^ do_perm b table sizeIn sizeOut ∧
    do_perm (a % 2 ^ sizeIn) table sizeIn sizeOut = do_perm a table sizeIn sizeOut ∧
    (a % 2 ^ sizeIn = b % 2 ^ sizeIn →
      do_perm a table sizeIn sizeOut = do_perm b table sizeIn sizeOut) ∧
    do_perm (a ^^^ b) table sizeIn sizeOut < 2 ^ 64 := by
  refine ⟨do_perm_xor a b table sizeIn sizeOut,
    do_perm_low_bits a table sizeIn sizeOut hin htab, ?_,
    Nat.lt_of_lt_of_le (do_perm_lt _ _ _ _) (Nat.pow_le_pow_right (by decide) hout)⟩
  intro h
  rw [← do_perm_low_bits a table sizeIn sizeOut hin htab, h,
    do_perm_low_bits b table sizeIn sizeOut hin htab]

theorem do_perm_xor_linear_witness :
    do_perm (0b1010 ^^^ 0b0110) [2, 1, 4, 3] 4 4 =
      do_perm 0b1010 [2, 1, 4, 3] 4 4 ^^^ do_perm 0b0110 [2, 1, 4, 3] 4 4 :=
  (do_perm_xor_linear [2, 1, 4, 3] 4 4 (by decide) (by decide) (by decide) 0b1010 0b0110).1

/-- Claim C40. An unrecognised mode is not rejected and performs no rotation: for every
`key56 < 2^56`, every round and every mode that is neither `MODE_CIPHER` nor
`MODE_DECIPHER`, `do_key` leaves `key56` unchanged and returns `do_perm key56 PC2 56 48`,
so `do_des` with such a mode uses 16 identical subkeys, for every table set. -/
theorem do_key_unrecognised_mode (T : DesTables) (mode : Nat) (h1 : mode ≠ MODE_CIPHER)
    (h2 : mode ≠ MODE_DECIPHER) :
    (∀ key56 round, key56 < 2 ^ 56 →
      do_key T key56 round mode = (key56, do_perm key56 T.pc2_table_c 56 48)) ∧
    (∀ key i, i < 16 →
      (do_des_keys T key mode).2.getD i 0 =
        do_perm (do_perm key T.pc1_table_c 64 56) T.pc2_table_c 56 48) := by
  refine ⟨fun key56 round hk => do_key_other_mode T key56 round mode hk h1 h2, ?_⟩
  intro key i hi
  have hk : do_perm key T.pc1_table_c DATA_BIT_WIDTH PC1_BIT_WIDTH < 2 ^ 56 :=
    do_perm_lt _ _ _ _
  rw [do_des_keys_getD T key mode i hi, keyState_other_mode T mode _ hk h1 h2]
  rfl

theorem do_key_unrecognised_mode_witness :
    do_key des_h 0x00F0CCAA0AACCF00 3 2 =
      (0x00F0CCAA0AACCF00, do_perm 0x00F0CCAA0AACCF00 des_h.pc2_table_c 56 48) :=
  (do_key_unrecognised_mode des_h 2 (by decide) (by decide)).1 0x00F0CCAA0AACCF00 3
    (by decide)

end SecretBlaze
